import Mathlib

/-!
# logHandler

A shallow embedding of the two Go packages of the repository:

* `logHandler` (`loghandler.go`): a file logger with size-based rotation
  (`New`, `Log`, `checkRotate`, `rotate`), age-based cleanup (`CleanOldLogs`)
  and a reachability probe (`CheckNetworkPath`);
* `logger` (`logger.go`): a console logger that tags messages with a severity
  label.

The Go standard library is not part of the repository.  The parts the program
relies on (`time.Time.Format`, `time.Date` and `Time.AddDate`, `log.Logger`,
`path/filepath`, the file system calls of `os`) are transcribed from the
library for a Unix target, with strings as lists of characters.  The file
system is a flat map from path strings to inodes; open files are objects in a
heap, so that two references to one `*os.File` observe the same `Close`.  A
write sets the modification time of its file to the reading of the clock, and
the local time zone is a parameter of the environment.
-/

namespace LogHandler

/-- Go strings. -/
abbrev Str := List Char

/-! ## `time`: clock readings and `Format` -/

/-- One reading of the wall clock, as `time.Now()` reports it: the civil
fields used for formatting and the absolute instant used for comparisons. -/
structure Time where
  year : Nat
  month : Nat
  day : Nat
  hour : Nat
  minute : Nat
  second : Nat
  nano : Nat
  unixNano : Int
  deriving DecidableEq, Repr

/-- The civil fields are in the ranges of a calendar date with a 4-digit year. -/
def Time.Valid (t : Time) : Prop :=
  t.year < 10000 ∧ 1 ≤ t.month ∧ t.month ≤ 12 ∧ 1 ≤ t.day ∧ t.day ≤ 31 ∧
    t.hour < 24 ∧ t.minute < 60 ∧ t.second < 60 ∧ t.nano < 1000000000

instance (t : Time) : Decidable t.Valid := by
  unfold Time.Valid; infer_instance

/-- The byte `'0' + u`. -/
def utod (u : Nat) : Char := Char.ofNat (48 + u)

/-- Decimal digits of `u`, most significant first, through at most `fuel`
divisions (20 suffice for a 64-bit value). -/
def decimalLoop : Nat → Nat → Str
  | 0, u => [utod (u % 10)]
  | fuel + 1, u => if u < 10 then [utod u] else decimalLoop fuel (u / 10) ++ [utod (u % 10)]

/-- Decimal digits of `u`. -/
def decimal (u : Nat) : Str := decimalLoop 20 u

/-- The function `appendInt` of package `time`: the decimal form of `x`,
zero-padded on the left to `width` (the two fast paths of the library first). -/
def appendInt (x : Nat) (width : Nat) : Str :=
  if width = 2 ∧ x < 100 then [utod (x / 10), utod (x % 10)]
  else if width = 4 ∧ x < 10000 then
    [utod (x / 1000), utod (x / 100 % 10), utod (x / 10 % 10), utod (x % 10)]
  else List.replicate (width - (decimal x).length) '0' ++ decimal x

/-- The elements a layout string is made of (the `std...` codes of the library). -/
inductive Std
  | longMonth | month | numMonth | zeroMonth
  | longWeekDay | weekDay
  | day | underDay | zeroDay | underYearDay | zeroYearDay
  | hour | hour12 | zeroHour12
  | minute | zeroMinute | second | zeroSecond
  | longYear | year
  | PM | pm
  | zone (form : Str)
  | fracSecond0 (digits : Nat) (sep : Char)
  | fracSecond9 (digits : Nat) (sep : Char)
  deriving DecidableEq, Repr

/-- If `p` starts `s`, what follows it. -/
def dropLead? : Str → Str → Option Str
  | [], s => some s
  | _ :: _, [] => none
  | a :: p, b :: s => if a = b then dropLead? p s else none

/-- The function `startsWithLowerCase` of package `time`. -/
def startsWithLowerCase : Str → Bool
  | [] => false
  | c :: _ => decide ('a' ≤ c ∧ c ≤ 'z')

/-- Is the first character a decimal digit (`isDigit(layout, j)`). -/
def isDigitAt : Str → Bool
  | [] => false
  | c :: _ => decide ('0' ≤ c ∧ c ≤ '9')

/-- The first zone form among `forms` that starts `layout`. -/
def zoneAt (layout : Str) : List Str → Option (Str × Std × Str)
  | [] => none
  | f :: fs =>
    match dropLead? f layout with
    | some r => some ([], Std.zone f, r)
    | none => zoneAt layout fs

/-- One iteration of the scanning loop of `nextStdChunk`: the layout element
that starts at the head of `layout`, if any, as (literal text kept before the
element, element, rest of the layout). -/
def stdAt (layout : Str) : Option (Str × Std × Str) :=
  match layout with
  | [] => none
  | 'J' :: _ =>
    match dropLead? "Jan".toList layout with
    | some r3 =>
      match dropLead? "January".toList layout with
      | some r => some ([], Std.longMonth, r)
      | none => if startsWithLowerCase r3 then none else some ([], Std.month, r3)
    | none => none
  | 'M' :: _ =>
    match dropLead? "Mon".toList layout with
    | some r3 =>
      match dropLead? "Monday".toList layout with
      | some r => some ([], Std.longWeekDay, r)
      | none => if startsWithLowerCase r3 then none else some ([], Std.weekDay, r3)
    | none =>
      match dropLead? "MST".toList layout with
      | some r => some ([], Std.zone "MST".toList, r)
      | none => none
  | '0' :: '1' :: r => some ([], Std.zeroMonth, r)
  | '0' :: '2' :: r => some ([], Std.zeroDay, r)
  | '0' :: '3' :: r => some ([], Std.zeroHour12, r)
  | '0' :: '4' :: r => some ([], Std.zeroMinute, r)
  | '0' :: '5' :: r => some ([], Std.zeroSecond, r)
  | '0' :: '6' :: r => some ([], Std.year, r)
  | '0' :: '0' :: '2' :: r => some ([], Std.zeroYearDay, r)
  | '1' :: '5' :: r => some ([], Std.hour, r)
  | '1' :: r => some ([], Std.numMonth, r)
  | '2' :: '0' :: '0' :: '6' :: r => some ([], Std.longYear, r)
  | '2' :: r => some ([], Std.day, r)
  | '_' :: '2' :: '0' :: '0' :: '6' :: r => some (['_'], Std.longYear, r)
  | '_' :: '2' :: r => some ([], Std.underDay, r)
  | '_' :: '_' :: '2' :: r => some ([], Std.underYearDay, r)
  | '3' :: r => some ([], Std.hour12, r)
  | '4' :: r => some ([], Std.minute, r)
  | '5' :: r => some ([], Std.second, r)
  | 'P' :: 'M' :: r => some ([], Std.PM, r)
  | 'p' :: 'm' :: r => some ([], Std.pm, r)
  | '-' :: _ =>
    zoneAt layout ["-070000".toList, "-07:00:00".toList, "-0700".toList, "-07:00".toList,
      "-07".toList]
  | 'Z' :: _ =>
    zoneAt layout ["Z070000".toList, "Z07:00:00".toList, "Z0700".toList, "Z07:00".toList,
      "Z07".toList]
  | c :: d :: r =>
    if (c = '.' ∨ c = ',') ∧ (d = '0' ∨ d = '9') then
      let run := (d :: r).takeWhile (fun x => x = d)
      let after := (d :: r).dropWhile (fun x => x = d)
      if isDigitAt after then none
      else if d = '9' then some ([], Std.fracSecond9 run.length c, after)
      else some ([], Std.fracSecond0 run.length c, after)
    else none
  | _ => none

/-- The function `nextStdChunk` of package `time`: the literal text before the
first layout element, that element (`none` when the layout holds no further
element) and the rest of the layout. -/
def nextStdChunk : Str → Str × Option Std × Str
  | [] => ([], none, [])
  | c :: rest =>
    match stdAt (c :: rest) with
    | some (lit, std, suffix) => (lit, some std, suffix)
    | none =>
      match nextStdChunk rest with
      | (lit, std, suffix) => (c :: lit, std, suffix)

/-- English month names (`Month.String`). -/
def monthName (m : Nat) : Str :=
  match m with
  | 1 => "January".toList | 2 => "February".toList | 3 => "March".toList
  | 4 => "April".toList | 5 => "May".toList | 6 => "June".toList
  | 7 => "July".toList | 8 => "August".toList | 9 => "September".toList
  | 10 => "October".toList | 11 => "November".toList | 12 => "December".toList
  | n => "%!Month(".toList ++ decimal n ++ [')']

/-- The function `appendNano` of package `time`: the separator and the first
`n` of the nine digits of the nanosecond; in the trimming form (`9`s in the
layout) trailing zeros and a bare separator are dropped. -/
def appendNano (nanosec : Nat) (n : Nat) (sep : Char) (trim : Bool) : Str :=
  if trim ∧ (n = 0 ∨ nanosec = 0) then []
  else
    let b := sep :: (appendInt nanosec 9).take n
    if trim then
      let b1 := (b.reverse.dropWhile (fun c => c = '0')).reverse
      match b1.reverse with
      | c :: r => if c = '.' ∨ c = ',' then r.reverse else b1
      | [] => b1
    else b

/-- The text one layout element produces (the `switch std & stdMask` of
`AppendFormat`).  Week days, days of the year and zones are outside the model
and produce no text; no layout of the program contains them. -/
def appendStd (t : Time) : Std → Str
  | Std.year => appendInt (t.year % 100) 2
  | Std.longYear => appendInt t.year 4
  | Std.month => (monthName t.month).take 3
  | Std.longMonth => monthName t.month
  | Std.numMonth => appendInt t.month 0
  | Std.zeroMonth => appendInt t.month 2
  | Std.day => appendInt t.day 0
  | Std.underDay => (if t.day < 10 then [' '] else []) ++ appendInt t.day 0
  | Std.zeroDay => appendInt t.day 2
  | Std.hour => appendInt t.hour 2
  | Std.hour12 => appendInt (if t.hour % 12 = 0 then 12 else t.hour % 12) 0
  | Std.zeroHour12 => appendInt (if t.hour % 12 = 0 then 12 else t.hour % 12) 2
  | Std.minute => appendInt t.minute 0
  | Std.zeroMinute => appendInt t.minute 2
  | Std.second => appendInt t.second 0
  | Std.zeroSecond => appendInt t.second 2
  | Std.PM => if 12 ≤ t.hour then "PM".toList else "AM".toList
  | Std.pm => if 12 ≤ t.hour then "pm".toList else "am".toList
  | Std.fracSecond0 n sep => appendNano t.nano n sep false
  | Std.fracSecond9 n sep => appendNano t.nano n sep true
  | _ => []

/-- The loop of `AppendFormat`, unrolled at most `fuel` times. -/
def formatLoop (t : Time) : Nat → Str → Str
  | 0, _ => []
  | fuel + 1, layout =>
    match layout with
    | [] => []
    | _ :: _ =>
      match nextStdChunk layout with
      | (lit, none, _) => lit
      | (lit, some std, suffix) => lit ++ appendStd t std ++ formatLoop t fuel suffix

/-- The method `Time.Format`: every pass of the loop consumes a character of
the layout, so its length bounds the number of passes. -/
def Time.Format (t : Time) (layout : Str) : Str :=
  formatLoop t (layout.length + 1) layout

/-! ## `time`: `Date` and `AddDate` -/

/-- A `*time.Location`, reduced to its method `lookup`: for an instant in
seconds of Unix time, the offset east of UTC in force then and the bounds
`start ≤ · < end` of the period in which it is in force. -/
abbrev Location := Int → Int × Int × Int

/-- The location `time.UTC`. -/
def utcLoc : Location := fun _ => (0, -9223372036854775808, 9223372036854775807)

/-- The function `norm` of package `time`: `(hi, lo)` with `lo` brought into
`[0, base)` and the overflow carried into `hi`. -/
def norm (hi lo base : Int) : Int × Int :=
  let n1 := (-lo - 1) / base + 1
  let hi1 := if lo < 0 then hi - n1 else hi
  let lo1 := if lo < 0 then lo + n1 * base else lo
  if lo1 ≥ base then (hi1 + lo1 / base, lo1 - lo1 / base * base) else (hi1, lo1)

/-- The function `isLeap` of package `time`. -/
def isLeap (year : Int) : Bool := year % 4 = 0 ∧ (year % 100 ≠ 0 ∨ year % 400 = 0)

/-- The table `daysBefore` of package `time`: the days of a non-leap year
before the month begins. -/
def daysBefore (month : Int) : Int :=
  [0, 31, 59, 90, 120, 151, 181, 212, 243, 273, 304, 334, 365].getD (month - 1).toNat 0

/-- The function `daysSinceEpoch` of package `time`: the days from the
absolute epoch (year -292277022399) to the start of `year`, in `uint64`. -/
def daysSinceEpoch (year : Int) : Int :=
  let y := (year + 292277022399) % 18446744073709551616
  let n400 := y / 400
  let y1 := y - 400 * n400
  let n100 := y1 / 100
  let y2 := y1 - 100 * n100
  let n4 := y2 / 4
  let y3 := y2 - 4 * n4
  146097 * n400 + 36524 * n100 + 1461 * n4 + 365 * y3

/-- Conversion to `int64`: the value modulo `2^64` in the signed range. -/
def toInt64 (x : Int) : Int :=
  (x + 9223372036854775808) % 18446744073709551616 - 9223372036854775808

/-- The function `time.Date`, reduced to the instant it denotes, in
nanoseconds of Unix time: the fields are normalised, the days since the
absolute epoch are counted, and the wall time is moved to UTC by the offset
that `loc` reports for it (looked up a second time when the first guess falls
outside the period of its offset). -/
def Date (loc : Location) (year month day hour min sec nsec : Int) : Int :=
  let ym := norm year (month - 1) 12
  let month1 := ym.2 + 1
  let sn := norm sec nsec 1000000000
  let ms := norm min sn.1 60
  let hm := norm hour ms.1 60
  let dh := norm day hm.1 24
  let d := daysSinceEpoch ym.1 + daysBefore month1 +
    (if isLeap ym.1 ∧ month1 ≥ 3 then 1 else 0) + (dh.1 - 1)
  let abs := d * 86400 + (dh.2 * 3600 + hm.2 * 60 + ms.2)
  let unix := toInt64 (abs + (-9223371966579724800 + -62135596800))
  let offset := (loc unix).1
  let unix1 :=
    if offset ≠ 0 then
      if unix - offset < (loc unix).2.1 ∨ unix - offset ≥ (loc unix).2.2 then
        unix - (loc (unix - offset)).1
      else unix - offset
    else unix
  unix1 * 1000000000 + sn.2

/-- The method `Time.AddDate`, reduced to the instant of its result: the
civil fields of `t` with the differences added go through `Date` in the
location of `t`. -/
def AddDate (loc : Location) (t : Time) (years months days : Int) : Int :=
  Date loc (t.year + years) (t.month + months) (t.day + days) t.hour t.minute t.second t.nano

/-! ## `log`: the line header -/

/-- The flag bits of a `log.Logger` that select the parts of the header
(`LUTC` is not modelled; neither logger of the repository sets it). -/
structure Flags where
  date : Bool
  time : Bool
  microseconds : Bool
  longfile : Bool
  shortfile : Bool
  msgprefix : Bool
  deriving DecidableEq, Repr

/-- The flag set `log.LstdFlags` = `Ldate | Ltime`. -/
def LstdFlags : Flags := ⟨true, true, false, false, false, false⟩

/-- The flag set `log.LstdFlags | log.Lshortfile`. -/
def LstdFlagsShortfile : Flags := ⟨true, true, false, false, true, false⟩

/-- The loop of `itoa` of package `log`, over its 20-byte buffer. -/
def itoaLoop : Nat → Nat → Int → Str
  | 0, i, _ => [utod (i % 10)]
  | fuel + 1, i, wid =>
    if 10 ≤ i ∨ 1 < wid then itoaLoop fuel (i / 10) (wid - 1) ++ [utod (i % 10)]
    else [utod i]

/-- The function `itoa` of package `log`: fixed-width decimal, zero-padded;
a negative width means no padding. -/
def itoa (i : Nat) (wid : Int) : Str := itoaLoop 19 i wid

/-- The part of a file name after its last `/` at an index above zero
(the `Lshortfile` loop of `formatHeader`). -/
def shortFile (file : Str) : Str :=
  match file with
  | [] => []
  | c :: rest =>
    match (rest.reverse.takeWhile (fun x => x ≠ '/')).reverse with
    | short => if short.length = rest.length then c :: rest else short

/-- The function `formatHeader` of package `log`. -/
def formatHeader (t : Time) (pfx : Str) (flag : Flags) (file : Str) (line : Nat) : Str :=
  (if flag.msgprefix then [] else pfx) ++
  (if flag.date ∨ flag.time ∨ flag.microseconds then
    (if flag.date then
      itoa t.year 4 ++ ['/'] ++ itoa t.month 2 ++ ['/'] ++ itoa t.day 2 ++ [' ']
    else []) ++
    (if flag.time ∨ flag.microseconds then
      itoa t.hour 2 ++ [':'] ++ itoa t.minute 2 ++ [':'] ++ itoa t.second 2 ++
      (if flag.microseconds then '.' :: itoa (t.nano / 1000) 6 else []) ++ [' ']
    else [])
  else []) ++
  (if flag.shortfile ∨ flag.longfile then
    (if flag.shortfile then shortFile file else file) ++ [':'] ++ itoa line (-1) ++ [':', ' ']
  else []) ++
  (if flag.msgprefix then pfx else [])

/-- What `Logger.output` hands to its writer for the text `s`: the header,
the text, and a newline unless the text already ends in one. -/
def outputBytes (t : Time) (pfx : Str) (flag : Flags) (file : Str) (line : Nat) (s : Str) : Str :=
  let buf := formatHeader t pfx flag file line ++ s
  if buf.getLast? = some '\n' then buf else buf ++ ['\n']

/-! ## `strings` and `path/filepath` -/

/-- Is `c` the path separator. -/
def isPathSeparator (c : Char) : Bool := c = '/'

/-- The function `strings.TrimSuffix`. -/
def TrimSuffix (s suffix : Str) : Str :=
  if suffix.isSuffixOf s then s.take (s.length - suffix.length) else s

/-- The backward scan of `filepath.Ext` over the reversed path: `acc` holds the
characters already passed, in path order. -/
def extScan : Str → Str → Str
  | [], _ => []
  | c :: rev, acc =>
    if isPathSeparator c then []
    else if c = '.' then c :: acc
    else extScan rev (c :: acc)

/-- The function `filepath.Ext`: the suffix beginning at the final dot of the
final element of the path; empty if there is no dot. -/
def Ext (path : Str) : Str := extScan path.reverse []

/-- The function `filepath.Split`: the path up to and including its final
separator, and the rest. -/
def Split (path : Str) : Str × Str :=
  let file := (path.reverse.takeWhile (fun c => !isPathSeparator c)).reverse
  (path.take (path.length - file.length), file)

/-- Number of characters of the element at the head of `s`. -/
def elemLen (s : Str) : Nat := (s.takeWhile (fun c => !isPathSeparator c)).length

/-- Dropping the last element of the output buffer of `Clean` for a `..`:
the write index goes back one character, then on to the previous separator,
never below `dotdot`. -/
def backtrack (out : Str) (dotdot : Nat) : Str :=
  out.take (max dotdot ((out.reverse.dropWhile (fun c => !isPathSeparator c)).length - 1))

/-- The loop of `filepath.Clean`: `out` is the buffer written so far, `dotdot`
the length below which `..` cannot backtrack, `rest` the unread input. -/
def cleanLoop (rooted : Bool) : Nat → Str → Nat → Str → Str
  | 0, out, _, _ => out
  | _ + 1, out, _, [] => out
  | fuel + 1, out, dotdot, c :: r =>
    if isPathSeparator c then cleanLoop rooted fuel out dotdot r
    else if c = '.' ∧ (r = [] ∨ r.head?.map isPathSeparator = some true) then
      cleanLoop rooted fuel out dotdot r
    else if c = '.' ∧ r.head? = some '.' ∧
        (r.tail = [] ∨ r.tail.head?.map isPathSeparator = some true) then
      if dotdot < out.length then cleanLoop rooted fuel (backtrack out dotdot) dotdot r.tail
      else if !rooted then
        let out1 := (if 0 < out.length then out ++ ['/'] else out) ++ ['.', '.']
        cleanLoop rooted fuel out1 out1.length r.tail
      else cleanLoop rooted fuel out dotdot r.tail
    else
      let out1 := if (rooted ∧ out.length ≠ 1) ∨ (!rooted ∧ out.length ≠ 0) then out ++ ['/']
        else out
      cleanLoop rooted fuel (out1 ++ (c :: r).take (elemLen (c :: r))) dotdot
        ((c :: r).drop (elemLen (c :: r)))

/-- The function `filepath.Clean` (Unix: no volume name). -/
def Clean (path : Str) : Str :=
  match path with
  | [] => ['.']
  | c :: _ =>
    let rooted := isPathSeparator c
    let out := if rooted then cleanLoop rooted (path.length + 1) ['/'] 1 path.tail
      else cleanLoop rooted (path.length + 1) [] 0 path
    if out = [] then ['.'] else out

/-- The function `filepath.Dir`. -/
def Dir (path : Str) : Str := Clean (Split path).1

/-- The function `filepath.Join` for two elements. -/
def Join (a b : Str) : Str :=
  if a ≠ [] then Clean (a ++ ['/'] ++ b)
  else if b ≠ [] then Clean b
  else []

/-! ## `path/filepath`: `Match` and `Glob` -/

/-- The text of `filepath.ErrBadPattern`. -/
def ErrBadPattern : Str := "syntax error in pattern".toList

/-- Length of the chunk that `scanChunk` cuts off a pattern whose leading
stars are gone: up to the first `*` outside a bracket expression. -/
def scanLen (inrange : Bool) : Str → Nat
  | [] => 0
  | '\\' :: [] => 1
  | '\\' :: _ :: r => 2 + scanLen inrange r
  | '[' :: r => 1 + scanLen true r
  | ']' :: r => 1 + scanLen false r
  | '*' :: r => if inrange then 1 + scanLen inrange r else 0
  | _ :: r => 1 + scanLen inrange r

/-- The function `scanChunk` of `path/filepath`: (a star precedes the chunk,
the chunk, the rest of the pattern). -/
def scanChunk (pattern : Str) : Bool × Str × Str :=
  let p := pattern.dropWhile (fun c => c = '*')
  (decide (pattern.head? = some '*'), p.take (scanLen false p), p.drop (scanLen false p))

/-- The function `getEsc` of `path/filepath`: one possibly escaped character of
a bracket expression and what follows; `none` is `ErrBadPattern`. -/
def getEsc : Str → Option (Char × Str)
  | [] => none
  | '-' :: _ => none
  | ']' :: _ => none
  | '\\' :: [] => none
  | '\\' :: c :: r => if r = [] then none else some (c, r)
  | c :: r => if r = [] then none else some (c, r)

/-- The range loop of a bracket expression in `matchChunk`: (some range holds
`r`, the chunk after the closing bracket); `none` is `ErrBadPattern`. -/
def classLoop (r : Char) : Nat → Str → Bool → Nat → Option (Bool × Str)
  | 0, _, _, _ => none
  | fuel + 1, chunk, m, nrange =>
    if chunk.head? = some ']' ∧ 0 < nrange then some (m, chunk.tail)
    else
      match getEsc chunk with
      | none => none
      | some (lo, c1) =>
        match c1 with
        | '-' :: c2 =>
          match getEsc c2 with
          | none => none
          | some (hi, c3) => classLoop r fuel c3 (m || decide (lo ≤ r ∧ r ≤ hi)) (nrange + 1)
        | _ => classLoop r fuel c1 (m || decide (lo ≤ r ∧ r ≤ lo)) (nrange + 1)

/-- The loop of `matchChunk`: `failed` records that the match has failed, after
which the chunk is only checked for being well formed.  The result is an
error, `ok none` (no match) or `ok (some rest)`. -/
def matchChunkLoop : Nat → Str → Str → Bool → Except Str (Option Str)
  | 0, _, _, _ => Except.ok none
  | fuel + 1, chunk, s, failed0 =>
    match chunk with
    | [] => if failed0 then Except.ok none else Except.ok (some s)
    | c :: ch =>
      let failed := failed0 || s.isEmpty
      if c = '[' then
        let r := if failed then Char.ofNat 0 else s.headD (Char.ofNat 0)
        let s1 := if failed then s else s.tail
        let negated := decide (ch.head? = some '^')
        let ch1 := if negated then ch.tail else ch
        match classLoop r (ch1.length + 1) ch1 false 0 with
        | none => Except.error ErrBadPattern
        | some (m, ch2) => matchChunkLoop fuel ch2 s1 (failed || (m == negated))
      else if c = '?' then
        if failed then matchChunkLoop fuel ch s true
        else matchChunkLoop fuel ch s.tail (decide (s.head? = some '/'))
      else if c = '\\' then
        match ch with
        | [] => Except.error ErrBadPattern
        | c2 :: ch2 =>
          if failed then matchChunkLoop fuel ch2 s true
          else matchChunkLoop fuel ch2 s.tail (decide (s.head? ≠ some c2))
      else
        if failed then matchChunkLoop fuel ch s true
        else matchChunkLoop fuel ch s.tail (decide (s.head? ≠ some c))

/-- The function `matchChunk` of `path/filepath`: does `chunk` match the
beginning of `s`, and what of `s` remains. -/
def matchChunk (chunk s : Str) : Except Str (Option Str) :=
  matchChunkLoop (chunk.length + 1) chunk s false

/-- The search of `Match` after a star: skip `i + 1` characters of the name,
never a separator, until the chunk matches (to the end of the name when it is
the last chunk). -/
def starSearch (chunk : Str) (lastChunk : Bool) : Str → Except Str (Option Str)
  | [] => Except.ok none
  | c :: rest =>
    if c = '/' then Except.ok none
    else
      match matchChunk chunk rest with
      | Except.error e => Except.error e
      | Except.ok (some t) =>
        if lastChunk ∧ t ≠ [] then starSearch chunk lastChunk rest else Except.ok (some t)
      | Except.ok none => starSearch chunk lastChunk rest

/-- The closing loop of `Match`: the rest of the pattern is checked for being
well formed before `false` is returned. -/
def checkRest : Nat → Str → Except Str Bool
  | 0, _ => Except.ok false
  | fuel + 1, pattern =>
    match pattern with
    | [] => Except.ok false
    | _ :: _ =>
      match scanChunk pattern with
      | (_, chunk, rest) =>
        match matchChunk chunk [] with
        | Except.error e => Except.error e
        | Except.ok _ => checkRest fuel rest

/-- The main loop of `filepath.Match`. -/
def matchLoop : Nat → Str → Str → Except Str Bool
  | 0, _, _ => Except.ok false
  | fuel + 1, pattern, name =>
    match pattern with
    | [] => Except.ok (decide (name = []))
    | _ :: _ =>
      match scanChunk pattern with
      | (star, chunk, rest) =>
        if star ∧ chunk = [] then Except.ok (!name.contains '/')
        else
          match matchChunk chunk name with
          | Except.error e => Except.error e
          | Except.ok r =>
            match (match r with
                | some t => if t = [] ∨ rest ≠ [] then some t else none
                | none => none) with
            | some t => matchLoop fuel rest t
            | none =>
              if star then
                match starSearch chunk (decide (rest = [])) name with
                | Except.error e => Except.error e
                | Except.ok (some t) => matchLoop fuel rest t
                | Except.ok none => checkRest (rest.length + 1) rest
              else checkRest (rest.length + 1) rest

/-- The function `filepath.Match`. -/
def Match (pattern name : Str) : Except Str Bool :=
  matchLoop (pattern.length + 1) pattern name

/-- The pattern is well formed and matches the name. -/
def isMatch (pattern name : Str) : Bool :=
  match Match pattern name with
  | Except.ok true => true
  | _ => false

/-- The function `hasMeta` of `path/filepath`. -/
def hasMeta (path : Str) : Bool :=
  path.any (fun c => c = '*' ∨ c = '?' ∨ c = '[' ∨ c = '\\')

/-- The function `cleanGlobPath` of `path/filepath`. -/
def cleanGlobPath (path : Str) : Str :=
  if path = [] then ['.'] else if path = ['/'] then path else path.dropLast

/-! ## `os`: files, the file system, the environment -/

/-- How package `os` classifies an error. -/
inductive ErrKind
  | notExist | permission | closed | other
  deriving DecidableEq, Repr

/-- An error value of package `os`: its class and its text (`Error()`). -/
structure OSError where
  kind : ErrKind
  text : Str
  deriving DecidableEq, Repr

/-- The function `os.IsNotExist`. -/
def IsNotExist (e : OSError) : Bool := e.kind = ErrKind.notExist

/-- The function `os.IsPermission`. -/
def IsPermission (e : OSError) : Bool := e.kind = ErrKind.permission

/-- The state of one `os.File` object. -/
structure OpenFile where
  name : Str
  ino : Nat
  closed : Bool
  deriving DecidableEq, Repr

/-- The system calls a run issues, with their outcome, in order. -/
inductive Event
  | fstat (file : Nat) (ok : Bool)
  | close (file : Nat) (ok : Bool)
  | rename (oldpath newpath : Str) (ok : Bool)
  | mkdirAll (dir : Str) (ok : Bool)
  | openFile (path : Str) (ok : Bool)
  | write (file : Nat) (bytes : Str) (ok : Bool)
  | stat (path : Str) (ok : Bool)
  | remove (path : Str) (ok : Bool)
  deriving DecidableEq, Repr

/-- The file system and the heap of `os.File` objects.  Paths name files
literally (one spelling per file, no links through directories); `modTime` is
the modification time of a file that has not been written to since the world
was set up, `touched` the number of clock readings made before the last write
to a file that has; `trace` is the record of the system calls issued so far. -/
structure World where
  names : List (Str × Nat)
  content : Nat → Str
  modTime : Nat → Int
  touched : Nat → Option Nat
  nextIno : Nat
  files : Nat → OpenFile
  nextFile : Nat
  ticks : Nat
  trace : List Event

/-- What the environment decides during one call of a method of the logger:
the successive readings of the clock, the local time zone and the system calls
that fail for a reason outside the model (with the error they report). -/
structure Env where
  clock : Nat → Time
  zone : Location
  fstatErr : Option OSError
  closeErr : Option OSError
  renameErr : Option OSError
  mkdirErr : Option OSError
  openErr : Option OSError
  statErr : Str → Option OSError
  removeErr : Str → Option OSError

/-- The inode a path names. -/
def World.lookup (w : World) (path : Str) : Option Nat := w.names.lookup path

/-- The paths that exist. -/
def World.paths (w : World) : List Str := w.names.map Prod.fst

/-- The content of the file a path names. -/
def World.read (w : World) (path : Str) : Option Str := (w.lookup path).map w.content

/-- The record of system calls grows by one event. -/
def World.emit (w : World) (ev : Event) : World := { w with trace := w.trace ++ [ev] }

/-- The clock has been read once more. -/
def World.tick (w : World) : World := { w with ticks := w.ticks + 1 }

/-- The `os.File` object `f` is closed. -/
def World.setClosed (w : World) (f : Nat) : World :=
  { w with files := Function.update w.files f { w.files f with closed := true } }

/-- The path `newpath` names inode `i`; `oldpath` and the former `newpath` are gone. -/
def World.link (w : World) (oldpath newpath : Str) (i : Nat) : World :=
  { w with
    names := (newpath, i) :: w.names.filter (fun e => decide (e.1 ≠ oldpath ∧ e.1 ≠ newpath)) }

/-- The path `path` names nothing any more. -/
def World.unlink (w : World) (path : Str) : World :=
  { w with names := w.names.filter (fun e => decide (e.1 ≠ path)) }

/-- A new empty file, with a fresh inode, at `path`. -/
def World.create (w : World) (path : Str) (mtime : Int) : World :=
  { w with
    names := w.names ++ [(path, w.nextIno)]
    content := Function.update w.content w.nextIno []
    modTime := Function.update w.modTime w.nextIno mtime
    touched := Function.update w.touched w.nextIno none
    nextIno := w.nextIno + 1 }

/-- A new open `os.File` object for inode `i`, reached through `path`. -/
def World.openObj (w : World) (path : Str) (i : Nat) : World :=
  { w with
    files := Function.update w.files w.nextFile ⟨path, i, false⟩
    nextFile := w.nextFile + 1 }

/-- The bytes are appended to the file with inode `i`, at the time of the
next clock reading. -/
def World.append (w : World) (i : Nat) (bytes : Str) : World :=
  { w with
    content := Function.update w.content i (w.content i ++ bytes)
    touched := Function.update w.touched i (some w.ticks) }

/-- The modification time of the file with inode `i`: the clock reading at
its last write, or the time it had from the start. -/
def World.mtime (w : World) (env : Env) (i : Nat) : Int :=
  match w.touched i with
  | some n => (env.clock n).unixNano
  | none => w.modTime i

/-- The function `time.Now`: the next reading of the clock. -/
def now (env : Env) (w : World) : Time × World := (env.clock w.ticks, w.tick)

/-- The error of an operation on a closed `os.File`. -/
def errClosed (op : Str) (name : Str) : OSError :=
  ⟨ErrKind.closed, op ++ [' '] ++ name ++ ": file already closed".toList⟩

/-- The error of an operation on a path that names nothing. -/
def errNotExist (op : Str) (path : Str) : OSError :=
  ⟨ErrKind.notExist, op ++ [' '] ++ path ++ ": no such file or directory".toList⟩

/-- The method `(*os.File).Stat`, reduced to the size it reports. -/
def fstat (env : Env) (w : World) (f : Nat) : Except OSError Nat × World :=
  if (w.files f).closed then
    (Except.error (errClosed "stat".toList (w.files f).name), w.emit (Event.fstat f false))
  else
    match env.fstatErr with
    | some e => (Except.error e, w.emit (Event.fstat f false))
    | none => (Except.ok (w.content (w.files f).ino).length, w.emit (Event.fstat f true))

/-- The method `(*os.File).Close`: the object is closed afterwards even when
the system call reports an error. -/
def close (env : Env) (w : World) (f : Nat) : Option OSError × World :=
  if (w.files f).closed then
    (some (errClosed "close".toList (w.files f).name), w.emit (Event.close f false))
  else
    match env.closeErr with
    | some e => (some e, (w.setClosed f).emit (Event.close f false))
    | none => (none, (w.setClosed f).emit (Event.close f true))

/-- The function `os.Rename`: the new path names the file of the old one and
replaces whatever it named before. -/
def rename (env : Env) (w : World) (oldpath newpath : Str) : Option OSError × World :=
  match env.renameErr with
  | some e => (some e, w.emit (Event.rename oldpath newpath false))
  | none =>
    match w.lookup oldpath with
    | none =>
      (some (errNotExist ("rename ".toList ++ oldpath) newpath),
        w.emit (Event.rename oldpath newpath false))
    | some i => (none, (w.link oldpath newpath i).emit (Event.rename oldpath newpath true))

/-- The function `os.MkdirAll`: directories are not objects of the flat file
system, so the call has no effect but its outcome. -/
def mkdirAll (env : Env) (w : World) (dir : Str) : Option OSError × World :=
  match env.mkdirErr with
  | some e => (some e, w.emit (Event.mkdirAll dir false))
  | none => (none, w.emit (Event.mkdirAll dir true))

/-- The function `os.OpenFile` with `O_APPEND|O_CREATE|O_WRONLY`: a new
`os.File` for the file at `path`, which is created empty when absent. -/
def openAppend (env : Env) (w : World) (path : Str) : Except OSError Nat × World :=
  match env.openErr with
  | some e => (Except.error e, w.emit (Event.openFile path false))
  | none =>
    match w.lookup path with
    | some i => (Except.ok w.nextFile, (w.openObj path i).emit (Event.openFile path true))
    | none =>
      (Except.ok w.nextFile,
        ((w.create path (env.clock w.ticks).unixNano).openObj path w.nextIno).emit
          (Event.openFile path true))

/-- The method `(*os.File).Write` on a file opened for appending: the bytes go
to the end of the file unless the object is closed. -/
def write (w : World) (f : Nat) (bytes : Str) : World :=
  if (w.files f).closed then w.emit (Event.write f bytes false)
  else (w.append (w.files f).ino bytes).emit (Event.write f bytes true)

/-- The function `os.Stat`, reduced to the modification time it reports. -/
def stat (env : Env) (w : World) (path : Str) : Except OSError Int × World :=
  match env.statErr path with
  | some e => (Except.error e, w.emit (Event.stat path false))
  | none =>
    match w.lookup path with
    | none => (Except.error (errNotExist "stat".toList path), w.emit (Event.stat path false))
    | some i => (Except.ok (w.mtime env i), w.emit (Event.stat path true))

/-- The function `os.Remove`. -/
def remove (env : Env) (w : World) (path : Str) : Option OSError × World :=
  match env.removeErr path with
  | some e => (some e, w.emit (Event.remove path false))
  | none =>
    match w.lookup path with
    | none => (some (errNotExist "remove".toList path), w.emit (Event.remove path false))
    | some _ => (none, (w.unlink path).emit (Event.remove path true))

/-- The loop of `glob` of `path/filepath` over the entries of a directory:
the entries whose name matches, or the error of the first `Match` that fails. -/
def globNames (pattern : Str) : List Str → Except Str (List Str)
  | [] => Except.ok []
  | k :: ks =>
    match Match pattern (Split k).2 with
    | Except.error e => Except.error e
    | Except.ok matched =>
      match globNames pattern ks with
      | Except.error e => Except.error e
      | Except.ok m => Except.ok (if matched then k :: m else m)

/-- The order `<=` of Go strings, byte by byte. -/
def strLe : Str → Str → Bool
  | [], _ => true
  | _ :: _, [] => false
  | a :: x, b :: y =>
    if a.toNat < b.toNat then true else if b.toNat < a.toNat then false else strLe x y

/-- The elements of a path between its separators. -/
def splitSep : Str → List Str
  | [] => [[]]
  | c :: r =>
    if isPathSeparator c then [] :: splitSep r
    else
      match splitSep r with
      | [] => [[c]]
      | e :: es => (c :: e) :: es

/-- Lexicographic order of lists of path elements. -/
def elemsLe : List Str → List Str → Bool
  | [], _ => true
  | _ :: _, [] => false
  | a :: x, b :: y => if a = b then elemsLe x y else strLe a b

/-- What `Glob` orders its results by: the elements of the directory, then the
name in it (each directory is listed with its names sorted). -/
def sortKey (k : Str) : List Str := splitSep (Clean (Split k).1) ++ [(Split k).2]

/-- Insertion into a list of paths in the order of `Glob`. -/
def insertPath (k : Str) : List Str → List Str
  | [] => [k]
  | a :: r => if elemsLe (sortKey k) (sortKey a) then k :: a :: r else a :: insertPath k r

/-- The paths in the order in which `Glob` lists them. -/
def sortPaths : List Str → List Str
  | [] => []
  | k :: r => insertPath k (sortPaths r)

/-- Is the directory `d` (a cleaned path) one of the directories that `Glob`
searches for the directory part `pattern`: the directory itself when the part
has no wildcard, otherwise (as `Glob` calls itself on the part) a name that
matches its last element in a directory found for what precedes it. -/
def dirMatches : Nat → Str → Str → Bool
  | 0, _, _ => false
  | fuel + 1, pattern, d =>
    if hasMeta pattern then
      decide ((Split d).2 ≠ []) && isMatch (Split pattern).2 (Split d).2 &&
        dirMatches fuel (cleanGlobPath (Split pattern).1) (cleanGlobPath (Split d).1)
    else decide (d = Clean pattern)

/-- The function `filepath.Glob`, for a pattern with a wildcard, over the flat
file system: after the check that the pattern is well formed, the files whose
directory is searched for the directory part of the pattern and whose name
matches its file part, each directory with its names sorted.  The directory of
a file is compared after `Clean`, so that every spelling of it is found, and a
file is reported under the path that names it in the file system (the library
reports the directory joined with the name, a spelling of the same file). -/
def Glob (w : World) (pattern : Str) : Except Str (List Str) :=
  match Match pattern [] with
  | Except.error e => Except.error e
  | Except.ok _ =>
    globNames (Split pattern).2
      (sortPaths (w.paths.filter (fun k =>
        decide ((Split k).2 ≠ []) &&
          dirMatches ((cleanGlobPath (Split pattern).1).length + 1)
            (cleanGlobPath (Split pattern).1) (Clean (Split k).1))))

/-! ## Package `logHandler` (`loghandler.go`) -/

/-- A `log.Logger`: its writer (an `os.File` object), its prefix and flags. -/
structure StdLogger where
  out : Nat
  pfx : Str
  flag : Flags
  deriving DecidableEq, Repr

/-- The struct `Logger` of `loghandler.go`. -/
structure Logger where
  logFile : Nat
  log : StdLogger
  logPath : Str
  maxSize : Int
  deriving DecidableEq, Repr

/-- The method `(*log.Logger).Println` for one string operand: the clock is
read for the header, and header, operand and newline go to the writer in one
`Write`, whose error is dropped. -/
def StdLogger.Println (lg : StdLogger) (env : Env) (w : World) (s : Str) : World :=
  write (now env w).2 lg.out (outputBytes (now env w).1 lg.pfx lg.flag [] 0 (s ++ ['\n']))

/-- The layout of `customFormat`. -/
def entryLayout : Str := "01-02-2006 15:04:05.0000".toList

/-- The layout of the backup name in `rotate`. -/
def backupLayout : Str := "0102200615040500".toList

/-- The function `customFormat`: the formatted log entry. -/
def customFormat (env : Env) (w : World) (level msg : Str) : Str × World :=
  ((now env w).1.Format entryLayout ++ [' '] ++ level ++ [' '] ++ msg, (now env w).2)

/-- The statement `l.log.Println(customFormat(level, msg))`: the entry is
formatted first, then printed. -/
def logLine (lg : StdLogger) (env : Env) (w : World) (level msg : Str) : World :=
  lg.Println env (customFormat env w level msg).2 (customFormat env w level msg).1

/-- The method `openLogFile`: opens or creates the log file (of the receiver
only `logPath` is read). -/
def openLogFile (env : Env) (w : World) (logPath : Str) : Except Str Nat × World :=
  match mkdirAll env w (Dir logPath) with
  | (some e, w1) =>
    (Except.error ("failed to create directory for log file: ".toList ++ e.text), w1)
  | (none, w1) =>
    match openAppend env w1 logPath with
    | (Except.error e, w2) =>
      if IsNotExist e then
        (Except.error ("log file does not exist or could not be created: ".toList ++ e.text), w2)
      else if IsPermission e then
        (Except.error ("permission denied for log file: ".toList ++ e.text), w2)
      else (Except.error ("failed to open log file: ".toList ++ e.text), w2)
    | (Except.ok file, w2) => (Except.ok file, w2)

/-- The function `New`: creates a new Logger instance. -/
def New (env : Env) (w : World) (logPath : Str) : Except Str Logger × World :=
  match openLogFile env w logPath with
  | (Except.error e, w1) => (Except.error e, w1)
  | (Except.ok file, w1) =>
    (Except.ok
      { logFile := file, log := ⟨file, [], LstdFlags⟩, logPath := logPath,
        maxSize := 5 * 1024 * 1024 }, w1)

/-- The value of `backupName` in `rotate`, for the clock reading `t`. -/
def backupName (logPath : Str) (t : Time) : Str :=
  TrimSuffix logPath (Ext logPath) ++ ['.'] ++ t.Format backupLayout ++ ".BAK".toList

/-- The method `rotate`: handles log rotation and logs the action. -/
def rotate (env : Env) (l : Logger) (w : World) : Logger × World :=
  match close env w l.logFile with
  | (some e, w1) =>
    (l, logLine l.log env w1 "ERROR".toList
      ("Failed to close log file during rotation: ".toList ++ e.text))
  | (none, w1) =>
    match rename env (now env w1).2 l.logPath (backupName l.logPath (now env w1).1) with
    | (some e, w2) =>
      (l, logLine l.log env w2 "ERROR".toList ("Failed to rename log file: ".toList ++ e.text))
    | (none, w2) =>
      match openLogFile env
          (logLine l.log env w2 "INFO".toList
            ("Log file rotated to ".toList ++ backupName l.logPath (now env w1).1))
          l.logPath with
      | (Except.error e, w3) =>
        (l, logLine l.log env w3 "ERROR".toList
          ("Failed to open new log file after rotation: ".toList ++ e))
      | (Except.ok newFile, w3) =>
        ({ l with logFile := newFile, log := { l.log with out := newFile } },
          logLine { l.log with out := newFile } env w3 "INFO".toList
            ("Logging resumed in new file: ".toList ++ l.logPath))

/-- The method `checkRotate`: checks if the log file needs to be rotated. -/
def checkRotate (env : Env) (l : Logger) (w : World) : Logger × World :=
  match fstat env w l.logFile with
  | (Except.error e, w1) =>
    (l, logLine l.log env w1 "ERROR".toList ("Failed to check log file size: ".toList ++ e.text))
  | (Except.ok size, w1) => if (size : Int) ≥ l.maxSize then rotate env l w1 else (l, w1)

/-- The method `Log`: writes a message to the log file with rotation check.
The first component is the error returned. -/
def Log (env : Env) (l : Logger) (w : World) (level msg : Str) : Option Str × Logger × World :=
  (none, (checkRotate env l w).1,
    logLine (checkRotate env l w).1.log env (checkRotate env l w).2 level msg)

/-- The method `Info`. -/
def Info (env : Env) (l : Logger) (w : World) (msg : Str) : Option Str × Logger × World :=
  Log env l w "INFO".toList msg

/-- The method `Warning`. -/
def Warning (env : Env) (l : Logger) (w : World) (msg : Str) : Option Str × Logger × World :=
  Log env l w "WARNING".toList msg

/-- The method `Error`. -/
def Error (env : Env) (l : Logger) (w : World) (msg : Str) : Option Str × Logger × World :=
  Log env l w "ERROR".toList msg

/-- The body of the loop of `CleanOldLogs` for one file. -/
def cleanFile (env : Env) (l : Logger) (threshold : Int) (w : World) (file : Str) : World :=
  match stat env w file with
  | (Except.error e, w1) =>
    logLine l.log env w1 "WARNING".toList
      ("Failed to stat file ".toList ++ file ++ ": ".toList ++ e.text)
  | (Except.ok modTime, w1) =>
    if modTime < threshold then
      match remove env w1 file with
      | (some e, w2) =>
        logLine l.log env w2 "ERROR".toList
          ("Failed to remove old log file ".toList ++ file ++ ": ".toList ++ e.text)
      | (none, w2) => logLine l.log env w2 "INFO".toList ("Removed old log file: ".toList ++ file)
    else w1

/-- The pattern `CleanOldLogs` hands to `filepath.Glob`. -/
def cleanPattern (logPath : Str) : Str :=
  Join (Dir logPath) (['*'] ++ Ext logPath ++ ".BAK".toList)

/-- The method `CleanOldLogs`: removes logs older than 30 days and logs actions. -/
def CleanOldLogs (env : Env) (l : Logger) (w : World) : Logger × World :=
  match Glob w (cleanPattern l.logPath) with
  | Except.error e =>
    (l, logLine l.log env w "ERROR".toList ("Failed to list backup log files: ".toList ++ e))
  | Except.ok files =>
    (l, files.foldl (cleanFile env l (AddDate env.zone (now env w).1 0 0 (-30))) (now env w).2)

/-- The method `CheckNetworkPath`: verifies if the network path is accessible. -/
def CheckNetworkPath (env : Env) (l : Logger) (w : World) : Option Str × Logger × World :=
  match stat env w l.logPath with
  | (Except.error e, w1) =>
    if IsNotExist e then
      (some ("network path ".toList ++ l.logPath ++
        " does not exist or is not accessible".toList), l, w1)
    else (some ("cannot access network share: ".toList ++ e.text), l, w1)
  | (Except.ok _, w1) => (none, l, w1)

/-! ## Package `logger` (`logger.go`) -/

namespace Console

/-- What the development uses of `fmt.Sprintf`: a function of a format and its
operands that returns a format without any `%` unchanged when there is no
operand. -/
structure Formatter (α : Type) where
  Sprintf : Str → List α → Str
  verbFree : ∀ format : Str, '%' ∉ format → Sprintf format [] = format

/-- The struct `Logger` of `logger.go`, an embedded `log.Logger`: `sink` holds
the bytes its writer has received. -/
structure Logger where
  sink : Str
  pfx : Str
  flag : Flags
  deriving DecidableEq, Repr

/-- The function `New`: a logger on standard output with
`log.LstdFlags|log.Lshortfile`. -/
def New : Logger := ⟨[], [], LstdFlagsShortfile⟩

/-- The method `SetOutput`: later output goes to the writer `buf`. -/
def Logger.SetOutput (l : Logger) (buf : Str) : Logger := { l with sink := buf }

/-- The method `(*log.Logger).Printf` called from line `line` of `logger.go`
when the clock reads `t`. -/
def Logger.Printf {α : Type} (F : Formatter α) (l : Logger) (t : Time) (line : Nat)
    (format : Str) (v : List α) : Logger :=
  { l with sink := l.sink ++
      outputBytes t l.pfx l.flag "logger.go".toList line (F.Sprintf format v) }

/-- The method `Info`: logs a message at the info level. -/
def Logger.Info {α : Type} (F : Formatter α) (l : Logger) (t : Time) (format : Str)
    (v : List α) : Logger :=
  l.Printf F t 23 ("INFO: ".toList ++ format) v

/-- The method `Error`: logs a message at the error level. -/
def Logger.Error {α : Type} (F : Formatter α) (l : Logger) (t : Time) (format : Str)
    (v : List α) : Logger :=
  l.Printf F t 28 ("ERROR: ".toList ++ format) v

/-- The method `Debug`: logs a message at the debug level. -/
def Logger.Debug {α : Type} (F : Formatter α) (l : Logger) (t : Time) (format : Str)
    (v : List α) : Logger :=
  l.Printf F t 33 ("DEBUG: ".toList ++ format) v

/-- The method `Fatal`: logs a message and then calls `os.Exit(1)`; the second
component is the exit status. -/
def Logger.Fatal {α : Type} (F : Formatter α) (l : Logger) (t : Time) (format : Str)
    (v : List α) : Logger × Nat :=
  (l.Printf F t 38 ("FATAL: ".toList ++ format) v, 1)

/-- A formatter for runs without operands and verbs: the format itself. -/
def plain : Formatter Unit := ⟨fun format _ => format, fun _ _ => rfl⟩

end Console


/-! ## The statements of the specification -/

/-- A clock reading used in the examples: 7 March 2024, 09:05:02.123456789. -/
def tEx : Time := ⟨2024, 3, 7, 9, 5, 2, 123456789, 1709802302123456789⟩

/-- The rotation time as the specification words it: `MMDDYYYYHHMMSS`. -/
def stamp14 (t : Time) : Str :=
  appendInt t.month 2 ++ appendInt t.day 2 ++ appendInt t.year 4 ++
    appendInt t.hour 2 ++ appendInt t.minute 2 ++ appendInt t.second 2

/-- The backup name as the specification words it: the path without its
extension, a dot, the 14 digits of the rotation time, `.BAK`. -/
def specBackupName (logPath : Str) (t : Time) : Str :=
  TrimSuffix logPath (Ext logPath) ++ ['.'] ++ stamp14 t ++ ".BAK".toList

/-- The error `CheckNetworkPath` returns for a path that does not exist. -/
def notExistError (logPath : Str) : Str :=
  "network path ".toList ++ logPath ++ " does not exist or is not accessible".toList

/-- The error `CheckNetworkPath` returns for any other failure `e` of the stat. -/
def accessError (e : OSError) : Str := "cannot access network share: ".toList ++ e.text

/-- An environment in which no system call fails for an outside reason and the
clock advances by one second per reading from `tEx`. -/
def envOk : Env :=
  { clock := fun n => { tEx with second := n % 60, unixNano := tEx.unixNano + n * 1000000000 }
    zone := utcLoc
    fstatErr := none, closeErr := none, renameErr := none, mkdirErr := none, openErr := none
    statErr := fun _ => none, removeErr := fun _ => none }

/-- The empty file system with no open file. -/
def emptyWorld : World :=
  { names := [], content := fun _ => [], modTime := fun _ => 0, touched := fun _ => none
    nextIno := 0
    files := fun _ => ⟨[], 0, true⟩, nextFile := 0, ticks := 0, trace := [] }

/-- The header of a console line written at clock reading `t` from line `line`
of `logger.go`. -/
def consoleHeader (t : Time) (line : Nat) : Str :=
  formatHeader t [] LstdFlagsShortfile "logger.go".toList line

/-- The helper `contains` of `logger_test.go`: despite its name it compares
the end of `s` with `substr` (the model covers `len(substr) <= len(s)`; the
Go slice expression panics otherwise). -/
def contains (s substr : Str) : Bool :=
  decide (0 < s.length) && decide (0 < substr.length) &&
    decide (s.drop (s.length - substr.length) = substr)

/-- The buffer of `TestLogger` after its three calls, all at clock reading `t`. -/
def testOutput (t : Time) : Str :=
  ((((Console.New.SetOutput []).Info Console.plain t "This is an info message".toList []).Error
    Console.plain t "This is an error message".toList []).Debug
    Console.plain t "This is a debug message".toList []).sink

/-- The bytes one `l.log.Println(customFormat(level, msg))` of a logger made by
`New` hands to the file: the header of `log.LstdFlags` for the clock reading
`t2`, the entry formatted at the earlier reading `t1`, and a newline. -/
def entryBytes (t1 t2 : Time) (level msg : Str) : Str :=
  formatHeader t2 [] LstdFlags [] 0 ++
    (t1.Format entryLayout ++ [' '] ++ level ++ [' '] ++ msg) ++ ['\n']

/-- The line of the file logger as the specification words it: the timestamp
`MM-DD-YYYY HH:MM:SS.FFFF`, the level, the message, a newline. -/
def specLine (t : Time) (level msg : Str) : Str :=
  t.Format entryLayout ++ [' '] ++ level ++ [' '] ++ msg ++ ['\n']

/-- What `New` establishes of a logger and no method changes: the `log.Logger`
writes to `logFile` with an empty prefix and `log.LstdFlags`, and `maxSize` is
5 MiB. -/
structure FromNew (l : Logger) : Prop where
  pfx : l.log.pfx = []
  flag : l.log.flag = LstdFlags
  out : l.log.out = l.logFile
  maxSize : l.maxSize = 5242880

/-- The number of bytes of the file the logger holds open. -/
def fileSize (l : Logger) (w : World) : Nat := (w.content (w.files l.logFile).ino).length

/-- The system calls issued by a step that leads from `w` to `w1`. -/
def newEvents (w w1 : World) : List Event := w1.trace.drop w.trace.length

/-- Is the event a `rename`. -/
def Event.isRename : Event → Bool
  | Event.rename _ _ _ => true
  | _ => false

/-- Is the event a `close`. -/
def Event.isClose : Event → Bool
  | Event.close _ _ => true
  | _ => false

/-- The line `rotate` writes about the backup, for the clock readings `t1`, `t2`. -/
def rotatedLine (t1 t2 : Time) (backup : Str) : Str :=
  entryBytes t1 t2 "INFO".toList ("Log file rotated to ".toList ++ backup)

/-- The line `rotate` writes to the reopened file. -/
def resumedLine (t1 t2 : Time) (logPath : Str) : Str :=
  entryBytes t1 t2 "INFO".toList ("Logging resumed in new file: ".toList ++ logPath)

/-- The line `checkRotate` writes when the stat fails with error `e`. -/
def statErrorLine (t1 t2 : Time) (e : OSError) : Str :=
  entryBytes t1 t2 "ERROR".toList ("Failed to check log file size: ".toList ++ e.text)

/-- The file system after the steps of a successful rotation up to the rename,
started in `w` with the log path naming inode `i0`: the file object is closed,
the clock has been read, the log path is renamed to the backup name, and the
line about the rotation has been refused by the closed file. -/
def afterRename (env : Env) (l : Logger) (w : World) (i0 : Nat) : World :=
  (((((w.setClosed l.logFile).emit (Event.close l.logFile true)).tick.link l.logPath
    (backupName l.logPath (env.clock w.ticks)) i0).emit
      (Event.rename l.logPath (backupName l.logPath (env.clock w.ticks)) true)).tick.tick).emit
    (Event.write l.logFile
      (rotatedLine (env.clock (w.ticks + 1)) (env.clock (w.ticks + 2))
        (backupName l.logPath (env.clock w.ticks))) false)

/-- The file system after a successful rotation started in `w`: after the
rename a new file with the fresh inode `w.nextIno` is created at the log path
and opened as object `w.nextFile`, and the line about the resumption is its
first line. -/
def afterRotate (env : Env) (l : Logger) (w : World) (i0 : Nat) : World :=
  ((((((afterRename env l w i0).emit (Event.mkdirAll (Dir l.logPath) true)).create l.logPath
    (env.clock (w.ticks + 3)).unixNano).openObj l.logPath w.nextIno).emit
      (Event.openFile l.logPath true)).tick.tick.append w.nextIno
        (resumedLine (env.clock (w.ticks + 3)) (env.clock (w.ticks + 4)) l.logPath)).emit
    (Event.write w.nextFile
      (resumedLine (env.clock (w.ticks + 3)) (env.clock (w.ticks + 4)) l.logPath) true)

/-- The logger after a successful rotation started in `w`. -/
def rotatedLogger (l : Logger) (w : World) : Logger :=
  { l with logFile := w.nextFile, log := { l.log with out := w.nextFile } }

/-- No system call of the call fails for a reason outside the file system. -/
structure Env.NoFault (env : Env) : Prop where
  fstat : env.fstatErr = none
  close : env.closeErr = none
  rename : env.renameErr = none
  mkdir : env.mkdirErr = none
  openFile : env.openErr = none

/-- The logger is in its steady state: made by `New`, its file object open,
and the log path naming the file that object writes to. -/
structure Healthy (l : Logger) (w : World) : Prop where
  fromNew : FromNew l
  isOpen : (w.files l.logFile).closed = false
  named : w.lookup l.logPath = some (w.files l.logFile).ino

/-- Is the event a `rename` that succeeded. -/
def Event.isRenameOk : Event → Bool
  | Event.rename _ _ ok => ok
  | _ => false

/-- The number of rotations carried through so far: the successful renames. -/
def rotations (w : World) : Nat := (w.trace.filter Event.isRenameOk).length

/-- The log file of the examples: 5 MiB of the letter `x`. -/
@[irreducible]
def fiveMiB : Str := List.replicate 5242880 'x'

/-- A file system in which `app.log` holds exactly 5 MiB. -/
def bigWorld : World :=
  { emptyWorld with
    names := [("app.log".toList, 0)]
    content := fun i => if i = 0 then fiveMiB else []
    nextIno := 1 }

/-- The logger `New` returns for `app.log` in a file system with no open file. -/
def appLogger : Logger := ⟨0, ⟨0, [], LstdFlags⟩, "app.log".toList, 5242880⟩

/-- The file system after `New` has opened the `app.log` of `bigWorld`. -/
def bigOpen : World :=
  ((bigWorld.emit (Event.mkdirAll ['.'] true)).openObj "app.log".toList 0).emit
    (Event.openFile "app.log".toList true)

/-- The line `rotate` writes when the rename fails with error `e`. -/
def renameErrorLine (t1 t2 : Time) (e : OSError) : Str :=
  entryBytes t1 t2 "ERROR".toList ("Failed to rename log file: ".toList ++ e.text)

/-- An environment in which the rename of a rotation is refused. -/
def envRenameFails : Env :=
  { envOk with renameErr := some ⟨ErrKind.permission, "rename: permission denied".toList⟩ }

/-- The logger and the file system after a `Log` call on the 5 MiB file whose
rotation stopped at a refused rename. -/
def afterFailedRotation : Option Str × Logger × World :=
  Log envRenameFails appLogger bigOpen "INFO".toList "first".toList

/-- The header `log.LstdFlags` puts before every line: `YYYY/MM/DD HH:MM:SS `. -/
def stdHeader (t : Time) : Str :=
  itoa t.year 4 ++ ['/'] ++ itoa t.month 2 ++ ['/'] ++ itoa t.day 2 ++ [' '] ++
    itoa t.hour 2 ++ [':'] ++ itoa t.minute 2 ++ [':'] ++ itoa t.second 2 ++ [' ']

/-- The timestamp of `customFormat`: `MM-DD-YYYY HH:MM:SS.FFFF`. -/
def entryStamp (t : Time) : Str :=
  appendInt t.month 2 ++ ['-'] ++ appendInt t.day 2 ++ ['-'] ++ appendInt t.year 4 ++ [' '] ++
    appendInt t.hour 2 ++ [':'] ++ appendInt t.minute 2 ++ [':'] ++ appendInt t.second 2 ++
    ['.'] ++ (appendInt t.nano 9).take 4

/-- The file system after `New` has created `app.log` in the empty file system. -/
def freshOpen : World :=
  (((emptyWorld.emit (Event.mkdirAll ['.'] true)).create "app.log".toList
    (envOk.clock 0).unixNano).openObj "app.log".toList 0).emit
      (Event.openFile "app.log".toList true)

/-- The inodes of all names are below the next fresh inode. -/
def World.FreshIno (w : World) : Prop := ∀ p i, w.lookup p = some i → i < w.nextIno

/-- A file system like `bigWorld` in which a file already has the name the
next rotation will give its backup. -/
def collisionWorld : World :=
  { emptyWorld with
    names := [("app.log".toList, 0), ("app.0307202409050000.BAK".toList, 1)]
    content := fun i => if i = 0 then fiveMiB else if i = 1 then "older backup\n".toList else []
    nextIno := 2 }

/-- The file system after `New` has opened the `app.log` of `collisionWorld`. -/
def collisionOpen : World :=
  ((collisionWorld.emit (Event.mkdirAll ['.'] true)).openObj "app.log".toList 0).emit
    (Event.openFile "app.log".toList true)

/-- A log file one byte short of 5 MiB. -/
@[irreducible]
def almostFiveMiB : Str := List.replicate 5242879 'x'

/-- A file system in which `app.log` is one byte short of 5 MiB. -/
def nearWorld : World :=
  { emptyWorld with
    names := [("app.log".toList, 0)]
    content := fun i => if i = 0 then almostFiveMiB else []
    nextIno := 1 }

/-- The file system after `New` has opened the `app.log` of `nearWorld`. -/
def nearOpen : World :=
  ((nearWorld.emit (Event.mkdirAll ['.'] true)).openObj "app.log".toList 0).emit
    (Event.openFile "app.log".toList true)

/-- The result of the `Log` call on `nearOpen` whose write takes `app.log`
over 5 MiB. -/
def crossingCall : Option Str × Logger × World :=
  Log envOk appLogger nearOpen "INFO".toList "hello".toList

/-- The retention window of `CleanOldLogs`: 30 days, in nanoseconds. -/
def thirtyDays : Int := 30 * 86400 * 1000000000

/-- Does the body of the loop of `CleanOldLogs` remove the file `f` when it
runs in the world `w`: the stat succeeds, the modification time it reports is
before the threshold, and the remove succeeds. -/
def removes (env : Env) (w : World) (threshold : Int) (f : Str) : Bool :=
  (env.statErr f).isNone &&
    (match w.lookup f with
      | some i => decide (w.mtime env i < threshold)
      | none => false) &&
    (env.removeErr f).isNone

/-- The threshold of a call of `CleanOldLogs` started in `w`: the reading of
the clock moved back by 30 days of the calendar. -/
def cleanThreshold (env : Env) (w : World) : Int :=
  AddDate env.zone (env.clock w.ticks) 0 0 (-30)

/-- A stat issued by `CleanOldLogs`, started in `w`, can find the file with
inode `i` older than the threshold: its modification time is older at the
start, or it is the file of the logger and a clock reading of the call, which
a line written to it makes its modification time, is older. -/
def SeenOld (env : Env) (l : Logger) (w : World) (threshold : Int) (i : Nat) : Prop :=
  w.mtime env i < threshold ∨
    (i = (w.files l.log.out).ino ∧ ∃ n, w.ticks ≤ n ∧ (env.clock n).unixNano < threshold)

/-- The path of a `stat` event. -/
def Event.statPath : Event → Option Str
  | Event.stat path _ => some path
  | _ => none

/-- The logger `New` returns for `logs/app.log` in a file system with no open file. -/
def dirLogger : Logger := ⟨0, ⟨0, [], LstdFlags⟩, "logs/app.log".toList, 5242880⟩

/-- A file system with the log file `logs/app.log`; beside it four files named
like `*.log.BAK`, one of them under another spelling of the directory, three
older than 30 days at the readings of `envOk` and one recent, and a text file;
and an old file named like `*.log.BAK` in another directory. -/
def cleanupWorld : World :=
  { emptyWorld with
    names := [("logs/app.log".toList, 0), ("logs/c.log.BAK".toList, 3),
      ("logs/a.log.BAK".toList, 1), ("logs/b.log.BAK".toList, 2),
      ("logs/notes.txt".toList, 4), ("other/z.log.BAK".toList, 5),
      ("./logs/d.log.BAK".toList, 6)]
    modTime := fun i => if i = 2 then tEx.unixNano else 0
    nextIno := 7
    files := fun _ => ⟨"logs/app.log".toList, 0, false⟩
    nextFile := 1 }

/-- An environment in which the remove of `logs/c.log.BAK` is refused. -/
def envRemoveFails : Env :=
  { envOk with
    removeErr := fun p =>
      if p = "logs/c.log.BAK".toList then
        some ⟨ErrKind.permission, "remove logs/c.log.BAK: permission denied".toList⟩
      else none }

/-- The logger `New` returns for `logs[1]/app.log`, a log path whose directory
has the name `logs[1]`. -/
def metaLogger : Logger := ⟨0, ⟨0, [], LstdFlags⟩, "logs[1]/app.log".toList, 5242880⟩

/-- A file system with the log file `logs[1]/app.log`, an old backup beside
it, and an old file named like `*.log.BAK` in the directory `logs1`. -/
def metaWorld : World :=
  { emptyWorld with
    names := [("logs[1]/app.log".toList, 0), ("logs[1]/old.log.BAK".toList, 1),
      ("logs1/x.log.BAK".toList, 2)]
    nextIno := 3
    files := fun _ => ⟨"logs[1]/app.log".toList, 0, false⟩
    nextFile := 1 }

/-- The logger `New` returns for `a.BAK.BAK`, a log path that the pattern of
its own cleanup matches. -/
def bakLogger : Logger := ⟨0, ⟨0, [], LstdFlags⟩, "a.BAK.BAK".toList, 5242880⟩

/-- A file system with the log file `a.BAK.BAK` and the file `0.BAK.BAK`, both
last written long ago. -/
def bakWorld : World :=
  { emptyWorld with
    names := [("a.BAK.BAK".toList, 0), ("0.BAK.BAK".toList, 1)]
    nextIno := 2
    files := fun _ => ⟨"a.BAK.BAK".toList, 0, false⟩
    nextFile := 1 }

/-- The zone of central Europe around 2024: an hour east of UTC, two hours
from the last Sunday of March to the last Sunday of October. -/
def centralEurope : Location := fun u =>
  if u < 1698541200 then (7200, 1679792400, 1698541200)
  else if u < 1711846800 then (3600, 1698541200, 1711846800)
  else if u < 1729990800 then (7200, 1711846800, 1729990800)
  else (3600, 1729990800, 1743296400)

/-- An environment in central Europe whose clock reads noon of 15 April 2024,
local time, and the seconds after it. -/
def envSpring : Env :=
  { envOk with
    clock := fun n => ⟨2024, 4, 15, 12, 0, n % 60, 0, 1713175200000000000 + n * 1000000000⟩
    zone := centralEurope }

/-- The file system of `cleanupWorld` with a backup last written 29 days,
23 hours and 30 minutes before noon of 15 April 2024. -/
def springWorld : World :=
  { cleanupWorld with
    names := [("logs/app.log".toList, 0), ("logs/a.log.BAK".toList, 1)]
    modTime := fun i => if i = 1 then 1713175200000000000 - 2590200000000000 else 0 }

/-- The character is none of the wildcard characters of `filepath.Match`. -/
def plainChar (c : Char) : Prop := c ≠ '*' ∧ c ≠ '?' ∧ c ≠ '[' ∧ c ≠ '\\'

/-- The text is empty or ends in a separator. -/
def EndsSep (r : Str) : Prop := r = [] ∨ ∃ r0, r = r0 ++ ['/']

/-- An element that `Clean` keeps: a name that is not empty, `.` or `..`. -/
def IsElem (e : Str) : Prop := e ≠ [] ∧ '/' ∉ e ∧ e ≠ ['.'] ∧ e ≠ ['.', '.']

/-- The separator that `Clean` writes before an element: none at the start of
the buffer. -/
def withSep (rooted : Bool) (out : Str) : Str :=
  if (rooted ∧ out.length ≠ 1) ∨ (!rooted ∧ out.length ≠ 0) then out ++ ['/'] else out

/-- The buffers that the loop of `Clean` builds, each with the length below
which `..` does not go back: the start (`/` for a rooted path), a further `..`
at the head of a path that is not rooted, a further element. -/
inductive Built (rooted : Bool) : Str → Nat → Prop
  | start : Built rooted (if rooted then ['/'] else []) (if rooted then 1 else 0)
  | dots (out : Str) : rooted = false → Built rooted out out.length →
      Built rooted ((if 0 < out.length then out ++ ['/'] else out) ++ ['.', '.'])
        ((if 0 < out.length then out ++ ['/'] else out) ++ ['.', '.']).length
  | elem (out : Str) (dd : Nat) (e : Str) : Built rooted out dd → IsElem e →
      Built rooted (withSep rooted out ++ e) dd

/-- The text begins an element of a path: it is empty or begins with a separator. -/
def StartsSep (r : Str) : Prop := r = [] ∨ r.head? = some '/'

/-- The results of `Clean`: `.`, or a text built by its loop for a rooted
path, or a text that is not empty built for a path that is not rooted. -/
def CleanForm (d : Str) : Prop :=
  d = ['.'] ∨ (∃ dd, Built true d dd) ∨ (∃ dd, Built false d dd ∧ d ≠ [])

/-! ## Properties -/

/-! ### Formatting -/

theorem utod_isDigit (d : Nat) (h : d < 10) : (utod d).isDigit = true := by
  interval_cases d <;> decide

theorem decimalLoop_isDigit (fuel u : Nat) : ∀ c ∈ decimalLoop fuel u, c.isDigit = true := by
  induction fuel generalizing u with
  | zero =>
    intro c hc
    simp only [decimalLoop, List.mem_singleton] at hc
    subst hc
    exact utod_isDigit _ (Nat.mod_lt _ (by decide))
  | succ n ih =>
    intro c hc
    unfold decimalLoop at hc
    split at hc
    · simp only [List.mem_singleton] at hc
      subst hc
      exact utod_isDigit _ (by assumption)
    · rcases List.mem_append.mp hc with h | h
      · exact ih _ c h
      · simp only [List.mem_singleton] at h
        subst h
        exact utod_isDigit _ (Nat.mod_lt _ (by decide))

theorem appendInt_isDigit (x width : Nat) : ∀ c ∈ appendInt x width, c.isDigit = true := by
  intro c hc
  unfold appendInt at hc
  split at hc
  · rename_i h
    simp only [List.mem_cons, List.mem_singleton, List.not_mem_nil, or_false] at hc
    rcases hc with h1 | h1 <;> subst h1
    · exact utod_isDigit _ (by omega)
    · exact utod_isDigit _ (by omega)
  · split at hc
    · rename_i h
      simp only [List.mem_cons, List.mem_singleton, List.not_mem_nil, or_false] at hc
      rcases hc with h1 | h1 | h1 | h1 <;> subst h1
      · exact utod_isDigit _ (by omega)
      · exact utod_isDigit _ (by omega)
      · exact utod_isDigit _ (by omega)
      · exact utod_isDigit _ (by omega)
    · rcases List.mem_append.mp hc with h | h
      · rw [List.eq_of_mem_replicate h]; decide
      · exact decimalLoop_isDigit _ _ c h

theorem appendInt_two (x : Nat) (h : x < 100) :
    appendInt x 2 = [utod (x / 10), utod (x % 10)] := by
  simp [appendInt, h]

theorem appendInt_four (x : Nat) (h : x < 10000) :
    appendInt x 4 = [utod (x / 1000), utod (x / 100 % 10), utod (x / 10 % 10), utod (x % 10)] := by
  simp [appendInt, h]

theorem format_backupLayout (t : Time) :
    t.Format backupLayout = stamp14 t ++ ['0', '0'] := by
  simp only [stamp14, List.append_assoc]
  rfl

theorem stamp14_isDigit (t : Time) : ∀ c ∈ stamp14 t, c.isDigit = true := by
  intro c hc
  simp only [stamp14, List.mem_append] at hc
  rcases hc with ((((h | h) | h) | h) | h) | h <;> exact appendInt_isDigit _ _ c h

theorem stamp_isDigit (t : Time) : ∀ c ∈ t.Format backupLayout, c.isDigit = true := by
  intro c hc
  rw [format_backupLayout, List.mem_append] at hc
  rcases hc with h | h
  · exact stamp14_isDigit t c h
  · simp only [List.mem_cons, List.mem_singleton, List.not_mem_nil, or_false, or_self] at h
    subst h; decide

theorem stamp14_length (t : Time) (h : t.Valid) : (stamp14 t).length = 14 := by
  obtain ⟨hy, _, hm, _, hd, hh, hmi, hs, _⟩ := h
  simp [stamp14, appendInt_two _ (show t.month < 100 by omega),
    appendInt_two _ (show t.day < 100 by omega), appendInt_four _ hy,
    appendInt_two _ (show t.hour < 100 by omega), appendInt_two _ (show t.minute < 100 by omega),
    appendInt_two _ (show t.second < 100 by omega)]

/-! ### C3: the backup name -/

/-- C3, as stated, fails: for `app.log` rotated on 7 March 2024 at 09:05:02 the
code names the backup `app.0307202409050200.BAK`, with 16 characters between
the dots, not the 14-digit name of the specification. -/
theorem C3_counterexample :
    backupName "app.log".toList tEx = "app.0307202409050200.BAK".toList ∧
      backupName "app.log".toList tEx ≠ specBackupName "app.log".toList tEx := by
  decide

/-- C3, amended: for every log path and rotation time the backup name is the
path without its extension, a dot, the rotation time as `MMDDYYYYHHMMSS`
followed by the two constant characters `00`, and `.BAK`; all characters of
that stamp are digits, and for a calendar time with a 4-digit year there are
exactly 16 of them. -/
theorem C3_backupName_stamp16 (logPath : Str) (t : Time) :
    backupName logPath t =
        TrimSuffix logPath (Ext logPath) ++ ['.'] ++ (stamp14 t ++ ['0', '0']) ++ ".BAK".toList ∧
      (∀ c ∈ stamp14 t ++ ['0', '0'], c.isDigit = true) ∧
      (t.Valid → (stamp14 t ++ ['0', '0']).length = 16) := by
  refine ⟨?_, ?_, ?_⟩
  · simp only [backupName, format_backupLayout]
  · intro c hc
    rw [← format_backupLayout] at hc
    exact stamp_isDigit t c hc
  · intro h
    simp [stamp14_length t h]

/-- C3, amended, at `app.log` and 7 March 2024, 09:05:02. -/
theorem C3_backupName_stamp16_witness :
    tEx.Valid ∧ (stamp14 tEx ++ ['0', '0']).length = 16 :=
  ⟨by decide, (C3_backupName_stamp16 "app.log".toList tEx).2.2 (by decide)⟩

/-! ### C5: `Log` returns no error -/

/-- C5: whatever the state of the logger and of the file system, and whichever
system calls fail (the stat, or the close, rename or reopen of a rotation),
`Log`, `Info`, `Warning` and `Error` return `nil`. -/
theorem C5_log_returns_nil (env : Env) (l : Logger) (w : World) (level msg : Str) :
    (Log env l w level msg).1 = none ∧ (Info env l w msg).1 = none ∧
      (Warning env l w msg).1 = none ∧ (Error env l w msg).1 = none :=
  ⟨rfl, rfl, rfl, rfl⟩

/-! ### C8: `CheckNetworkPath` -/

/-- C8: `CheckNetworkPath` returns `nil` exactly when the stat of `logPath`
succeeds; a stat that fails because the path does not exist gives the "does
not exist" error; any other failure gives the error prefixed `cannot access
network share: `, which differs from the former and from `nil`; the logger and
the file system are left as they were. -/
theorem C8_checkNetworkPath (env : Env) (l : Logger) (w : World) :
    ((CheckNetworkPath env l w).1 = none ↔ ∃ m, (stat env w l.logPath).1 = Except.ok m) ∧
    (∀ e, (stat env w l.logPath).1 = Except.error e → IsNotExist e = true →
      (CheckNetworkPath env l w).1 = some (notExistError l.logPath)) ∧
    (∀ e, (stat env w l.logPath).1 = Except.error e → IsNotExist e = false →
      (CheckNetworkPath env l w).1 = some (accessError e) ∧
        accessError e ≠ notExistError l.logPath) ∧
    (CheckNetworkPath env l w).2.1 = l ∧
    (CheckNetworkPath env l w).2.2.names = w.names ∧
    (CheckNetworkPath env l w).2.2.content = w.content ∧
    (CheckNetworkPath env l w).2.2.files = w.files := by
  unfold CheckNetworkPath
  rcases hs : stat env w l.logPath with ⟨r, w1⟩
  have hw : w1.names = w.names ∧ w1.content = w.content ∧ w1.files = w.files := by
    unfold stat at hs
    split at hs
    · cases hs; exact ⟨rfl, rfl, rfl⟩
    · split at hs <;> (cases hs; exact ⟨rfl, rfl, rfl⟩)
  cases r with
  | error e =>
    by_cases hne : IsNotExist e = true
    · simp [hne, notExistError, hw]
    · simp only [Bool.not_eq_true] at hne
      simp [hne, notExistError, accessError, hw]
  | ok m => simp [hw]

/-- C8 at a path that does not exist: the "does not exist" error. -/
theorem C8_checkNetworkPath_witness :
    (stat envOk emptyWorld "app.log".toList).1 =
        Except.error (errNotExist "stat".toList "app.log".toList) ∧
      (CheckNetworkPath envOk ⟨0, ⟨0, [], LstdFlags⟩, "app.log".toList, 5242880⟩ emptyWorld).1 =
        some (notExistError "app.log".toList) :=
  ⟨rfl,
    (C8_checkNetworkPath envOk ⟨0, ⟨0, [], LstdFlags⟩, "app.log".toList, 5242880⟩ emptyWorld).2.1
      (errNotExist "stat".toList "app.log".toList) rfl rfl⟩

/-! ### C9: the console logger -/

theorem itoaLoop_isDigit (fuel i : Nat) (wid : Int) :
    ∀ c ∈ itoaLoop fuel i wid, c.isDigit = true := by
  induction fuel generalizing i wid with
  | zero =>
    intro c hc
    simp only [itoaLoop, List.mem_singleton] at hc
    subst hc
    exact utod_isDigit _ (Nat.mod_lt _ (by decide))
  | succ n ih =>
    intro c hc
    unfold itoaLoop at hc
    split at hc
    · rcases List.mem_append.mp hc with h | h
      · exact ih _ _ c h
      · simp only [List.mem_singleton] at h
        subst h
        exact utod_isDigit _ (Nat.mod_lt _ (by decide))
    · rename_i hn
      simp only [List.mem_singleton] at hc
      subst hc
      exact utod_isDigit _ (by omega)

theorem itoa_no_newline (i : Nat) (wid : Int) : '\n' ∉ itoa i wid := by
  intro h
  have := itoaLoop_isDigit 19 i wid _ h
  revert this
  decide

theorem consoleHeader_no_newline (t : Time) (line : Nat) : '\n' ∉ consoleHeader t line := by
  have h := itoa_no_newline
  simp [consoleHeader, formatHeader, LstdFlagsShortfile, shortFile, h]

theorem outputBytes_append_newline (t : Time) (pfx : Str) (flag : Flags) (file : Str) (line : Nat)
    (s : Str) (hs : s ≠ []) (hl : s.getLast? ≠ some '\n') :
    outputBytes t pfx flag file line s = formatHeader t pfx flag file line ++ s ++ ['\n'] := by
  unfold outputBytes
  have : (formatHeader t pfx flag file line ++ s).getLast? = s.getLast? := by
    rw [List.getLast?_append]
    cases hg : s.getLast? with
    | none => exact absurd (List.getLast?_eq_none_iff.mp hg) hs
    | some c => rfl
  simp only [this]
  rw [if_neg hl]

theorem getLast?_label_append (label msg : Str) (c : Char) (hlab : label.getLast? = some c)
    (hc : c ≠ '\n') (hm : '\n' ∉ msg) : (label ++ msg).getLast? ≠ some '\n' := by
  rw [List.getLast?_append]
  cases hg : msg.getLast? with
  | none => simpa [hlab] using hc
  | some d =>
    intro h
    simp at h
    subst h
    exact hm (List.mem_of_getLast?_eq_some hg)

theorem printf_sink {α : Type} (F : Console.Formatter α) (buf : Str) (t : Time) (line : Nat)
    (label msg : Str) (hlab : label.getLast? = some ' ')
    (hv : '%' ∉ label ++ msg) (hm : '\n' ∉ msg) :
    ((Console.New.SetOutput buf).Printf F t line (label ++ msg) []).sink =
      buf ++ (consoleHeader t line ++ label ++ msg) ++ ['\n'] := by
  have hne : label ++ msg ≠ [] := by
    intro h
    rw [List.append_eq_nil] at h
    rw [h.1] at hlab
    simp at hlab
  have hl := getLast?_label_append label msg ' ' hlab (by decide) hm
  simp only [Console.Logger.Printf, Console.Logger.SetOutput, Console.New, F.verbFree _ hv,
    outputBytes_append_newline _ _ _ _ _ _ hne hl, consoleHeader, List.append_assoc]

/-- C9, as stated, fails: the message `a`, newline, `b` has no format verb and
no trailing newline, yet `Info` writes two lines for it, so the bytes written
are not one line followed by its newline. -/
theorem C9_counterexample :
    ('%' ∉ "a\nb".toList ∧ "a\nb".toList.getLast? ≠ some '\n') ∧
      ¬ ∃ line : Str, '\n' ∉ line ∧
        ((Console.New.SetOutput []).Info Console.plain tEx "a\nb".toList []).sink =
          line ++ ['\n'] := by
  refine ⟨by decide, ?_⟩
  rintro ⟨line, hn, h⟩
  have hs : ((Console.New.SetOutput []).Info Console.plain tEx "a\nb".toList []).sink =
      "2024/03/07 09:05:02 logger.go:23: INFO: a\nb".toList ++ ['\n'] := by decide
  rw [hs] at h
  have := List.append_inj_left' h rfl
  rw [← this] at hn
  revert hn
  decide

/-- C9, amended: for a message without `%` and without any newline, each of
`Info`, `Error` and `Debug` appends to the sink exactly one line: the header
(date, time, `logger.go:` and the line of the call), the label `INFO: `,
`ERROR: ` or `DEBUG: `, the message, and one newline, with no newline before
it; so after the three calls in turn the buffer contains each labelled
message. -/
theorem C9_console_one_line {α : Type} (F : Console.Formatter α) (buf : Str) (t1 t2 t3 : Time)
    (m1 m2 m3 : Str) (hv1 : '%' ∉ m1) (hn1 : '\n' ∉ m1) (hv2 : '%' ∉ m2) (hn2 : '\n' ∉ m2)
    (hv3 : '%' ∉ m3) (hn3 : '\n' ∉ m3) :
    (((Console.New.SetOutput buf).Info F t1 m1 []).sink =
        buf ++ (consoleHeader t1 23 ++ "INFO: ".toList ++ m1) ++ ['\n'] ∧
      '\n' ∉ consoleHeader t1 23 ++ "INFO: ".toList ++ m1) ∧
    (((Console.New.SetOutput buf).Error F t2 m2 []).sink =
        buf ++ (consoleHeader t2 28 ++ "ERROR: ".toList ++ m2) ++ ['\n'] ∧
      '\n' ∉ consoleHeader t2 28 ++ "ERROR: ".toList ++ m2) ∧
    (((Console.New.SetOutput buf).Debug F t3 m3 []).sink =
        buf ++ (consoleHeader t3 33 ++ "DEBUG: ".toList ++ m3) ++ ['\n'] ∧
      '\n' ∉ consoleHeader t3 33 ++ "DEBUG: ".toList ++ m3) ∧
    ("INFO: ".toList ++ m1 <:+:
        ((((Console.New.SetOutput buf).Info F t1 m1 []).Error F t2 m2 []).Debug F t3 m3 []).sink ∧
      "ERROR: ".toList ++ m2 <:+:
        ((((Console.New.SetOutput buf).Info F t1 m1 []).Error F t2 m2 []).Debug F t3 m3 []).sink ∧
      "DEBUG: ".toList ++ m3 <:+:
        ((((Console.New.SetOutput buf).Info F t1 m1 []).Error F t2 m2 []).Debug F t3 m3 []).sink)
    := by
  have e1 : ∀ b, ((Console.New.SetOutput b).Info F t1 m1 []).sink =
      b ++ (consoleHeader t1 23 ++ "INFO: ".toList ++ m1) ++ ['\n'] := fun b =>
    printf_sink F b t1 23 "INFO: ".toList m1 (by decide)
      (by simp only [List.mem_append, not_or]; exact ⟨by decide, hv1⟩) hn1
  have e2 : ∀ b, ((Console.New.SetOutput b).Error F t2 m2 []).sink =
      b ++ (consoleHeader t2 28 ++ "ERROR: ".toList ++ m2) ++ ['\n'] := fun b =>
    printf_sink F b t2 28 "ERROR: ".toList m2 (by decide)
      (by simp only [List.mem_append, not_or]; exact ⟨by decide, hv2⟩) hn2
  have e3 : ∀ b, ((Console.New.SetOutput b).Debug F t3 m3 []).sink =
      b ++ (consoleHeader t3 33 ++ "DEBUG: ".toList ++ m3) ++ ['\n'] := fun b =>
    printf_sink F b t3 33 "DEBUG: ".toList m3 (by decide)
      (by simp only [List.mem_append, not_or]; exact ⟨by decide, hv3⟩) hn3
  have nn : ∀ (t : Time) (line : Nat) (label m : Str), '\n' ∉ label → '\n' ∉ m →
      '\n' ∉ consoleHeader t line ++ label ++ m := by
    intro t line label m hl hm
    simp only [List.mem_append, not_or]
    exact ⟨⟨consoleHeader_no_newline t line, hl⟩, hm⟩
  have s1 : ∀ l : Console.Logger, l.pfx = [] → l.flag = LstdFlagsShortfile →
      l = Console.New.SetOutput l.sink := by
    intro l hp hf
    cases l
    simp only [Console.Logger.SetOutput, Console.New] at *
    simp [hp, hf]
  have i1 : (Console.New.SetOutput buf).Info F t1 m1 [] =
      Console.New.SetOutput ((Console.New.SetOutput buf).Info F t1 m1 []).sink := s1 _ rfl rfl
  have i2 : ((Console.New.SetOutput buf).Info F t1 m1 []).Error F t2 m2 [] =
      Console.New.SetOutput
        (((Console.New.SetOutput buf).Info F t1 m1 []).Error F t2 m2 []).sink := s1 _ rfl rfl
  refine ⟨⟨e1 buf, nn _ _ _ _ (by decide) hn1⟩, ⟨e2 buf, nn _ _ _ _ (by decide) hn2⟩,
    ⟨e3 buf, nn _ _ _ _ (by decide) hn3⟩, ?_⟩
  rw [i2, e3, i1, e2, e1]
  refine ⟨⟨buf ++ consoleHeader t1 23, ['\n'] ++ (consoleHeader t2 28 ++ "ERROR: ".toList ++ m2) ++
      ['\n'] ++ (consoleHeader t3 33 ++ "DEBUG: ".toList ++ m3) ++ ['\n'], ?_⟩,
    ⟨buf ++ (consoleHeader t1 23 ++ "INFO: ".toList ++ m1) ++ ['\n'] ++ consoleHeader t2 28,
      ['\n'] ++ (consoleHeader t3 33 ++ "DEBUG: ".toList ++ m3) ++ ['\n'], ?_⟩,
    ⟨buf ++ (consoleHeader t1 23 ++ "INFO: ".toList ++ m1) ++ ['\n'] ++
      (consoleHeader t2 28 ++ "ERROR: ".toList ++ m2) ++ ['\n'] ++ consoleHeader t3 33,
      ['\n'], ?_⟩⟩ <;> simp only [List.append_assoc]

/-- C9, amended, on the three messages of `TestLogger`: the buffer contains
the three labelled messages. -/
theorem C9_console_one_line_witness :
    "INFO: This is an info message".toList <:+: testOutput tEx ∧
      "ERROR: This is an error message".toList <:+: testOutput tEx ∧
      "DEBUG: This is a debug message".toList <:+: testOutput tEx :=
  (C9_console_one_line Console.plain [] tEx tEx tEx "This is an info message".toList
    "This is an error message".toList "This is a debug message".toList
    (by decide) (by decide) (by decide) (by decide) (by decide) (by decide)).2.2.2

set_option maxRecDepth 100000 in
/-- The checks of `TestLogger` go through the helper `contains`, which compares
the end of the buffer; the buffer ends with a newline, so none of the three
checks of the test holds. -/
theorem testLogger_contains_false :
    contains (testOutput tEx) "INFO: This is an info message".toList = false ∧
      contains (testOutput tEx) "ERROR: This is an error message".toList = false ∧
      contains (testOutput tEx) "DEBUG: This is a debug message".toList = false := by
  decide

/-! ### Paths: extension and backup name -/

theorem extScan_spec (rev acc : Str) :
    extScan rev acc = [] ∨
      ∃ r1 r2, rev = r1 ++ '.' :: r2 ∧ '.' ∉ r1 ∧ '/' ∉ r1 ∧
        extScan rev acc = '.' :: (r1.reverse ++ acc) := by
  induction rev generalizing acc with
  | nil => exact Or.inl rfl
  | cons c rev ih =>
    by_cases hsep : c = '/'
    · left
      simp [extScan, isPathSeparator, hsep]
    · by_cases hdot : c = '.'
      · right
        refine ⟨[], rev, by simp [hdot], by simp, by simp, ?_⟩
        simp [extScan, isPathSeparator, hdot]
      · rcases ih (c :: acc) with h | ⟨r1, r2, h1, h2, h3, h4⟩
        · left
          simp [extScan, isPathSeparator, hsep, hdot, h]
        · right
          refine ⟨c :: r1, r2, by simp [h1], ?_, ?_, ?_⟩
          · simp only [List.mem_cons, not_or]
            exact ⟨fun h => hdot h.symm, h2⟩
          · simp only [List.mem_cons, not_or]
            exact ⟨fun h => hsep h.symm, h3⟩
          · simp [extScan, isPathSeparator, hsep, hdot, h4]

theorem Ext_shape (path : Str) :
    Ext path = [] ∨
      ∃ a e, path = a ++ '.' :: e ∧ '.' ∉ e ∧ '/' ∉ e ∧ Ext path = '.' :: e := by
  rcases extScan_spec path.reverse [] with h | ⟨r1, r2, h1, h2, h3, h4⟩
  · exact Or.inl h
  · right
    refine ⟨r2.reverse, r1.reverse, ?_, by simpa using h2, by simpa using h3, by simpa [Ext] using h4⟩
    have := congrArg List.reverse h1
    simpa using this

theorem TrimSuffix_append (a e : Str) : TrimSuffix (a ++ e) e = a := by
  simp [TrimSuffix]

theorem TrimSuffix_nil (s : Str) : TrimSuffix s [] = s := by
  simp [TrimSuffix]

theorem stem_append_ext (path : Str) : TrimSuffix path (Ext path) ++ Ext path = path := by
  rcases Ext_shape path with h | ⟨a, e, h1, _, _, h4⟩
  · rw [h, TrimSuffix_nil, List.append_nil]
  · rw [h4]
    conv_lhs => rw [h1]
    rw [TrimSuffix_append]
    exact h1.symm

theorem backupName_ne (path : Str) (t : Time) : backupName path t ≠ path := by
  intro h
  rcases Ext_shape path with he | ⟨a, e, h1, h2, _, h4⟩
  · have := congrArg List.length h
    simp [backupName, he, TrimSuffix_nil] at this
  · rw [backupName, h4] at h
    conv at h => lhs; rw [h1]
    rw [TrimSuffix_append] at h
    conv at h => rhs; rw [h1]
    simp only [List.append_assoc, List.singleton_append, List.append_cancel_left_eq,
      List.cons.injEq, true_and] at h
    apply h2
    have h3 : e = t.Format backupLayout ++ ".BAK".toList := by
      have := List.tail_eq_of_cons_eq h
      exact this.symm
    rw [h3]
    simp

/-! ### The steps of `Log` -/

theorem outputBytes_newline (t : Time) (pfx : Str) (flag : Flags) (file : Str) (line : Nat)
    (s : Str) :
    outputBytes t pfx flag file line (s ++ ['\n']) =
      formatHeader t pfx flag file line ++ (s ++ ['\n']) := by
  unfold outputBytes
  simp

theorem logLine_eq (lg : StdLogger) (env : Env) (w : World) (level msg : Str)
    (hp : lg.pfx = []) (hf : lg.flag = LstdFlags) :
    logLine lg env w level msg =
      write w.tick.tick lg.out
        (entryBytes (env.clock w.ticks) (env.clock (w.ticks + 1)) level msg) := by
  unfold logLine StdLogger.Println customFormat now
  rw [outputBytes_newline, hp, hf]
  simp only [entryBytes, List.append_assoc]
  rfl

theorem lookup_filter_key (p : Str → Bool) (names : List (Str × Nat)) (k : Str) :
    (names.filter (fun e => p e.1)).lookup k = if p k then names.lookup k else none := by
  induction names with
  | nil => simp
  | cons a rest ih =>
    obtain ⟨a, i⟩ := a
    by_cases hpa : p a = true
    · rw [List.filter_cons_of_pos (by simpa using hpa)]
      by_cases hk : k = a
      · subst hk
        simp [List.lookup, hpa]
      · have : (k == a) = false := by simpa using hk
        simp only [List.lookup, this, ih]
    · rw [List.filter_cons_of_neg (by simpa using hpa)]
      by_cases hk : k = a
      · subst hk
        simp only [Bool.not_eq_true] at hpa
        simp [List.lookup, hpa, ih]
      · have : (k == a) = false := by simpa using hk
        simp only [List.lookup, this, ih]

theorem lookup_append (xs ys : List (Str × Nat)) (k : Str) :
    (xs ++ ys).lookup k = match xs.lookup k with
      | some i => some i
      | none => ys.lookup k := by
  induction xs with
  | nil => simp
  | cons a rest ih =>
    obtain ⟨a, i⟩ := a
    by_cases hk : k = a
    · subst hk
      simp [List.lookup]
    · have : (k == a) = false := by simpa using hk
      rw [List.cons_append]
      simp only [List.lookup, this]
      exact ih

theorem write_closed (w : World) (f : Nat) (bytes : Str) (h : (w.files f).closed = true) :
    write w f bytes = w.emit (Event.write f bytes false) := by
  simp [write, h]

theorem write_open (w : World) (f : Nat) (bytes : Str) (h : (w.files f).closed = false) :
    write w f bytes = (w.append (w.files f).ino bytes).emit (Event.write f bytes true) := by
  simp [write, h]

theorem checkRotate_small (env : Env) (l : Logger) (w : World)
    (hopen : (w.files l.logFile).closed = false) (hf : env.fstatErr = none)
    (hs : (fileSize l w : Int) < l.maxSize) :
    checkRotate env l w = (l, w.emit (Event.fstat l.logFile true)) := by
  unfold fileSize at hs
  simp only [checkRotate, fstat, hopen, hf, not_le.mpr hs, Bool.false_eq_true, if_false, ge_iff_le]

theorem checkRotate_big (env : Env) (l : Logger) (w : World)
    (hopen : (w.files l.logFile).closed = false) (hf : env.fstatErr = none)
    (hs : l.maxSize ≤ (fileSize l w : Int)) :
    checkRotate env l w = rotate env l (w.emit (Event.fstat l.logFile true)) := by
  unfold fileSize at hs
  simp only [checkRotate, fstat, hopen, hf, hs, Bool.false_eq_true, if_false, ge_iff_le, if_true]

theorem checkRotate_closed (env : Env) (l : Logger) (w : World)
    (hcl : (w.files l.logFile).closed = true) :
    checkRotate env l w =
      (l, logLine l.log env (w.emit (Event.fstat l.logFile false)) "ERROR".toList
        ("Failed to check log file size: ".toList ++
          (errClosed "stat".toList (w.files l.logFile).name).text)) := by
  simp only [checkRotate, fstat, hcl, if_true]

theorem checkRotate_fault (env : Env) (l : Logger) (w : World) (e : OSError)
    (hopen : (w.files l.logFile).closed = false) (hf : env.fstatErr = some e) :
    checkRotate env l w =
      (l, logLine l.log env (w.emit (Event.fstat l.logFile false)) "ERROR".toList
        ("Failed to check log file size: ".toList ++ e.text)) := by
  simp only [checkRotate, fstat, hopen, hf, Bool.false_eq_true, if_false]

theorem rotate_ok (env : Env) (l : Logger) (w : World) (i0 : Nat) (hN : FromNew l)
    (hopen : (w.files l.logFile).closed = false)
    (hc : env.closeErr = none) (hr : env.renameErr = none) (hm : env.mkdirErr = none)
    (ho : env.openErr = none) (hl : w.lookup l.logPath = some i0) :
    rotate env l w = (rotatedLogger l w, afterRotate env l w i0) := by
  have hcl : close env w l.logFile =
      (none, (w.setClosed l.logFile).emit (Event.close l.logFile true)) := by
    simp only [close, hopen, hc, Bool.false_eq_true, if_false]
  have hrn : rename env (now env ((w.setClosed l.logFile).emit (Event.close l.logFile true))).2
      l.logPath (backupName l.logPath (env.clock w.ticks)) =
      (none, ((((w.setClosed l.logFile).emit (Event.close l.logFile true)).tick.link l.logPath
        (backupName l.logPath (env.clock w.ticks)) i0).emit
          (Event.rename l.logPath (backupName l.logPath (env.clock w.ticks)) true))) := by
    have : (now env ((w.setClosed l.logFile).emit (Event.close l.logFile true))).2.lookup
        l.logPath = some i0 := hl
    simp only [rename, hr, this]
    rfl
  have hw1 : ∀ (w1 : World) (b : Str), (w1.files l.log.out).closed = true →
      write w1 l.log.out b = w1.emit (Event.write l.logFile b false) := by
    intro w1 b h
    rw [write_closed _ _ _ h, hN.out]
  have hline : logLine l.log env
      ((((w.setClosed l.logFile).emit (Event.close l.logFile true)).tick.link l.logPath
        (backupName l.logPath (env.clock w.ticks)) i0).emit
          (Event.rename l.logPath (backupName l.logPath (env.clock w.ticks)) true))
      "INFO".toList ("Log file rotated to ".toList ++ backupName l.logPath (env.clock w.ticks)) =
      afterRename env l w i0 := by
    rw [logLine_eq _ _ _ _ _ hN.pfx hN.flag, hw1]
    · rfl
    · rw [hN.out]
      simp [World.tick, World.emit, World.link, World.setClosed]
  have hlk : (afterRename env l w i0).lookup l.logPath = none := by
    simp only [afterRename, World.lookup, World.emit, World.tick, World.link, World.setClosed,
      List.lookup]
    have hb : (l.logPath == backupName l.logPath (env.clock w.ticks)) = false := by
      simpa using (backupName_ne l.logPath (env.clock w.ticks)).symm
    rw [hb]
    simp only
    rw [lookup_filter_key (fun k => decide (k ≠ l.logPath ∧
      k ≠ backupName l.logPath (env.clock w.ticks)))]
    simp
  have hopn : openLogFile env (afterRename env l w i0) l.logPath =
      (Except.ok w.nextFile,
        ((((afterRename env l w i0).emit (Event.mkdirAll (Dir l.logPath) true)).create l.logPath
          (env.clock (w.ticks + 3)).unixNano).openObj l.logPath w.nextIno).emit
            (Event.openFile l.logPath true)) := by
    have h2 : ((afterRename env l w i0).emit (Event.mkdirAll (Dir l.logPath) true)).lookup
        l.logPath = none := hlk
    simp only [openLogFile, mkdirAll, hm, openAppend, ho, h2]
    rfl
  unfold rotate
  have hn1 : (now env ((w.setClosed l.logFile).emit (Event.close l.logFile true))).1 =
      env.clock w.ticks := rfl
  rw [hcl]
  simp only
  rw [hn1, hrn]
  simp only
  rw [hline, hopn]
  simp only
  rw [logLine_eq _ _ _ _ _ (by exact hN.pfx) (by exact hN.flag), write_open]
  · simp only [World.tick, World.emit, World.openObj, World.create, World.append, afterRename,
      World.link, World.setClosed, Function.update_same, afterRotate, rotatedLogger, resumedLine]
  · simp [World.tick, World.emit, World.openObj, World.create, afterRename, World.link,
      World.setClosed]


theorem write_trace (w : World) (f : Nat) (b : Str) :
    (write w f b).trace = w.trace ++ [Event.write f b (!(w.files f).closed)] := by
  unfold write
  split <;> rename_i h
  · simp [World.emit, h]
  · simp [World.emit, World.append, h]

theorem write_names (w : World) (f : Nat) (b : Str) : (write w f b).names = w.names := by
  unfold write
  split <;> rfl

theorem write_files (w : World) (f : Nat) (b : Str) : (write w f b).files = w.files := by
  unfold write
  split <;> rfl

theorem write_ticks (w : World) (f : Nat) (b : Str) : (write w f b).ticks = w.ticks := by
  unfold write
  split <;> rfl

theorem write_content_open (w : World) (f : Nat) (b : Str) (h : (w.files f).closed = false) :
    (write w f b).content =
      Function.update w.content (w.files f).ino (w.content (w.files f).ino ++ b) := by
  rw [write_open w f b h]
  rfl

theorem write_content_closed (w : World) (f : Nat) (b : Str) (h : (w.files f).closed = true) :
    (write w f b).content = w.content := by
  rw [write_closed w f b h]
  rfl

theorem rotate_logger (env : Env) (l : Logger) (w : World) :
    (rotate env l w).1 = l ∨
      ∃ nf, (rotate env l w).1 = { l with logFile := nf, log := { l.log with out := nf } } := by
  unfold rotate
  split
  · exact Or.inl rfl
  · split
    · exact Or.inl rfl
    · split
      · exact Or.inl rfl
      · rename_i nf _ _
        exact Or.inr ⟨nf, rfl⟩

theorem rotate_fromNew (env : Env) (l : Logger) (w : World) (hN : FromNew l) :
    FromNew (rotate env l w).1 := by
  rcases rotate_logger env l w with h | ⟨nf, h⟩
  · rw [h]; exact hN
  · rw [h]
    exact ⟨hN.pfx, hN.flag, rfl, hN.maxSize⟩

theorem checkRotate_fromNew (env : Env) (l : Logger) (w : World) (hN : FromNew l) :
    FromNew (checkRotate env l w).1 := by
  unfold checkRotate
  split
  · exact hN
  · split
    · exact rotate_fromNew _ _ _ hN
    · exact hN

theorem Log_eq (env : Env) (l : Logger) (w : World) (level msg : Str) (hN : FromNew l) :
    Log env l w level msg =
      (none, (checkRotate env l w).1,
        write (checkRotate env l w).2.tick.tick (checkRotate env l w).1.log.out
          (entryBytes (env.clock (checkRotate env l w).2.ticks)
            (env.clock ((checkRotate env l w).2.ticks + 1)) level msg)) := by
  have h := checkRotate_fromNew env l w hN
  unfold Log
  rw [logLine_eq _ _ _ _ _ h.pfx h.flag]


/-! ### The record of system calls only grows -/

theorem logLine_trace (lg : StdLogger) (env : Env) (w : World) (level msg : Str) :
    ∃ b ok, (logLine lg env w level msg).trace = w.trace ++ [Event.write lg.out b ok] := by
  unfold logLine StdLogger.Println
  exact ⟨_, _, write_trace _ _ _⟩

theorem close_trace (env : Env) (w : World) (f : Nat) :
    ∃ b, (close env w f).2.trace = w.trace ++ [Event.close f b] := by
  unfold close
  split
  · exact ⟨false, rfl⟩
  · split
    · exact ⟨false, rfl⟩
    · exact ⟨true, rfl⟩

theorem rename_trace (env : Env) (w : World) (a b : Str) :
    ∃ ok, (rename env w a b).2.trace = w.trace ++ [Event.rename a b ok] := by
  unfold rename
  split
  · exact ⟨false, rfl⟩
  · split
    · exact ⟨false, rfl⟩
    · exact ⟨true, rfl⟩

theorem mkdirAll_trace (env : Env) (w : World) (d : Str) :
    ∃ ok, (mkdirAll env w d).2.trace = w.trace ++ [Event.mkdirAll d ok] := by
  unfold mkdirAll
  split
  · exact ⟨false, rfl⟩
  · exact ⟨true, rfl⟩

theorem openAppend_trace (env : Env) (w : World) (p : Str) :
    ∃ ok, (openAppend env w p).2.trace = w.trace ++ [Event.openFile p ok] := by
  unfold openAppend
  split
  · exact ⟨false, rfl⟩
  · split
    · exact ⟨true, rfl⟩
    · exact ⟨true, rfl⟩

theorem openLogFile_trace (env : Env) (w : World) (p : Str) :
    ∃ evs, (openLogFile env w p).2.trace = w.trace ++ evs := by
  obtain ⟨ok1, h1⟩ := mkdirAll_trace env w (Dir p)
  unfold openLogFile
  rcases hm : mkdirAll env w (Dir p) with ⟨o, w1⟩
  rw [hm] at h1
  cases o with
  | some e => exact ⟨_, h1⟩
  | none =>
    obtain ⟨ok2, h2⟩ := openAppend_trace env w1 p
    simp only
    rcases ho : openAppend env w1 p with ⟨r, w2⟩
    rw [ho] at h2
    simp only at h1 h2
    have h3 : w2.trace = w.trace ++ [Event.mkdirAll (Dir p) ok1, Event.openFile p ok2] := by
      rw [h2, h1]; simp
    cases r with
    | error e =>
      simp only
      split
      · exact ⟨_, h3⟩
      · split
        · exact ⟨_, h3⟩
        · exact ⟨_, h3⟩
    | ok f => exact ⟨_, h3⟩

theorem rotate_trace (env : Env) (l : Logger) (w : World) :
    ∃ b rest, (rotate env l w).2.trace = w.trace ++ Event.close l.logFile b :: rest := by
  obtain ⟨b, h1⟩ := close_trace env w l.logFile
  unfold rotate
  rcases hc : close env w l.logFile with ⟨o, w1⟩
  rw [hc] at h1
  simp only at h1
  cases o with
  | some e =>
    obtain ⟨x, ok, h2⟩ := logLine_trace l.log env w1 "ERROR".toList
      ("Failed to close log file during rotation: ".toList ++ e.text)
    exact ⟨b, _, by simp only; rw [h2, h1, List.append_assoc]; rfl⟩
  | none =>
    simp only
    obtain ⟨ok2, h2⟩ := rename_trace env (now env w1).2 l.logPath
      (backupName l.logPath (now env w1).1)
    rcases hr : rename env (now env w1).2 l.logPath (backupName l.logPath (now env w1).1)
      with ⟨o2, w2⟩
    rw [hr] at h2
    have h2' : w2.trace = w.trace ++ Event.close l.logFile b :: [Event.rename l.logPath
        (backupName l.logPath (now env w1).1) ok2] := by
      simp only at h2
      rw [h2]
      show w1.trace ++ _ = _
      rw [h1]; simp
    cases o2 with
    | some e =>
      obtain ⟨x, ok, h3⟩ := logLine_trace l.log env w2 "ERROR".toList
        ("Failed to rename log file: ".toList ++ e.text)
      exact ⟨b, _, by simp only; rw [h3, h2', List.append_assoc]; rfl⟩
    | none =>
      simp only
      obtain ⟨x, ok, h3⟩ := logLine_trace l.log env w2 "INFO".toList
        ("Log file rotated to ".toList ++ backupName l.logPath (now env w1).1)
      obtain ⟨evs, h4⟩ := openLogFile_trace env (logLine l.log env w2 "INFO".toList
        ("Log file rotated to ".toList ++ backupName l.logPath (now env w1).1)) l.logPath
      rcases ho : openLogFile env (logLine l.log env w2 "INFO".toList
        ("Log file rotated to ".toList ++ backupName l.logPath (now env w1).1)) l.logPath
        with ⟨r, w3⟩
      rw [ho] at h4
      simp only at h4
      rw [h3, h2'] at h4
      cases r with
      | error e =>
        obtain ⟨x2, ok3, h5⟩ := logLine_trace l.log env w3 "ERROR".toList
          ("Failed to open new log file after rotation: ".toList ++ e)
        exact ⟨b, _, by simp only; rw [h5, h4]; simp only [List.append_assoc]; rfl⟩
      | ok nf =>
        obtain ⟨x2, ok3, h5⟩ := logLine_trace { l.log with out := nf } env w3 "INFO".toList
          ("Logging resumed in new file: ".toList ++ l.logPath)
        exact ⟨b, _, by simp only; rw [h5, h4]; simp only [List.append_assoc]; rfl⟩


/-! ### C4: when `Log` rotates -/

theorem fstat_world (env : Env) (w : World) (f : Nat) :
    ∃ ok, (fstat env w f).2 = w.emit (Event.fstat f ok) := by
  unfold fstat
  split
  · exact ⟨false, rfl⟩
  · split
    · exact ⟨false, rfl⟩
    · exact ⟨true, rfl⟩

theorem fstat_ok (env : Env) (w : World) (f : Nat) (size : Nat)
    (h : (fstat env w f).1 = Except.ok size) :
    (w.files f).closed = false ∧ env.fstatErr = none ∧
      size = (w.content (w.files f).ino).length ∧
      (fstat env w f).2 = w.emit (Event.fstat f true) := by
  unfold fstat at h ⊢
  split at h
  · cases h
  · rename_i hc
    split at h
    · cases h
    · rename_i hf
      simp only [Except.ok.injEq] at h
      simp only [Bool.not_eq_true] at hc
      simp only [hc, hf, h, Bool.false_eq_true, if_false, and_self]

theorem fstat_error (env : Env) (w : World) (f : Nat) (e : OSError)
    (h : (fstat env w f).1 = Except.error e) :
    (((w.files f).closed = true ∧ e = errClosed "stat".toList (w.files f).name) ∨
      ((w.files f).closed = false ∧ env.fstatErr = some e)) ∧
      (fstat env w f).2 = w.emit (Event.fstat f false) := by
  unfold fstat at h ⊢
  split at h
  · rename_i hc
    simp only [Except.error.injEq] at h
    simp only [hc, if_true, h, true_and, and_true]
    exact Or.inl trivial
  · rename_i hc
    simp only [Bool.not_eq_true] at hc
    split at h
    · rename_i e1 hf
      simp only [Except.error.injEq] at h
      subst h
      simp only [hc, hf, Bool.false_eq_true, if_false, false_and, true_and, and_true, false_or]
    · cases h

theorem checkRotate_stat_error (env : Env) (l : Logger) (w : World) (e : OSError) (hN : FromNew l)
    (h : (fstat env w l.logFile).1 = Except.error e) :
    checkRotate env l w =
      (l, write (w.emit (Event.fstat l.logFile false)).tick.tick l.logFile
        (statErrorLine (env.clock w.ticks) (env.clock (w.ticks + 1)) e)) := by
  obtain ⟨hcase, hw⟩ := fstat_error env w l.logFile e h
  rcases hcase with ⟨hc, he⟩ | ⟨hc, hf⟩
  · rw [checkRotate_closed env l w hc, logLine_eq _ _ _ _ _ hN.pfx hN.flag, hN.out, he]
    rfl
  · rw [checkRotate_fault env l w e hc hf, logLine_eq _ _ _ _ _ hN.pfx hN.flag, hN.out]
    rfl

theorem Log_stat_error (env : Env) (l : Logger) (w : World) (level msg : Str) (e : OSError)
    (hN : FromNew l) (h : (fstat env w l.logFile).1 = Except.error e) :
    Log env l w level msg =
      (none, l,
        write (write (w.emit (Event.fstat l.logFile false)).tick.tick l.logFile
          (statErrorLine (env.clock w.ticks) (env.clock (w.ticks + 1)) e)).tick.tick l.logFile
          (entryBytes (env.clock (w.ticks + 2)) (env.clock (w.ticks + 3)) level msg)) := by
  rw [Log_eq env l w level msg hN, checkRotate_stat_error env l w e hN h]
  simp only [hN.out, write_ticks]
  rfl

theorem newEvents_append (w w1 : World) (evs : List Event) (h : w1.trace = w.trace ++ evs) :
    newEvents w w1 = evs := by
  simp [newEvents, h]


theorem rotate_rename_fails (env : Env) (l : Logger) (w : World) (e : OSError) (hN : FromNew l)
    (hopen : (w.files l.logFile).closed = false) (hc : env.closeErr = none)
    (hr : env.renameErr = some e) :
    rotate env l w =
      (l, ((((w.setClosed l.logFile).emit (Event.close l.logFile true)).tick.emit
        (Event.rename l.logPath (backupName l.logPath (env.clock w.ticks)) false)).tick.tick).emit
          (Event.write l.logFile
            (renameErrorLine (env.clock (w.ticks + 1)) (env.clock (w.ticks + 2)) e) false)) := by
  have hcl : close env w l.logFile =
      (none, (w.setClosed l.logFile).emit (Event.close l.logFile true)) := by
    simp only [close, hopen, hc, Bool.false_eq_true, if_false]
  have hn1 : (now env ((w.setClosed l.logFile).emit (Event.close l.logFile true))).1 =
      env.clock w.ticks := rfl
  have hrn : rename env (now env ((w.setClosed l.logFile).emit (Event.close l.logFile true))).2
      l.logPath (backupName l.logPath (env.clock w.ticks)) =
      (some e, ((w.setClosed l.logFile).emit (Event.close l.logFile true)).tick.emit
          (Event.rename l.logPath (backupName l.logPath (env.clock w.ticks)) false)) := by
    simp only [rename, hr]
    rfl
  unfold rotate
  rw [hcl]
  simp only
  rw [hn1, hrn]
  simp only
  rw [logLine_eq _ _ _ _ _ hN.pfx hN.flag, write_closed]
  · rw [hN.out]; rfl
  · rw [hN.out]
    simp [World.tick, World.emit, World.setClosed]

theorem Log_stat_error_fields (env : Env) (l : Logger) (w : World) (level msg : Str)
    (e : OSError) (hN : FromNew l) (he : (fstat env w l.logFile).1 = Except.error e) :
    (Log env l w level msg).2.1 = l ∧
      (Log env l w level msg).2.2.names = w.names ∧
      (Log env l w level msg).2.2.files = w.files ∧
      newEvents w (Log env l w level msg).2.2 =
        [Event.fstat l.logFile false,
          Event.write l.logFile (statErrorLine (env.clock w.ticks) (env.clock (w.ticks + 1)) e)
            (!(w.files l.logFile).closed),
          Event.write l.logFile
            (entryBytes (env.clock (w.ticks + 2)) (env.clock (w.ticks + 3)) level msg)
            (!(w.files l.logFile).closed)] ∧
      ((w.files l.logFile).closed = false →
        (Log env l w level msg).2.2.content =
          Function.update w.content (w.files l.logFile).ino
            (w.content (w.files l.logFile).ino ++
              statErrorLine (env.clock w.ticks) (env.clock (w.ticks + 1)) e ++
              entryBytes (env.clock (w.ticks + 2)) (env.clock (w.ticks + 3)) level msg)) ∧
      ((w.files l.logFile).closed = true → (Log env l w level msg).2.2.content = w.content) := by
  rw [Log_stat_error env l w level msg e hN he]
  refine ⟨rfl, ?_, ?_, ?_, ?_, ?_⟩
  · simp [write_names, World.tick, World.emit]
  · simp [write_files, World.tick, World.emit]
  · apply newEvents_append
    simp [write_trace, write_files, World.tick, World.emit]
  · intro hopen
    simp [write_content_open, write_files, World.tick, World.emit, hopen]
  · intro hcl
    simp [write_content_closed, write_files, World.tick, World.emit, hcl]

/-- C4: for a logger made by `New`, (1) when the stat of the open file
succeeds, `Log` starts a rotation (a `close` is issued) if and only if the size
is at least 5,242,880 bytes; (2) the write of the entry is the last system call
of `Log`, after every call of the rotation, and goes to the writer the
rotation left; (3) when the stat fails, nothing of a rotation is attempted
(the logger, the names and the file objects stay as they are, and the calls
issued are the stat and two writes), and the entry is handed to the file,
which takes it if it is open and refuses it if it is closed. -/
theorem C4_rotation_decision (env : Env) (l : Logger) (w : World) (level msg : Str)
    (hN : FromNew l) :
    (∀ size, (fstat env w l.logFile).1 = Except.ok size →
      ((∃ ev ∈ newEvents w (checkRotate env l w).2, ev.isClose = true) ↔ 5242880 ≤ size) ∧
      (5242880 ≤ size → checkRotate env l w = rotate env l (fstat env w l.logFile).2) ∧
      (size < 5242880 → checkRotate env l w = (l, (fstat env w l.logFile).2))) ∧
    (∃ ok, (Log env l w level msg).2.2.trace =
      (checkRotate env l w).2.trace ++
        [Event.write (checkRotate env l w).1.log.out
          (entryBytes (env.clock (checkRotate env l w).2.ticks)
            (env.clock ((checkRotate env l w).2.ticks + 1)) level msg) ok]) ∧
    (∀ e, (fstat env w l.logFile).1 = Except.error e →
      (Log env l w level msg).2.1 = l ∧
      (Log env l w level msg).2.2.names = w.names ∧
      (Log env l w level msg).2.2.files = w.files ∧
      newEvents w (Log env l w level msg).2.2 =
        [Event.fstat l.logFile false,
          Event.write l.logFile (statErrorLine (env.clock w.ticks) (env.clock (w.ticks + 1)) e)
            (!(w.files l.logFile).closed),
          Event.write l.logFile
            (entryBytes (env.clock (w.ticks + 2)) (env.clock (w.ticks + 3)) level msg)
            (!(w.files l.logFile).closed)] ∧
      ((w.files l.logFile).closed = false →
        (Log env l w level msg).2.2.content =
          Function.update w.content (w.files l.logFile).ino
            (w.content (w.files l.logFile).ino ++
              statErrorLine (env.clock w.ticks) (env.clock (w.ticks + 1)) e ++
              entryBytes (env.clock (w.ticks + 2)) (env.clock (w.ticks + 3)) level msg)) ∧
      ((w.files l.logFile).closed = true → (Log env l w level msg).2.2.content = w.content)) := by
  refine ⟨?_, ?_, ?_⟩
  · intro size hs
    obtain ⟨hopen, hf, hsz, hw⟩ := fstat_ok env w l.logFile size hs
    have hbig : 5242880 ≤ size → checkRotate env l w = rotate env l (fstat env w l.logFile).2 := by
      intro h
      rw [hw]
      apply checkRotate_big env l w hopen hf
      rw [hN.maxSize, fileSize, ← hsz]
      exact_mod_cast h
    have hsmall : size < 5242880 → checkRotate env l w = (l, (fstat env w l.logFile).2) := by
      intro h
      rw [hw]
      apply checkRotate_small env l w hopen hf
      rw [hN.maxSize, fileSize, ← hsz]
      exact_mod_cast h
    refine ⟨⟨?_, ?_⟩, hbig, hsmall⟩
    · rintro ⟨ev, hev, hcl⟩
      by_contra hlt
      rw [hsmall (by omega), hw] at hev
      rw [newEvents_append w _ [Event.fstat l.logFile true] rfl] at hev
      simp only [List.mem_singleton] at hev
      subst hev
      cases hcl
    · intro h
      obtain ⟨b, rest, ht⟩ := rotate_trace env l (w.emit (Event.fstat l.logFile true))
      refine ⟨Event.close l.logFile b, ?_, rfl⟩
      rw [hbig h, hw, newEvents_append w _ (Event.fstat l.logFile true ::
        Event.close l.logFile b :: rest) (by rw [ht]; simp [World.emit])]
      simp
  · rw [Log_eq env l w level msg hN]
    exact ⟨_, write_trace _ _ _⟩
  · intro e he
    exact Log_stat_error_fields env l w level msg e hN he


theorem Log_rename_fails_eq (env : Env) (l : Logger) (w : World) (level msg : Str) (e : OSError)
    (hN : FromNew l) (hopen : (w.files l.logFile).closed = false) (hf : env.fstatErr = none)
    (hs : l.maxSize ≤ (fileSize l w : Int)) (hc : env.closeErr = none)
    (hr : env.renameErr = some e) :
    ∃ w1 : World, Log env l w level msg = (none, l, w1) ∧ w1.content = w.content ∧
      w1.names = w.names ∧ w1.files = (w.setClosed l.logFile).files := by
  have h1 := checkRotate_big env l w hopen hf hs
  have h2 := rotate_rename_fails env l (w.emit (Event.fstat l.logFile true)) e hN hopen hc hr
  rw [h2] at h1
  have h3 := Log_eq env l w level msg hN
  rw [h1] at h3
  refine ⟨_, h3, ?_, ?_, ?_⟩
  · rw [write_content_closed]
    · simp only [World.tick, World.emit, World.setClosed]
    · simp only [hN.out, World.tick, World.emit, World.setClosed, Function.update_same]
  · simp only [write_names, World.tick, World.emit, World.setClosed]
  · simp only [write_files, World.tick, World.emit, World.setClosed]

theorem Log_rename_fails (env : Env) (l : Logger) (w : World) (level msg : Str) (e : OSError)
    (hN : FromNew l) (hopen : (w.files l.logFile).closed = false) (hf : env.fstatErr = none)
    (hs : l.maxSize ≤ (fileSize l w : Int)) (hc : env.closeErr = none)
    (hr : env.renameErr = some e) :
    (Log env l w level msg).2.1 = l ∧
      ((Log env l w level msg).2.2.files l.logFile).closed = true ∧
      (Log env l w level msg).2.2.content = w.content ∧
      (Log env l w level msg).2.2.names = w.names ∧
      (Log env l w level msg).2.2.files = (w.setClosed l.logFile).files := by
  obtain ⟨w1, h, hc1, hn1, hf1⟩ := Log_rename_fails_eq env l w level msg e hN hopen hf hs hc hr
  rw [h]
  refine ⟨rfl, ?_, hc1, hn1, hf1⟩
  show (w1.files l.logFile).closed = true
  rw [hf1]
  simp only [World.setClosed, Function.update_same]

theorem appLogger_fromNew : FromNew appLogger := ⟨rfl, rfl, rfl, rfl⟩

theorem fiveMiB_length : fiveMiB.length = 5242880 := by
  unfold fiveMiB
  exact List.length_replicate _ _

theorem bigOpen_size : fileSize appLogger bigOpen = 5242880 := by
  show fiveMiB.length = 5242880
  exact fiveMiB_length

theorem bigOpen_fstat : (fstat envOk bigOpen appLogger.logFile).1 = Except.ok 5242880 := by
  show Except.ok fiveMiB.length = Except.ok 5242880
  rw [fiveMiB_length]

theorem bigOpen_isOpen : (bigOpen.files appLogger.logFile).closed = false := rfl

theorem bigOpen_maxSize : appLogger.maxSize ≤ (fileSize appLogger bigOpen : Int) := by
  rw [bigOpen_size]; decide

theorem envRenameFails_rename :
    envRenameFails.renameErr = some ⟨ErrKind.permission, "rename: permission denied".toList⟩ :=
  rfl

theorem afterFailedRotation_eq :
    afterFailedRotation = Log envRenameFails appLogger bigOpen "INFO".toList "first".toList :=
  rfl

theorem afterFailedRotation_spec :
    afterFailedRotation.2.1 = appLogger ∧
      (afterFailedRotation.2.2.files appLogger.logFile).closed = true ∧
      afterFailedRotation.2.2.content = bigOpen.content ∧
      afterFailedRotation.2.2.names = bigOpen.names ∧
      afterFailedRotation.2.2.files = (bigOpen.setClosed appLogger.logFile).files := by
  rw [afterFailedRotation_eq]
  exact Log_rename_fails envRenameFails appLogger bigOpen _ _ _ appLogger_fromNew bigOpen_isOpen
    rfl bigOpen_maxSize rfl envRenameFails_rename

/-- C4, as stated, fails in its last part: `New` opens a 5 MiB `app.log`; the
first `Log` rotates, the rename is refused, and the file object stays closed;
in the next `Log` the stat fails and the entry is not written: its write is
refused and no file changes. -/
theorem C4_counterexample :
    New envOk bigWorld "app.log".toList = (Except.ok appLogger, bigOpen) ∧
      (fstat envOk afterFailedRotation.2.2 afterFailedRotation.2.1.logFile).1 =
        Except.error (errClosed "stat".toList "app.log".toList) ∧
      Event.write 0
          (entryBytes (envOk.clock (afterFailedRotation.2.2.ticks + 2))
            (envOk.clock (afterFailedRotation.2.2.ticks + 3)) "INFO".toList "second".toList)
          false ∈
        newEvents afterFailedRotation.2.2
          (Log envOk afterFailedRotation.2.1 afterFailedRotation.2.2 "INFO".toList
            "second".toList).2.2 ∧
      (Log envOk afterFailedRotation.2.1 afterFailedRotation.2.2 "INFO".toList
        "second".toList).2.2.content = bigOpen.content := by
  obtain ⟨h1, h2, h3, h4, h5⟩ := afterFailedRotation_spec
  have hname : (afterFailedRotation.2.2.files appLogger.logFile).name = "app.log".toList := by
    rw [h5]; rfl
  have hst : (fstat envOk afterFailedRotation.2.2 afterFailedRotation.2.1.logFile).1 =
      Except.error (errClosed "stat".toList "app.log".toList) := by
    rw [h1]
    unfold fstat
    rw [if_pos h2, hname]
  have hN : FromNew afterFailedRotation.2.1 := by rw [h1]; exact appLogger_fromNew
  obtain ⟨_, _, _, hev, _, hcl⟩ :=
    Log_stat_error_fields envOk afterFailedRotation.2.1 afterFailedRotation.2.2 "INFO".toList
      "second".toList _ hN hst
  refine ⟨rfl, hst, ?_, ?_⟩
  · rw [hev, h1, h2]
    simp [appLogger]
  · rw [hcl (by rw [h1]; exact h2), h3]

/-- C4 at the 5 MiB `app.log` just opened by `New`: the stat reports exactly
5,242,880 bytes and the rotation starts. -/
theorem C4_rotation_decision_witness :
    FromNew appLogger ∧ (fstat envOk bigOpen appLogger.logFile).1 = Except.ok 5242880 ∧
      ∃ ev ∈ newEvents bigOpen (checkRotate envOk appLogger bigOpen).2, ev.isClose = true :=
  ⟨appLogger_fromNew, bigOpen_fstat,
    ((C4_rotation_decision envOk appLogger bigOpen [] [] appLogger_fromNew).1 5242880
      bigOpen_fstat).1.mpr (le_refl _)⟩


/-! ### C2: the line of an entry -/

theorem formatHeader_std (t : Time) : formatHeader t [] LstdFlags [] 0 = stdHeader t := by
  simp [formatHeader, LstdFlags, stdHeader]

theorem format_entryLayout (t : Time) : t.Format entryLayout = entryStamp t := by
  have h : t.Format entryLayout =
      (appendInt t.month 2) ++ ((['-'] ++ appendInt t.day 2) ++ ((['-'] ++ appendInt t.year 4) ++
        (([' '] ++ appendInt t.hour 2) ++ (([':'] ++ appendInt t.minute 2) ++
          (([':'] ++ appendInt t.second 2) ++ (('.' :: (appendInt t.nano 9).take 4) ++ [])))))) :=
    rfl
  rw [h]
  simp only [entryStamp, List.append_assoc, List.append_nil, List.singleton_append]

theorem entryBytes_eq (t1 t2 : Time) (level msg : Str) :
    entryBytes t1 t2 level msg = stdHeader t2 ++ specLine t1 level msg := by
  simp only [entryBytes, specLine, formatHeader_std, List.append_assoc]

theorem appendInt_length_ge (x width : Nat) : width ≤ (appendInt x width).length := by
  unfold appendInt
  split
  · rename_i h; simp [h.1]
  · split
    · rename_i h; simp [h.1]
    · simp only [List.length_append, List.length_replicate]
      omega

theorem entryStamp_no_newline (t : Time) : '\n' ∉ entryStamp t := by
  intro h
  have hd : ∀ x w, '\n' ∉ appendInt x w := by
    intro x w hx
    have := appendInt_isDigit x w _ hx
    revert this
    decide
  simp only [entryStamp, List.mem_append, List.mem_singleton] at h
  rcases h with (((((((((((h | h) | h) | h) | h) | h) | h) | h) | h) | h) | h) | h) | h
  all_goals first
    | exact hd _ _ h
    | exact absurd h (by decide)
    | exact hd _ _ (List.mem_of_mem_take h)

theorem stdHeader_no_newline (t : Time) : '\n' ∉ stdHeader t := by
  have h := itoa_no_newline
  simp [stdHeader, h]

theorem Log_small (env : Env) (l : Logger) (w : World) (level msg : Str) (hN : FromNew l)
    (hopen : (w.files l.logFile).closed = false) (hf : env.fstatErr = none)
    (hs : fileSize l w < 5242880) :
    Log env l w level msg =
      (none, l,
        (((w.emit (Event.fstat l.logFile true)).tick.tick.append (w.files l.logFile).ino
          (entryBytes (env.clock w.ticks) (env.clock (w.ticks + 1)) level msg)).emit
            (Event.write l.logFile
              (entryBytes (env.clock w.ticks) (env.clock (w.ticks + 1)) level msg) true))) := by
  have h1 := checkRotate_small env l w hopen hf (by rw [hN.maxSize]; exact_mod_cast hs)
  have h3 := Log_eq env l w level msg hN
  rw [h1] at h3
  rw [h3, write_open]
  · simp only [hN.out, World.tick, World.emit]
  · simp only [hN.out, World.tick, World.emit]
    exact hopen

/-- C2, as stated, fails: the first entry written to a new `app.log` is the line
`2024/03/07 09:05:01 03-07-2024 09:05:00.1234 INFO hello`; the line does not
start with the timestamp of the entry but with the date and time that
`log.LstdFlags` puts before it. -/
theorem C2_counterexample :
    New envOk emptyWorld "app.log".toList = (Except.ok appLogger, freshOpen) ∧
      (Log envOk appLogger freshOpen "INFO".toList "hello".toList).2.2.read "app.log".toList =
        some "2024/03/07 09:05:01 03-07-2024 09:05:00.1234 INFO hello\n".toList ∧
      specLine (envOk.clock 0) "INFO".toList "hello".toList =
        "03-07-2024 09:05:00.1234 INFO hello\n".toList ∧
      (Log envOk appLogger freshOpen "INFO".toList "hello".toList).2.2.read "app.log".toList ≠
        some (specLine (envOk.clock 0) "INFO".toList "hello".toList) := by
  refine ⟨rfl, by decide, by decide, by decide⟩

/-- C2, amended: for a logger made by `New`, every level and every message,
`Log` hands the entry to the file in one final write whose bytes are the
header of `log.LstdFlags` (`YYYY/MM/DD HH:MM:SS `, from a second reading of
the clock), the timestamp `MM-DD-YYYY HH:MM:SS.FFFF` with 4 fractional digits,
a space, the level, a space, the message and a newline; without a newline in
level and message that newline is the only one; and a call that finds the file
open and below 5 MiB with a successful stat appends this one line and nothing
else. -/
theorem C2_entry_line (env : Env) (l : Logger) (w : World) (level msg : Str) (hN : FromNew l) :
    (Log env l w level msg).2.2 =
        write (checkRotate env l w).2.tick.tick (checkRotate env l w).1.log.out
          (entryBytes (env.clock (checkRotate env l w).2.ticks)
            (env.clock ((checkRotate env l w).2.ticks + 1)) level msg) ∧
    (∀ t1 t2, entryBytes t1 t2 level msg =
      stdHeader t2 ++ (entryStamp t1 ++ [' '] ++ level ++ [' '] ++ msg) ++ ['\n']) ∧
    (∀ t1 t2, '\n' ∉ level → '\n' ∉ msg →
      '\n' ∉ stdHeader t2 ++ (entryStamp t1 ++ [' '] ++ level ++ [' '] ++ msg)) ∧
    (∀ t : Time, ((appendInt t.nano 9).take 4).length = 4) ∧
    ((w.files l.logFile).closed = false → env.fstatErr = none → fileSize l w < 5242880 →
      (Log env l w level msg).2.1 = l ∧
      (Log env l w level msg).2.2.content =
        Function.update w.content (w.files l.logFile).ino
          (w.content (w.files l.logFile).ino ++
            entryBytes (env.clock w.ticks) (env.clock (w.ticks + 1)) level msg) ∧
      newEvents w (Log env l w level msg).2.2 =
        [Event.fstat l.logFile true,
          Event.write l.logFile
            (entryBytes (env.clock w.ticks) (env.clock (w.ticks + 1)) level msg) true]) := by
  refine ⟨?_, ?_, ?_, ?_, ?_⟩
  · rw [Log_eq env l w level msg hN]
  · intro t1 t2
    rw [entryBytes_eq, specLine, format_entryLayout]
    simp only [List.append_assoc]
  · intro t1 t2 hl hm
    have h1 := stdHeader_no_newline t2
    have h2 := entryStamp_no_newline t1
    simp only [List.mem_append, List.mem_singleton, not_or]
    exact ⟨h1, ⟨⟨⟨⟨h2, by decide⟩, hl⟩, by decide⟩, hm⟩⟩
  · intro t
    have := appendInt_length_ge t.nano 9
    simp only [List.length_take]
    omega
  · intro hopen hf hs
    rw [Log_small env l w level msg hN hopen hf hs]
    refine ⟨rfl, ?_, ?_⟩
    · simp only [World.tick, World.emit, World.append]
    · apply newEvents_append
      simp only [World.tick, World.emit, World.append, List.append_assoc, List.singleton_append]

/-- C2, amended, at the first entry written to a new `app.log`. -/
theorem C2_entry_line_witness :
    FromNew appLogger ∧ (freshOpen.files appLogger.logFile).closed = false ∧
      fileSize appLogger freshOpen < 5242880 ∧
      newEvents freshOpen (Log envOk appLogger freshOpen "INFO".toList "hello".toList).2.2 =
        [Event.fstat 0 true,
          Event.write 0 (entryBytes (envOk.clock 0) (envOk.clock 1) "INFO".toList "hello".toList)
            true] :=
  ⟨appLogger_fromNew, rfl, by decide,
    ((C2_entry_line envOk appLogger freshOpen "INFO".toList "hello".toList appLogger_fromNew).2.2.2.2
      rfl rfl (by decide)).2.2⟩


/-! ### C6 and C1: the rotation -/

theorem Log_rotate_ok (env : Env) (l : Logger) (w : World) (level msg : Str) (i0 : Nat)
    (hN : FromNew l) (hopen : (w.files l.logFile).closed = false) (hnf : env.NoFault)
    (hs : 5242880 ≤ fileSize l w) (hl : w.lookup l.logPath = some i0) :
    Log env l w level msg =
      (none, rotatedLogger l w,
        ((afterRotate env l (w.emit (Event.fstat l.logFile true)) i0).tick.tick.append w.nextIno
          (entryBytes (env.clock (w.ticks + 5)) (env.clock (w.ticks + 6)) level msg)).emit
          (Event.write w.nextFile
            (entryBytes (env.clock (w.ticks + 5)) (env.clock (w.ticks + 6)) level msg) true)) := by
  have h1 := checkRotate_big env l w hopen hnf.fstat (by rw [hN.maxSize]; exact_mod_cast hs)
  have h2 := rotate_ok env l (w.emit (Event.fstat l.logFile true)) i0 hN hopen hnf.close
    hnf.rename hnf.mkdir hnf.openFile hl
  rw [h2] at h1
  have h3 := Log_eq env l w level msg hN
  rw [h1] at h3
  rw [h3, write_open]
  · simp only [rotatedLogger, afterRotate, afterRename, World.tick, World.emit, World.append,
      World.openObj, World.create, World.link, World.setClosed, Function.update_same]
  · simp only [rotatedLogger, afterRotate, afterRename, World.tick, World.emit, World.append,
      World.openObj, World.create, World.link, World.setClosed, Function.update_same]

theorem Log_rotate_fields (env : Env) (l : Logger) (w : World) (level msg : Str) (i0 : Nat)
    (hN : FromNew l) (hopen : (w.files l.logFile).closed = false) (hnf : env.NoFault)
    (hs : 5242880 ≤ fileSize l w) (hl : w.lookup l.logPath = some i0) :
    (Log env l w level msg).2.1 = rotatedLogger l w ∧
    (Log env l w level msg).2.2.names =
      (backupName l.logPath (env.clock w.ticks), i0) ::
        w.names.filter (fun e => decide (e.1 ≠ l.logPath ∧
          e.1 ≠ backupName l.logPath (env.clock w.ticks))) ++ [(l.logPath, w.nextIno)] ∧
    (Log env l w level msg).2.2.content =
      Function.update w.content w.nextIno
        (resumedLine (env.clock (w.ticks + 3)) (env.clock (w.ticks + 4)) l.logPath ++
          entryBytes (env.clock (w.ticks + 5)) (env.clock (w.ticks + 6)) level msg) ∧
    (Log env l w level msg).2.2.files =
      Function.update (Function.update w.files l.logFile { w.files l.logFile with closed := true })
        w.nextFile ⟨l.logPath, w.nextIno, false⟩ ∧
    (Log env l w level msg).2.2.trace =
      w.trace ++
        [Event.fstat l.logFile true, Event.close l.logFile true,
          Event.rename l.logPath (backupName l.logPath (env.clock w.ticks)) true,
          Event.write l.logFile
            (rotatedLine (env.clock (w.ticks + 1)) (env.clock (w.ticks + 2))
              (backupName l.logPath (env.clock w.ticks))) false,
          Event.mkdirAll (Dir l.logPath) true, Event.openFile l.logPath true,
          Event.write w.nextFile
            (resumedLine (env.clock (w.ticks + 3)) (env.clock (w.ticks + 4)) l.logPath) true,
          Event.write w.nextFile
            (entryBytes (env.clock (w.ticks + 5)) (env.clock (w.ticks + 6)) level msg) true] := by
  rw [Log_rotate_ok env l w level msg i0 hN hopen hnf hs hl]
  refine ⟨rfl, ?_, ?_, ?_, ?_⟩
  · simp only [afterRotate, afterRename, World.tick, World.emit, World.append,
      World.openObj, World.create, World.link, World.setClosed, List.cons_append]
  · simp only [afterRotate, afterRename, World.tick, World.emit, World.append,
      World.openObj, World.create, World.link, World.setClosed, Function.update_same,
      Function.update_idem, List.nil_append]
  · simp only [afterRotate, afterRename, World.tick, World.emit, World.append,
      World.openObj, World.create, World.link, World.setClosed]
  · simp only [afterRotate, afterRename, World.tick, World.emit, World.append,
      World.openObj, World.create, World.link, World.setClosed, List.append_assoc,
      List.singleton_append, List.cons_append, List.nil_append]

theorem mem_paths_of_lookup (names : List (Str × Nat)) (p : Str) (i : Nat)
    (h : names.lookup p = some i) : p ∈ names.map Prod.fst := by
  induction names with
  | nil => simp at h
  | cons a rest ih =>
    obtain ⟨a, j⟩ := a
    by_cases hk : p = a
    · subst hk; simp
    · have : (p == a) = false := by simpa using hk
      simp only [List.lookup, this] at h
      simp only [List.map_cons, List.mem_cons]
      exact Or.inr (ih h)

theorem lookup_cons_ne (names : List (Str × Nat)) (p q : Str) (i : Nat) (h : p ≠ q) :
    List.lookup p ((q, i) :: names) = List.lookup p names := by
  have : (p == q) = false := by simpa using h
  simp only [List.lookup, this]

theorem lookup_cons_self (names : List (Str × Nat)) (p : Str) (i : Nat) :
    List.lookup p ((p, i) :: names) = some i := by
  simp [List.lookup]

/-- The names after a rotation: the backup name for the old inode, the other
names, the log path for the fresh inode. -/
theorem rotated_names (names : List (Str × Nat)) (logPath backup : Str) (i0 n : Nat)
    (hne : backup ≠ logPath) (hl : names.lookup logPath = some i0) :
    List.lookup backup ((backup, i0) :: names.filter (fun e => decide (e.1 ≠ logPath ∧
        e.1 ≠ backup)) ++ [(logPath, n)]) = some i0 ∧
    List.lookup logPath ((backup, i0) :: names.filter (fun e => decide (e.1 ≠ logPath ∧
        e.1 ≠ backup)) ++ [(logPath, n)]) = some n ∧
    (∀ p, p ≠ logPath → p ≠ backup →
      List.lookup p ((backup, i0) :: names.filter (fun e => decide (e.1 ≠ logPath ∧
        e.1 ≠ backup)) ++ [(logPath, n)]) = names.lookup p) ∧
    (∀ p, p ∈ ((backup, i0) :: names.filter (fun e => decide (e.1 ≠ logPath ∧
        e.1 ≠ backup)) ++ [(logPath, n)]).map Prod.fst ↔
      p ∈ names.map Prod.fst ∨ p = backup) := by
  have hf : ∀ p, (names.filter (fun e => decide (e.1 ≠ logPath ∧ e.1 ≠ backup))).lookup p =
      if decide (p ≠ logPath ∧ p ≠ backup) then names.lookup p else none :=
    fun p => lookup_filter_key (fun k => decide (k ≠ logPath ∧ k ≠ backup)) names p
  refine ⟨?_, ?_, ?_, ?_⟩
  · rw [List.cons_append, lookup_cons_self]
  · rw [List.cons_append, lookup_cons_ne _ _ _ _ (Ne.symm hne), lookup_append, hf]
    simp [List.lookup]
  · intro p h1 h2
    rw [List.cons_append, lookup_cons_ne _ _ _ _ h2, lookup_append, hf]
    simp only [h1, h2, ne_eq, not_false_eq_true, and_self, decide_True, if_true]
    cases hp : names.lookup p with
    | some i => rfl
    | none =>
      have : (p == logPath) = false := by simpa using h1
      simp [List.lookup, this]
  · intro p
    simp only [List.cons_append, List.map_cons, List.map_append, List.mem_cons, List.mem_append,
      List.mem_map, List.mem_filter, List.mem_singleton, List.map_nil, List.not_mem_nil,
      or_false]
    constructor
    · rintro (h | ⟨e, ⟨he, _⟩, rfl⟩ | h)
      · exact Or.inr h
      · exact Or.inl ⟨e, he, rfl⟩
      · subst h
        have := mem_paths_of_lookup names _ i0 hl
        rw [List.mem_map] at this
        exact Or.inl this
    · rintro (⟨e, he, rfl⟩ | h)
      · by_cases h1 : e.1 = logPath
        · exact Or.inr (Or.inr h1)
        · by_cases h2 : e.1 = backup
          · exact Or.inl h2
          · exact Or.inr (Or.inl ⟨e, ⟨he, by simp [h1, h2]⟩, rfl⟩)
      · exact Or.inl h

theorem rotation_result (env : Env) (l : Logger) (w : World) (level msg : Str) (i0 : Nat)
    (hN : FromNew l) (hopen : (w.files l.logFile).closed = false) (hnf : env.NoFault)
    (hs : 5242880 ≤ fileSize l w) (hl : w.lookup l.logPath = some i0) (hfresh : w.FreshIno) :
    ((Log env l w level msg).2.2.read (backupName l.logPath (env.clock w.ticks)) =
        w.read l.logPath ∧ w.read l.logPath = some (w.content i0)) ∧
    ((Log env l w level msg).2.2.lookup l.logPath = some w.nextIno ∧
      ∀ p, w.lookup p ≠ some w.nextIno) ∧
    (Log env l w level msg).2.2.read l.logPath =
      some (resumedLine (env.clock (w.ticks + 3)) (env.clock (w.ticks + 4)) l.logPath ++
        entryBytes (env.clock (w.ticks + 5)) (env.clock (w.ticks + 6)) level msg) ∧
    (∀ p, p ∈ (Log env l w level msg).2.2.paths ↔
      p ∈ w.paths ∨ p = backupName l.logPath (env.clock w.ticks)) ∧
    (∀ p, p ≠ l.logPath → p ≠ backupName l.logPath (env.clock w.ticks) →
      (Log env l w level msg).2.2.read p = w.read p) := by
  obtain ⟨_, hnames, hcontent, _, _⟩ := Log_rotate_fields env l w level msg i0 hN hopen hnf hs hl
  obtain ⟨n1, n2, n3, n4⟩ := rotated_names w.names l.logPath
    (backupName l.logPath (env.clock w.ticks)) i0 w.nextIno (backupName_ne _ _) hl
  have hi0 : i0 ≠ w.nextIno := Nat.ne_of_lt (hfresh _ _ hl)
  refine ⟨⟨?_, ?_⟩, ⟨?_, ?_⟩, ?_, ?_, ?_⟩
  · simp only [World.read, World.lookup, hnames, n1, hcontent, Option.map_some']
    rw [show List.lookup l.logPath w.names = some i0 from hl]
    simp only [Option.map_some', Function.update_noteq hi0]
  · simp only [World.read, hl, Option.map_some']
  · simp only [World.lookup, hnames, n2]
  · intro p hp
    exact absurd (hfresh _ _ hp) (Nat.lt_irrefl _)
  · simp only [World.read, World.lookup, hnames, n2, hcontent, Option.map_some',
      Function.update_same]
  · intro p
    simp only [World.paths, hnames]
    exact n4 p
  · intro p h1 h2
    simp only [World.read, World.lookup, hnames, n3 p h1 h2, hcontent]
    cases hp : List.lookup p w.names with
    | none => rfl
    | some i =>
      have : i ≠ w.nextIno := Nat.ne_of_lt (hfresh _ _ hp)
      simp only [Option.map_some', Function.update_noteq this]

theorem envOk_noFault : envOk.NoFault := ⟨rfl, rfl, rfl, rfl, rfl⟩

theorem bigOpen_fresh : bigOpen.FreshIno := by
  intro p i h
  have hn : bigOpen.names = [("app.log".toList, 0)] := rfl
  unfold World.lookup at h
  rw [hn] at h
  simp only [List.lookup] at h
  split at h
  · cases h; decide
  · cases h

theorem collisionOpen_fresh : collisionOpen.FreshIno := by
  intro p i h
  have hn : collisionOpen.names =
      [("app.log".toList, 0), ("app.0307202409050000.BAK".toList, 1)] := rfl
  unfold World.lookup at h
  rw [hn] at h
  simp only [List.lookup] at h
  split at h
  · cases h; decide
  · split at h
    · cases h; decide
    · cases h

theorem collisionOpen_size : fileSize appLogger collisionOpen = 5242880 := by
  show fiveMiB.length = 5242880
  exact fiveMiB_length

/-- C6, as stated, fails: when a file already has the backup name (here
`app.0307202409050000.BAK`, as left by a rotation in the same second), the
rotation runs and its close, rename and reopen succeed, but no new file
appears: the directory holds the same names as before and the older backup is
replaced. -/
theorem C6_counterexample :
    New envOk collisionWorld "app.log".toList = (Except.ok appLogger, collisionOpen) ∧
      backupName "app.log".toList (envOk.clock collisionOpen.ticks) =
        "app.0307202409050000.BAK".toList ∧
      collisionOpen.read "app.0307202409050000.BAK".toList = some "older backup\n".toList ∧
      (Event.close 0 true ∈ newEvents collisionOpen
          (Log envOk appLogger collisionOpen "INFO".toList "hello".toList).2.2 ∧
        Event.rename "app.log".toList "app.0307202409050000.BAK".toList true ∈
          newEvents collisionOpen
            (Log envOk appLogger collisionOpen "INFO".toList "hello".toList).2.2 ∧
        Event.openFile "app.log".toList true ∈ newEvents collisionOpen
          (Log envOk appLogger collisionOpen "INFO".toList "hello".toList).2.2) ∧
      (∀ p, p ∈ (Log envOk appLogger collisionOpen "INFO".toList "hello".toList).2.2.paths ↔
        p ∈ collisionOpen.paths) ∧
      (Log envOk appLogger collisionOpen "INFO".toList "hello".toList).2.2.read
        "app.0307202409050000.BAK".toList = some fiveMiB := by
  have hB : backupName "app.log".toList (envOk.clock collisionOpen.ticks) =
      "app.0307202409050000.BAK".toList := by decide
  have hl : collisionOpen.lookup appLogger.logPath = some 0 := by decide
  have hs : 5242880 ≤ fileSize appLogger collisionOpen := by rw [collisionOpen_size]
  obtain ⟨_, _, _, _, htr⟩ := Log_rotate_fields envOk appLogger collisionOpen "INFO".toList
    "hello".toList 0 appLogger_fromNew rfl envOk_noFault hs hl
  obtain ⟨⟨h1, h2⟩, _, _, h4, _⟩ := rotation_result envOk appLogger collisionOpen "INFO".toList
    "hello".toList 0 appLogger_fromNew rfl envOk_noFault hs hl collisionOpen_fresh
  have hev := newEvents_append collisionOpen _ _ htr
  have hB2 : backupName appLogger.logPath (envOk.clock collisionOpen.ticks) =
      "app.0307202409050000.BAK".toList := hB
  rw [hB2] at h1 h4 hev
  refine ⟨rfl, hB, by decide, ?_, ?_, ?_⟩
  · rw [hev]
    refine ⟨?_, ?_, ?_⟩
    · exact List.mem_cons_of_mem _ (List.mem_cons_self _ _)
    · exact List.mem_cons_of_mem _ (List.mem_cons_of_mem _ (List.mem_cons_self _ _))
    · exact List.mem_cons_of_mem _ (List.mem_cons_of_mem _ (List.mem_cons_of_mem _
        (List.mem_cons_of_mem _ (List.mem_cons_of_mem _ (List.mem_cons_self _ _)))))
  · intro p
    rw [h4 p]
    constructor
    · rintro (h | h)
      · exact h
      · rw [h]; decide
    · exact Or.inl
  · rw [h1, h2]
    rfl

/-- C6, amended: when `Log` rotates and the close, the rename and the reopen
succeed, then afterwards the backup name holds exactly the content the log
file had before the call; the log path names a newly created file (a fresh
inode) whose content is the line about the resumption followed by the entry;
every other file is as before; the names are those of before and the backup
name; and if no file had the backup name before, the backup is the one new
name (a file that had it is replaced). -/
theorem C6_rotation_result (env : Env) (l : Logger) (w : World) (level msg : Str) (i0 : Nat)
    (hN : FromNew l) (hopen : (w.files l.logFile).closed = false) (hnf : env.NoFault)
    (hs : 5242880 ≤ fileSize l w) (hl : w.lookup l.logPath = some i0) (hfresh : w.FreshIno) :
    ((Log env l w level msg).2.2.read (backupName l.logPath (env.clock w.ticks)) =
        w.read l.logPath ∧ w.read l.logPath = some (w.content i0)) ∧
    ((Log env l w level msg).2.2.lookup l.logPath = some w.nextIno ∧
      ∀ p, w.lookup p ≠ some w.nextIno) ∧
    (Log env l w level msg).2.2.read l.logPath =
      some (resumedLine (env.clock (w.ticks + 3)) (env.clock (w.ticks + 4)) l.logPath ++
        entryBytes (env.clock (w.ticks + 5)) (env.clock (w.ticks + 6)) level msg) ∧
    (∀ p, p ≠ l.logPath → p ≠ backupName l.logPath (env.clock w.ticks) →
      (Log env l w level msg).2.2.read p = w.read p) ∧
    (∀ p, p ∈ (Log env l w level msg).2.2.paths ↔
      p ∈ w.paths ∨ p = backupName l.logPath (env.clock w.ticks)) ∧
    (backupName l.logPath (env.clock w.ticks) ∉ w.paths →
      ∀ p, (p ∈ (Log env l w level msg).2.2.paths ∧ p ∉ w.paths) ↔
        p = backupName l.logPath (env.clock w.ticks)) := by
  obtain ⟨h1, h2, h3, h4, h5⟩ :=
    rotation_result env l w level msg i0 hN hopen hnf hs hl hfresh
  refine ⟨h1, h2, h3, h5, h4, ?_⟩
  intro hB p
  rw [h4 p]
  constructor
  · rintro ⟨h | h, hn⟩
    · exact absurd h hn
    · exact h
  · intro h
    exact ⟨Or.inr h, by rw [h]; exact hB⟩

/-- C6, amended, at the 5 MiB `app.log` just opened: after the `Log` call the
backup `app.0307202409050000.BAK` holds the 5 MiB and is the one new name. -/
theorem C6_rotation_result_witness :
    (FromNew appLogger ∧ (bigOpen.files appLogger.logFile).closed = false ∧ envOk.NoFault ∧
      5242880 ≤ fileSize appLogger bigOpen ∧ bigOpen.lookup appLogger.logPath = some 0 ∧
      bigOpen.FreshIno ∧ backupName appLogger.logPath (envOk.clock bigOpen.ticks) ∉ bigOpen.paths) ∧
    (Log envOk appLogger bigOpen "INFO".toList "hello".toList).2.2.read
        (backupName appLogger.logPath (envOk.clock bigOpen.ticks)) =
      bigOpen.read appLogger.logPath ∧
    ∀ p, (p ∈ (Log envOk appLogger bigOpen "INFO".toList "hello".toList).2.2.paths ∧
        p ∉ bigOpen.paths) ↔ p = backupName appLogger.logPath (envOk.clock bigOpen.ticks) :=
  ⟨⟨appLogger_fromNew, rfl, envOk_noFault, by rw [bigOpen_size], by decide, bigOpen_fresh,
      by decide⟩,
    (C6_rotation_result envOk appLogger bigOpen "INFO".toList "hello".toList 0 appLogger_fromNew
      rfl envOk_noFault (by rw [bigOpen_size]) (by decide) bigOpen_fresh).1.1,
    (C6_rotation_result envOk appLogger bigOpen "INFO".toList "hello".toList 0 appLogger_fromNew
      rfl envOk_noFault (by rw [bigOpen_size]) (by decide) bigOpen_fresh).2.2.2.2.2 (by decide)⟩


/-! ### C1: which call rotates -/

theorem rotations_append (w w1 : World) (evs : List Event) (h : w1.trace = w.trace ++ evs) :
    rotations w1 = rotations w + (evs.filter Event.isRenameOk).length := by
  simp [rotations, h]

theorem entryBytes_length_pos (t1 t2 : Time) (level msg : Str) :
    0 < (entryBytes t1 t2 level msg).length := by
  simp [entryBytes]

theorem Log_stat_error_trace (env : Env) (l : Logger) (w : World) (level msg : Str)
    (e : OSError) (hN : FromNew l) (he : (fstat env w l.logFile).1 = Except.error e) :
    ∃ b1 b2 ok, (Log env l w level msg).2.2.trace =
      w.trace ++ [Event.fstat l.logFile false, Event.write l.logFile b1 ok,
        Event.write l.logFile b2 ok] := by
  rw [Log_stat_error env l w level msg e hN he]
  refine ⟨statErrorLine (env.clock w.ticks) (env.clock (w.ticks + 1)) e,
    entryBytes (env.clock (w.ticks + 2)) (env.clock (w.ticks + 3)) level msg,
    !(w.files l.logFile).closed, ?_⟩
  simp [write_trace, write_files, World.tick, World.emit]

/-- A call that starts with the file below 5 MiB does not rotate, whatever it
writes and whatever fails. -/
theorem Log_no_rotation_below (env : Env) (l : Logger) (w : World) (level msg : Str)
    (hN : FromNew l) (hs : fileSize l w < 5242880) :
    rotations (Log env l w level msg).2.2 = rotations w ∧
      ∀ ev ∈ newEvents w (Log env l w level msg).2.2, ev.isRename = false := by
  rcases hst : (fstat env w l.logFile).1 with e | size
  · obtain ⟨b1, b2, ok, ht⟩ := Log_stat_error_trace env l w level msg e hN hst
    refine ⟨?_, ?_⟩
    · rw [rotations_append w _ _ ht]; rfl
    · rw [newEvents_append w _ _ ht]
      intro ev hev
      simp only [List.mem_cons, List.mem_singleton, List.not_mem_nil, or_false] at hev
      rcases hev with h | h | h <;> subst h <;> rfl
  · obtain ⟨hopen, hf, _, _⟩ := fstat_ok env w l.logFile size hst
    rw [Log_small env l w level msg hN hopen hf hs]
    have ht : (((w.emit (Event.fstat l.logFile true)).tick.tick.append (w.files l.logFile).ino
        (entryBytes (env.clock w.ticks) (env.clock (w.ticks + 1)) level msg)).emit
          (Event.write l.logFile
            (entryBytes (env.clock w.ticks) (env.clock (w.ticks + 1)) level msg) true)).trace =
        w.trace ++ [Event.fstat l.logFile true, Event.write l.logFile
          (entryBytes (env.clock w.ticks) (env.clock (w.ticks + 1)) level msg) true] := by
      simp only [World.tick, World.emit, World.append, List.append_assoc, List.singleton_append]
    refine ⟨?_, ?_⟩
    · rw [rotations_append w _ _ ht]; rfl
    · rw [newEvents_append w _ _ ht]
      intro ev hev
      simp only [List.mem_cons, List.mem_singleton, List.not_mem_nil, or_false] at hev
      rcases hev with h | h <;> subst h <;> rfl

/-- A call without an outside failure on a healthy logger below 5 MiB appends
its line and leaves the logger healthy. -/
theorem Log_below_healthy (env : Env) (l : Logger) (w : World) (level msg : Str)
    (hH : Healthy l w) (hf : env.fstatErr = none) (hs : fileSize l w < 5242880) :
    (Log env l w level msg).2.1 = l ∧ Healthy l (Log env l w level msg).2.2 ∧
      fileSize l (Log env l w level msg).2.2 =
        fileSize l w + (entryBytes (env.clock w.ticks) (env.clock (w.ticks + 1)) level msg).length ∧
      (Log env l w level msg).2.2.ticks = w.ticks + 2 := by
  rw [Log_small env l w level msg hH.fromNew hH.isOpen hf hs]
  refine ⟨rfl, ⟨hH.fromNew, hH.isOpen, hH.named⟩, ?_, rfl⟩
  simp only [fileSize, World.tick, World.emit, World.append, Function.update_same,
    List.length_append]

/-- A call without an outside failure on a healthy logger at or above 5 MiB
rotates exactly once and leaves a healthy logger on a file of two lines. -/
theorem Log_rotation_at_or_above (env : Env) (l : Logger) (w : World) (level msg : Str)
    (hH : Healthy l w) (hnf : env.NoFault) (hs : 5242880 ≤ fileSize l w) :
    rotations (Log env l w level msg).2.2 = rotations w + 1 ∧
      Healthy (Log env l w level msg).2.1 (Log env l w level msg).2.2 ∧
      fileSize (Log env l w level msg).2.1 (Log env l w level msg).2.2 =
        (resumedLine (env.clock (w.ticks + 3)) (env.clock (w.ticks + 4)) l.logPath ++
          entryBytes (env.clock (w.ticks + 5)) (env.clock (w.ticks + 6)) level msg).length := by
  obtain ⟨hl1, hnames, hcontent, hfiles, htrace⟩ :=
    Log_rotate_fields env l w level msg _ hH.fromNew hH.isOpen hnf hs hH.named
  obtain ⟨_, n2, _, _⟩ := rotated_names w.names l.logPath
    (backupName l.logPath (env.clock w.ticks)) (w.files l.logFile).ino w.nextIno
    (backupName_ne _ _) hH.named
  refine ⟨?_, ⟨?_, ?_, ?_⟩, ?_⟩
  · rw [rotations_append w _ _ htrace]; rfl
  · rw [hl1]
    exact ⟨hH.fromNew.pfx, hH.fromNew.flag, rfl, hH.fromNew.maxSize⟩
  · rw [hl1, hfiles]
    simp only [rotatedLogger, Function.update_same]
  · rw [hl1, hfiles]
    simp only [World.lookup, hnames, rotatedLogger, Function.update_same]
    exact n2
  · rw [hl1]
    simp only [fileSize, hfiles, hcontent, rotatedLogger, Function.update_same]

theorem almostFiveMiB_length : almostFiveMiB.length = 5242879 := by
  unfold almostFiveMiB
  exact List.length_replicate _ _

theorem nearOpen_size : fileSize appLogger nearOpen = 5242879 := by
  show almostFiveMiB.length = 5242879
  exact almostFiveMiB_length

theorem nearOpen_healthy : Healthy appLogger nearOpen := ⟨appLogger_fromNew, rfl, rfl⟩

theorem crossingCall_eq :
    crossingCall = Log envOk appLogger nearOpen "INFO".toList "hello".toList := rfl

/-- C1, as stated, fails: `app.log` holds 5,242,879 bytes; the write of the
next `Log` call takes it over 5 MiB, but that call issues no rename: the
rotation happens in the call after it. -/
theorem C1_counterexample :
    New envOk nearWorld "app.log".toList = (Except.ok appLogger, nearOpen) ∧
      fileSize appLogger nearOpen = 5242879 ∧
      5242880 ≤ fileSize crossingCall.2.1 crossingCall.2.2 ∧
      (∀ ev ∈ newEvents nearOpen crossingCall.2.2, ev.isRename = false) ∧
      rotations crossingCall.2.2 = rotations nearOpen ∧
      rotations (Log envOk crossingCall.2.1 crossingCall.2.2 "INFO".toList "again".toList).2.2 =
        rotations nearOpen + 1 := by
  have hs : fileSize appLogger nearOpen < 5242880 := by rw [nearOpen_size]; decide
  obtain ⟨hr, hev⟩ := Log_no_rotation_below envOk appLogger nearOpen "INFO".toList
    "hello".toList appLogger_fromNew hs
  obtain ⟨hl, hH, hsz, _⟩ := Log_below_healthy envOk appLogger nearOpen "INFO".toList
    "hello".toList nearOpen_healthy rfl hs
  have hpos := entryBytes_length_pos (envOk.clock nearOpen.ticks) (envOk.clock (nearOpen.ticks + 1))
    "INFO".toList "hello".toList
  rw [← crossingCall_eq] at hr hev hl hH hsz
  have hbig : 5242880 ≤ fileSize crossingCall.2.1 crossingCall.2.2 := by
    rw [hl, hsz, nearOpen_size]; omega
  refine ⟨rfl, nearOpen_size, hbig, hev, hr, ?_⟩
  have hH2 : Healthy crossingCall.2.1 crossingCall.2.2 := by rw [hl]; exact hH
  rw [(Log_rotation_at_or_above envOk crossingCall.2.1 crossingCall.2.2 "INFO".toList
    "again".toList hH2 envOk_noFault hbig).1, hr]

/-- C1, amended: on a healthy logger made by `New`, a `Log` call whose write
takes the file from below 5 MiB to 5 MiB or more does not rotate; the rotation
for that crossing happens in the next `Log` call, once (the check precedes the
write), and leaves a new file of two lines; a further call does not rotate
again as long as that file is below 5 MiB. -/
theorem C1_rotation_after_crossing (env1 env2 env3 : Env) (l : Logger) (w : World)
    (level1 msg1 level2 msg2 level3 msg3 : Str) (hH : Healthy l w)
    (hf1 : env1.fstatErr = none) (hnf2 : env2.NoFault) (hbelow : fileSize l w < 5242880)
    (hcross : 5242880 ≤ fileSize l w +
      (entryBytes (env1.clock w.ticks) (env1.clock (w.ticks + 1)) level1 msg1).length) :
    rotations (Log env1 l w level1 msg1).2.2 = rotations w ∧
    (∀ ev ∈ newEvents w (Log env1 l w level1 msg1).2.2, ev.isRename = false) ∧
    5242880 ≤ fileSize (Log env1 l w level1 msg1).2.1 (Log env1 l w level1 msg1).2.2 ∧
    rotations (Log env2 (Log env1 l w level1 msg1).2.1 (Log env1 l w level1 msg1).2.2
      level2 msg2).2.2 = rotations w + 1 ∧
    fileSize
        (Log env2 (Log env1 l w level1 msg1).2.1 (Log env1 l w level1 msg1).2.2 level2 msg2).2.1
        (Log env2 (Log env1 l w level1 msg1).2.1 (Log env1 l w level1 msg1).2.2 level2 msg2).2.2 =
      (resumedLine (env2.clock (w.ticks + 5)) (env2.clock (w.ticks + 6)) l.logPath ++
        entryBytes (env2.clock (w.ticks + 7)) (env2.clock (w.ticks + 8)) level2 msg2).length ∧
    (fileSize
        (Log env2 (Log env1 l w level1 msg1).2.1 (Log env1 l w level1 msg1).2.2 level2 msg2).2.1
        (Log env2 (Log env1 l w level1 msg1).2.1 (Log env1 l w level1 msg1).2.2 level2 msg2).2.2 <
        5242880 →
      rotations (Log env3
        (Log env2 (Log env1 l w level1 msg1).2.1 (Log env1 l w level1 msg1).2.2 level2 msg2).2.1
        (Log env2 (Log env1 l w level1 msg1).2.1 (Log env1 l w level1 msg1).2.2 level2 msg2).2.2
        level3 msg3).2.2 = rotations w + 1) := by
  obtain ⟨hr1, hev1⟩ := Log_no_rotation_below env1 l w level1 msg1 hH.fromNew hbelow
  obtain ⟨hl1, hH1, hsz1, ht1⟩ := Log_below_healthy env1 l w level1 msg1 hH hf1 hbelow
  have hbig : 5242880 ≤
      fileSize (Log env1 l w level1 msg1).2.1 (Log env1 l w level1 msg1).2.2 := by
    rw [hl1, hsz1]; exact hcross
  have hH1' : Healthy (Log env1 l w level1 msg1).2.1 (Log env1 l w level1 msg1).2.2 := by
    rw [hl1]; exact hH1
  obtain ⟨hr2, hH2, hsz2⟩ := Log_rotation_at_or_above env2 (Log env1 l w level1 msg1).2.1
    (Log env1 l w level1 msg1).2.2 level2 msg2 hH1' hnf2 hbig
  refine ⟨hr1, hev1, hbig, by rw [hr2, hr1], ?_, ?_⟩
  · rw [hsz2, ht1, hl1]
  · intro hlt
    rw [(Log_no_rotation_below env3 _ _ level3 msg3 hH2.fromNew hlt).1, hr2, hr1]

/-- C1, amended, at the `app.log` one byte short of 5 MiB: the call that
crosses 5 MiB does not rotate and the next one does. -/
theorem C1_rotation_after_crossing_witness :
    (Healthy appLogger nearOpen ∧ envOk.NoFault ∧ fileSize appLogger nearOpen < 5242880 ∧
      5242880 ≤ fileSize appLogger nearOpen +
        (entryBytes (envOk.clock nearOpen.ticks) (envOk.clock (nearOpen.ticks + 1))
          "INFO".toList "hello".toList).length) ∧
    rotations (Log envOk appLogger nearOpen "INFO".toList "hello".toList).2.2 =
      rotations nearOpen ∧
    rotations (Log envOk (Log envOk appLogger nearOpen "INFO".toList "hello".toList).2.1
      (Log envOk appLogger nearOpen "INFO".toList "hello".toList).2.2
      "INFO".toList "again".toList).2.2 = rotations nearOpen + 1 :=
  have hs : fileSize appLogger nearOpen < 5242880 := by rw [nearOpen_size]; decide
  have hc : 5242880 ≤ fileSize appLogger nearOpen +
      (entryBytes (envOk.clock nearOpen.ticks) (envOk.clock (nearOpen.ticks + 1))
        "INFO".toList "hello".toList).length := by
    have := entryBytes_length_pos (envOk.clock nearOpen.ticks) (envOk.clock (nearOpen.ticks + 1))
      "INFO".toList "hello".toList
    rw [nearOpen_size]; omega
  ⟨⟨nearOpen_healthy, envOk_noFault, hs, hc⟩,
    (C1_rotation_after_crossing envOk envOk envOk appLogger nearOpen "INFO".toList "hello".toList
      "INFO".toList "again".toList [] [] nearOpen_healthy rfl envOk_noFault hs hc).1,
    (C1_rotation_after_crossing envOk envOk envOk appLogger nearOpen "INFO".toList "hello".toList
      "INFO".toList "again".toList [] [] nearOpen_healthy rfl envOk_noFault hs hc).2.2.2.1⟩

/-! ### `CleanOldLogs`: one turn of the loop -/

theorem logLine_write (lg : StdLogger) (env : Env) (w : World) (level msg : Str) :
    ∃ b, logLine lg env w level msg = write w.tick.tick lg.out b :=
  ⟨_, rfl⟩

theorem write_modTime (w : World) (f : Nat) (b : Str) : (write w f b).modTime = w.modTime := by
  unfold write
  split <;> rfl

theorem write_content_other (w : World) (f : Nat) (b : Str) (i : Nat)
    (h : i ≠ (w.files f).ino) : (write w f b).content i = w.content i := by
  unfold write
  split
  · rfl
  · simp only [World.emit, World.append, Function.update_noteq h]

theorem write_touched (w : World) (f : Nat) (b : Str) :
    (write w f b).touched = w.touched ∨
      (write w f b).touched = Function.update w.touched (w.files f).ino (some w.ticks) := by
  unfold write
  split
  · exact Or.inl rfl
  · exact Or.inr rfl

/-- What a line of the logger changes: the content and the modification time
of the file it goes to, the count of clock readings and the trace. -/
theorem logLine_fields (lg : StdLogger) (env : Env) (w : World) (level msg : Str) :
    (logLine lg env w level msg).names = w.names ∧
      (logLine lg env w level msg).modTime = w.modTime ∧
      (logLine lg env w level msg).files = w.files ∧
      (∀ i, i ≠ (w.files lg.out).ino → (logLine lg env w level msg).content i = w.content i) ∧
      ((logLine lg env w level msg).touched = w.touched ∨
        (logLine lg env w level msg).touched =
          Function.update w.touched (w.files lg.out).ino (some (w.ticks + 2))) ∧
      (logLine lg env w level msg).ticks = w.ticks + 2 ∧
      ∃ b ok, (logLine lg env w level msg).trace = w.trace ++ [Event.write lg.out b ok] := by
  obtain ⟨b, h⟩ := logLine_write lg env w level msg
  rw [h]
  exact ⟨write_names _ _ _, write_modTime _ _ _, write_files _ _ _,
    fun i hi => write_content_other _ _ _ i hi, write_touched _ _ _, write_ticks _ _ _,
    ⟨_, _, write_trace _ _ _⟩⟩

/-- One turn of the loop of `CleanOldLogs`: the file is removed exactly when
`removes` says so; nothing else loses its name; only the file of the logger
can change its content and modification time; the turn begins with the stat
of the file and issues no other stat. -/
theorem cleanFile_fields (env : Env) (l : Logger) (thr : Int) (w : World) (f : Str) :
    (cleanFile env l thr w f).names =
        (if removes env w thr f then w.names.filter (fun e => decide (e.1 ≠ f))
          else w.names) ∧
      (cleanFile env l thr w f).modTime = w.modTime ∧
      (cleanFile env l thr w f).files = w.files ∧
      (∀ i, i ≠ (w.files l.log.out).ino → (cleanFile env l thr w f).content i = w.content i) ∧
      ((cleanFile env l thr w f).touched = w.touched ∨
        (cleanFile env l thr w f).touched =
          Function.update w.touched (w.files l.log.out).ino (some (w.ticks + 2))) ∧
      w.ticks ≤ (cleanFile env l thr w f).ticks ∧
      ∃ ok evs, (cleanFile env l thr w f).trace = w.trace ++ Event.stat f ok :: evs ∧
        evs.filterMap Event.statPath = [] := by
  unfold cleanFile stat removes
  cases hs : env.statErr f with
  | some e =>
    simp only [Option.isNone_some, Bool.false_and, Bool.false_eq_true, if_false]
    obtain ⟨h1, h2, h3, h4, h5, h6, b, ok, h7⟩ := logLine_fields l.log env
      (w.emit (Event.stat f false)) "WARNING".toList
      ("Failed to stat file ".toList ++ f ++ ": ".toList ++ e.text)
    refine ⟨h1, h2, h3, h4, h5, ?_, false, [Event.write l.log.out b ok], ?_, rfl⟩
    · rw [h6]
      exact Nat.le_add_right _ _
    · rw [h7]
      simp only [World.emit, List.append_assoc, List.singleton_append]
  | none =>
    simp only [Option.isNone_none, Bool.true_and]
    cases hl : w.lookup f with
    | none =>
      simp only [Bool.false_and, Bool.false_eq_true, if_false]
      obtain ⟨h1, h2, h3, h4, h5, h6, b, ok, h7⟩ := logLine_fields l.log env
        (w.emit (Event.stat f false)) "WARNING".toList
        ("Failed to stat file ".toList ++ f ++ ": ".toList ++
          (errNotExist "stat".toList f).text)
      refine ⟨h1, h2, h3, h4, h5, ?_, false, [Event.write l.log.out b ok], ?_, rfl⟩
      · rw [h6]
        exact Nat.le_add_right _ _
      · rw [h7]
        simp only [World.emit, List.append_assoc, List.singleton_append]
    | some i =>
      simp only
      by_cases hold : w.mtime env i < thr
      · simp only [hold, if_true, decide_True, Bool.true_and]
        unfold remove
        cases hr : env.removeErr f with
        | some e =>
          simp only [Option.isNone_some, Bool.false_eq_true, if_false]
          obtain ⟨h1, h2, h3, h4, h5, h6, b, ok, h7⟩ := logLine_fields l.log env
            ((w.emit (Event.stat f true)).emit (Event.remove f false)) "ERROR".toList
            ("Failed to remove old log file ".toList ++ f ++ ": ".toList ++ e.text)
          refine ⟨h1, h2, h3, h4, h5, ?_, true,
            [Event.remove f false, Event.write l.log.out b ok], ?_, rfl⟩
          · rw [h6]
            exact Nat.le_add_right _ _
          · rw [h7]
            simp only [World.emit, List.append_assoc, List.singleton_append, List.cons_append,
              List.nil_append]
        | none =>
          have hl2 : (w.emit (Event.stat f true)).lookup f = some i := hl
          simp only [Option.isNone_none, if_true, hl2]
          obtain ⟨h1, h2, h3, h4, h5, h6, b, ok, h7⟩ := logLine_fields l.log env
            (((w.emit (Event.stat f true)).unlink f).emit (Event.remove f true)) "INFO".toList
            ("Removed old log file: ".toList ++ f)
          refine ⟨h1, h2, h3, h4, h5, ?_, true,
            [Event.remove f true, Event.write l.log.out b ok], ?_, rfl⟩
          · rw [h6]
            exact Nat.le_add_right _ _
          · rw [h7]
            simp only [World.emit, World.unlink, List.append_assoc, List.singleton_append,
              List.cons_append, List.nil_append]
      · simp only [hold, if_false, decide_False, Bool.false_and, Bool.false_eq_true]
        exact ⟨rfl, rfl, rfl, fun _ _ => rfl, Or.inl rfl, Nat.le_refl _, true, [], rfl, rfl⟩

theorem removes_iff (env : Env) (w : World) (thr : Int) (f : Str) :
    removes env w thr f = true ↔
      env.statErr f = none ∧ (∃ i, w.lookup f = some i ∧ w.mtime env i < thr) ∧
        env.removeErr f = none := by
  unfold removes
  cases hl : w.lookup f with
  | none => simp
  | some i => simp [Option.isNone_iff_eq_none, and_assoc]

theorem mtime_congr (env : Env) (w w1 : World) (i : Nat) (hm : w1.modTime = w.modTime)
    (ht : w1.touched i = w.touched i) : w1.mtime env i = w.mtime env i := by
  unfold World.mtime
  rw [ht, hm]

theorem lookup_cleanFile (env : Env) (l : Logger) (thr : Int) (w : World) (f p : Str) (i : Nat)
    (h : (cleanFile env l thr w f).lookup p = some i) : w.lookup p = some i := by
  have hn := (cleanFile_fields env l thr w f).1
  unfold World.lookup at h ⊢
  rw [hn] at h
  split at h
  · rw [lookup_filter_key (fun k => decide (k ≠ f)) w.names p] at h
    split at h
    · exact h
    · cases h
  · exact h

theorem seenOld_cleanFile (env : Env) (l : Logger) (thr : Int) (w : World) (f : Str) (i : Nat)
    (h : SeenOld env l (cleanFile env l thr w f) thr i) : SeenOld env l w thr i := by
  obtain ⟨_, hm, hf, _, ht, hk, _⟩ := cleanFile_fields env l thr w f
  rcases h with h | ⟨hi, n, hn, hlt⟩
  · rcases ht with ht | ht
    · rw [mtime_congr env w _ i hm (by rw [ht])] at h
      exact Or.inl h
    · by_cases hi : i = (w.files l.log.out).ino
      · refine Or.inr ⟨hi, w.ticks + 2, Nat.le_add_right _ _, ?_⟩
        unfold World.mtime at h
        rw [ht, hi, Function.update_same] at h
        exact h
      · rw [mtime_congr env w _ i hm (by rw [ht, Function.update_noteq hi])] at h
        exact Or.inl h
  · rw [hf] at hi
    exact Or.inr ⟨hi, n, le_trans hk hn, hlt⟩

/-- The loop of `CleanOldLogs` over the files `fs`, started in `u`: what it
keeps, which names it can remove, and the stats it issues. -/
theorem cleanLoop_frame (env : Env) (l : Logger) (thr : Int) (fs : List Str) (u : World) :
    (fs.foldl (cleanFile env l thr) u).modTime = u.modTime ∧
      (fs.foldl (cleanFile env l thr) u).files = u.files ∧
      (∀ i, i ≠ (u.files l.log.out).ino →
        (fs.foldl (cleanFile env l thr) u).content i = u.content i) ∧
      u.ticks ≤ (fs.foldl (cleanFile env l thr) u).ticks ∧
      (∀ i, (fs.foldl (cleanFile env l thr) u).touched i = u.touched i ∨
        (i = (u.files l.log.out).ino ∧
          ∃ n, u.ticks ≤ n ∧ (fs.foldl (cleanFile env l thr) u).touched i = some n)) ∧
      (∃ q : Str → Bool,
        (fs.foldl (cleanFile env l thr) u).names = u.names.filter (fun e => q e.1) ∧
        ∀ p, q p = false → p ∈ fs ∧ ∃ i, u.lookup p = some i ∧ SeenOld env l u thr i) ∧
      ∃ evs, (fs.foldl (cleanFile env l thr) u).trace = u.trace ++ evs ∧
        evs.filterMap Event.statPath = fs := by
  induction fs generalizing u with
  | nil =>
    refine ⟨rfl, rfl, fun _ _ => rfl, Nat.le_refl _, fun _ => Or.inl rfl,
      ⟨fun _ => true, ?_, ?_⟩, [], ?_, rfl⟩
    · simp
    · intro p hp
      cases hp
    · simp
  | cons f rest ih =>
    obtain ⟨hn, hm, hf, hc, ht, hk, ok, evs0, htr, hev⟩ := cleanFile_fields env l thr u f
    obtain ⟨im, ifl, ic, ik, it, ⟨q1, iq, iqf⟩, evs1, itr, iev⟩ := ih (cleanFile env l thr u f)
    rw [List.foldl_cons]
    refine ⟨by rw [im, hm], by rw [ifl, hf], ?_, le_trans hk ik, ?_, ?_, ?_⟩
    · intro i hi
      rw [ic i (by rw [hf]; exact hi), hc i hi]
    · intro i
      rcases it i with h | ⟨hi, n, hle, hsome⟩
      · rcases ht with ht | ht
        · exact Or.inl (by rw [h, ht])
        · by_cases hi : i = (u.files l.log.out).ino
          · refine Or.inr ⟨hi, u.ticks + 2, Nat.le_add_right _ _, ?_⟩
            rw [h, ht, hi, Function.update_same]
          · exact Or.inl (by rw [h, ht, Function.update_noteq hi])
      · rw [hf] at hi
        exact Or.inr ⟨hi, n, le_trans hk hle, hsome⟩
    · refine ⟨fun p => q1 p && !(removes env u thr f && decide (p = f)), ?_, ?_⟩
      · rw [iq, hn]
        by_cases hr : removes env u thr f = true
        · rw [if_pos hr, List.filter_filter]
          apply List.filter_congr
          intro e _
          by_cases he : e.1 = f
          · simp [he, hr]
          · simp [he]
        · rw [if_neg hr]
          apply List.filter_congr
          intro e _
          have hr2 : removes env u thr f = false := by simpa using hr
          simp [hr2]
      · intro p hp
        by_cases h1 : q1 p = false
        · obtain ⟨hmem, i, hl, hold⟩ := iqf p h1
          exact ⟨List.mem_cons_of_mem _ hmem, i, lookup_cleanFile env l thr u f p i hl,
            seenOld_cleanFile env l thr u f i hold⟩
        · have h1t : q1 p = true := by simpa using h1
          have hp2 : (q1 p && !(removes env u thr f && decide (p = f))) = false := hp
          rw [h1t] at hp2
          simp only [Bool.true_and, Bool.not_eq_false, Bool.and_eq_true,
            decide_eq_true_eq, Bool.not_eq_eq_eq_not, Bool.not_false] at hp2
          have hp := hp2
          obtain ⟨hr, hpf⟩ := hp
          obtain ⟨_, ⟨i, hl, hold⟩, _⟩ := (removes_iff env u thr f).mp hr
          rw [hpf]
          exact ⟨List.mem_cons_self _ _, i, hl, Or.inl hold⟩
    · refine ⟨Event.stat f ok :: evs0 ++ evs1, ?_, ?_⟩
      · rw [itr, htr]
        simp only [List.append_assoc, List.cons_append]
      · rw [List.filterMap_append, List.filterMap_cons]
        simp only [Event.statPath, hev, iev, List.nil_append, List.singleton_append]

theorem cleanLoop_gone (env : Env) (l : Logger) (thr : Int) (fs : List Str) (u : World) (f : Str)
    (h : f ∉ u.paths) : f ∉ (fs.foldl (cleanFile env l thr) u).paths := by
  obtain ⟨_, _, _, _, _, ⟨q, hq, _⟩, _⟩ := cleanLoop_frame env l thr fs u
  intro hmem
  apply h
  unfold World.paths at hmem ⊢
  rw [hq] at hmem
  obtain ⟨e, he, hef⟩ := List.mem_map.mp hmem
  exact List.mem_map.mpr ⟨e, (List.mem_filter.mp he).1, hef⟩

/-- A file of the list that is old, is not the file of the logger, and whose
own stat and remove succeed is gone after the loop, whatever happens to the
other files. -/
theorem cleanLoop_removes (env : Env) (l : Logger) (thr : Int) (f : Str) (i : Nat)
    (hs : env.statErr f = none) (hr : env.removeErr f = none) (fs : List Str) :
    ∀ u : World, f ∈ fs → i ≠ (u.files l.log.out).ino →
      (f ∉ u.paths ∨ (u.lookup f = some i ∧ u.mtime env i < thr)) →
      f ∉ (fs.foldl (cleanFile env l thr) u).paths := by
  induction fs with
  | nil =>
    intro u hmem
    cases hmem
  | cons g rest ih =>
    intro u hmem hi hcase
    rw [List.foldl_cons]
    obtain ⟨hn, hm, hf, _, ht, _, _⟩ := cleanFile_fields env l thr u g
    rcases hcase with hgone | ⟨hl, hold⟩
    · exact cleanLoop_gone env l thr rest _ f (cleanLoop_gone env l thr [g] u f hgone)
    · by_cases hgf : g = f
      · subst hgf
        have hrem : removes env u thr g = true :=
          (removes_iff env u thr g).mpr ⟨hs, ⟨i, hl, hold⟩, hr⟩
        apply cleanLoop_gone
        unfold World.paths
        rw [hn, if_pos hrem]
        intro hmem2
        obtain ⟨e, he, hef⟩ := List.mem_map.mp hmem2
        have := (List.mem_filter.mp he).2
        simp only [decide_eq_true_eq] at this
        exact this hef
      · have hrest : f ∈ rest := by
          rcases List.mem_cons.mp hmem with h | h
          · exact absurd h.symm hgf
          · exact h
        apply ih _ hrest (by rw [hf]; exact hi)
        refine Or.inr ⟨?_, ?_⟩
        · unfold World.lookup at hl ⊢
          rw [hn]
          split
          · rw [lookup_filter_key (fun k => decide (k ≠ g)) u.names f]
            have : decide (f ≠ g) = true := by
              simp only [decide_eq_true_eq]
              exact fun h => hgf h.symm
            rw [if_pos this]
            exact hl
          · exact hl
        · rw [mtime_congr env u _ i hm]
          · exact hold
          · rcases ht with ht | ht
            · rw [ht]
            · rw [ht, Function.update_noteq hi]

/-! ### `Glob` -/

theorem globNames_mem (pat : Str) (ks m : List Str) (h : globNames pat ks = Except.ok m) :
    ∀ k, k ∈ m ↔ k ∈ ks ∧ Match pat (Split k).2 = Except.ok true := by
  induction ks generalizing m with
  | nil =>
    simp only [globNames, Except.ok.injEq] at h
    subst h
    simp
  | cons a rest ih =>
    unfold globNames at h
    cases hm : Match pat (Split a).2 with
    | error e => rw [hm] at h; cases h
    | ok b =>
      rw [hm] at h
      simp only at h
      cases hr : globNames pat rest with
      | error e => rw [hr] at h; cases h
      | ok m1 =>
        rw [hr] at h
        simp only [Except.ok.injEq] at h
        subst h
        intro k
        have ih1 := ih m1 hr k
        cases b with
        | true =>
          simp only [if_true, List.mem_cons, ih1]
          constructor
          · rintro (h | h)
            · subst h; exact ⟨Or.inl rfl, hm⟩
            · exact ⟨Or.inr h.1, h.2⟩
          · rintro ⟨h | h, h2⟩
            · exact Or.inl h
            · exact Or.inr ⟨h, h2⟩
        | false =>
          simp only [Bool.false_eq_true, if_false, List.mem_cons, ih1]
          constructor
          · rintro ⟨h, h2⟩
            exact ⟨Or.inr h, h2⟩
          · rintro ⟨h | h, h2⟩
            · subst h; rw [hm] at h2; cases h2
            · exact ⟨h, h2⟩

theorem mem_insertPath (k a : Str) (l : List Str) : a ∈ insertPath k l ↔ a = k ∨ a ∈ l := by
  induction l with
  | nil => simp [insertPath]
  | cons b r ih =>
    unfold insertPath
    split
    · simp
    · simp only [List.mem_cons, ih]
      tauto

theorem mem_sortPaths (a : Str) (l : List Str) : a ∈ sortPaths l ↔ a ∈ l := by
  induction l with
  | nil => simp [sortPaths]
  | cons b r ih =>
    unfold sortPaths
    rw [mem_insertPath, ih, List.mem_cons]

/-- The files that `Glob` returns. -/
theorem Glob_mem_iff (w : World) (pattern : Str) (files : List Str)
    (h : Glob w pattern = Except.ok files) (k : Str) :
    k ∈ files ↔
      k ∈ w.paths ∧ (Split k).2 ≠ [] ∧
        dirMatches ((cleanGlobPath (Split pattern).1).length + 1)
          (cleanGlobPath (Split pattern).1) (Clean (Split k).1) = true ∧
        Match (Split pattern).2 (Split k).2 = Except.ok true := by
  unfold Glob at h
  split at h
  · cases h
  · rw [globNames_mem _ _ _ h k, mem_sortPaths, List.mem_filter]
    simp only [Bool.and_eq_true, decide_eq_true_eq, and_assoc]

theorem Glob_mem (w : World) (pattern : Str) (files : List Str)
    (h : Glob w pattern = Except.ok files) :
    ∀ k ∈ files, k ∈ w.paths ∧ Match (Split pattern).2 (Split k).2 = Except.ok true := by
  intro k hk
  have := (Glob_mem_iff w pattern files h k).mp hk
  exact ⟨this.1, this.2.2.2⟩

theorem dirMatches_plain (dir d : Str) (n : Nat) (h : hasMeta dir = false) :
    dirMatches (n + 1) dir d = decide (d = Clean dir) := by
  unfold dirMatches
  rw [h]
  simp

/-! ### `CleanOldLogs` -/

theorem CleanOldLogs_ok (env : Env) (l : Logger) (w : World) (files : List Str)
    (hg : Glob w (cleanPattern l.logPath) = Except.ok files) :
    CleanOldLogs env l w = (l, files.foldl (cleanFile env l (cleanThreshold env w)) w.tick) := by
  unfold CleanOldLogs
  rw [hg]
  rfl

theorem CleanOldLogs_error (env : Env) (l : Logger) (w : World) (e : Str)
    (hg : Glob w (cleanPattern l.logPath) = Except.error e) :
    CleanOldLogs env l w =
      (l, logLine l.log env w "ERROR".toList ("Failed to list backup log files: ".toList ++ e)) := by
  unfold CleanOldLogs
  rw [hg]

/-- The names after `CleanOldLogs`: those of the start, less some files of
the result of `Glob` that a stat of the call could find old. -/
theorem CleanOldLogs_names (env : Env) (l : Logger) (w : World) :
    ∃ q : Str → Bool, (CleanOldLogs env l w).2.names = w.names.filter (fun e => q e.1) ∧
      ∀ p, q p = false →
        (∃ files, Glob w (cleanPattern l.logPath) = Except.ok files ∧ p ∈ files) ∧
        ∃ i, w.lookup p = some i ∧
          (w.mtime env i < cleanThreshold env w ∨
            (i = (w.files l.log.out).ino ∧
              ∃ n, w.ticks < n ∧ (env.clock n).unixNano < cleanThreshold env w)) := by
  cases hg : Glob w (cleanPattern l.logPath) with
  | error e =>
    rw [CleanOldLogs_error env l w e hg]
    refine ⟨fun _ => true, ?_, ?_⟩
    · rw [(logLine_fields _ _ _ _ _).1]
      simp
    · intro p hp
      cases hp
  | ok files =>
    rw [CleanOldLogs_ok env l w files hg]
    obtain ⟨_, _, _, _, _, ⟨q, hq, hqf⟩, _⟩ :=
      cleanLoop_frame env l (cleanThreshold env w) files w.tick
    refine ⟨q, hq, ?_⟩
    intro p hp
    obtain ⟨hmem, i, hl, hold⟩ := hqf p hp
    refine ⟨⟨files, rfl, hmem⟩, i, hl, ?_⟩
    rcases hold with h | ⟨hi, n, hn, hlt⟩
    · exact Or.inl h
    · exact Or.inr ⟨hi, n, hn, hlt⟩

theorem CleanOldLogs_lookup (env : Env) (l : Logger) (w : World) :
    ∃ q : Str → Bool,
      (∀ p, (CleanOldLogs env l w).2.lookup p = if q p then w.lookup p else none) ∧
      (∀ p, p ∈ (CleanOldLogs env l w).2.paths ↔ p ∈ w.paths ∧ q p = true) ∧
      ∀ p, q p = false →
        (∃ files, Glob w (cleanPattern l.logPath) = Except.ok files ∧ p ∈ files) ∧
        ∃ i, w.lookup p = some i ∧
          (w.mtime env i < cleanThreshold env w ∨
            (i = (w.files l.log.out).ino ∧
              ∃ n, w.ticks < n ∧ (env.clock n).unixNano < cleanThreshold env w)) := by
  obtain ⟨q, hq, hqf⟩ := CleanOldLogs_names env l w
  refine ⟨q, ?_, ?_, hqf⟩
  · intro p
    unfold World.lookup
    rw [hq]
    exact lookup_filter_key q w.names p
  · intro p
    unfold World.paths
    rw [hq]
    constructor
    · intro h
      obtain ⟨e, he, hef⟩ := List.mem_map.mp h
      have := List.mem_filter.mp he
      exact ⟨List.mem_map.mpr ⟨e, this.1, hef⟩, by rw [← hef]; exact this.2⟩
    · rintro ⟨h, hqp⟩
      obtain ⟨e, he, hef⟩ := List.mem_map.mp h
      exact List.mem_map.mpr ⟨e, List.mem_filter.mpr ⟨he, by rw [hef]; exact hqp⟩, hef⟩

/-- A path that `Glob` does not return is kept by `CleanOldLogs`. -/
theorem CleanOldLogs_keeps (env : Env) (l : Logger) (w : World) (p : Str)
    (h : ∀ files, Glob w (cleanPattern l.logPath) = Except.ok files → p ∉ files) :
    (CleanOldLogs env l w).2.lookup p = w.lookup p := by
  obtain ⟨q, hq, _, hqf⟩ := CleanOldLogs_lookup env l w
  rw [hq p]
  by_cases hqp : q p = true
  · rw [if_pos hqp]
  · have hqp2 : q p = false := by simpa using hqp
    obtain ⟨⟨files, hg, hmem⟩, _⟩ := hqf p hqp2
    exact absurd hmem (h files hg)

/-! ### C10: the backup name and the cleanup pattern -/

theorem hasMeta_false (s : Str) (h : hasMeta s = false) : ∀ c ∈ s, plainChar c := by
  intro c hc
  unfold hasMeta at h
  rw [List.any_eq_false] at h
  have := h c hc
  simp only [Bool.decide_or, Bool.or_eq_true, decide_eq_true_eq, not_or] at this
  unfold plainChar
  tauto

theorem scanLen_cons_plain (c : Char) (r : Str) (hc : plainChar c) :
    scanLen false (c :: r) = 1 + scanLen false r := by
  obtain ⟨h1, h2, h3, h4⟩ := hc
  conv_lhs => unfold scanLen
  split
  all_goals first
    | rfl
    | (rename_i heq; simp only [List.cons.injEq, reduceCtorEq] at heq; obtain ⟨ha, hb⟩ := heq
       first | exact absurd ha h1 | exact absurd ha h3 | exact absurd ha h4 | (subst hb; rfl))
    | (rename_i heq; cases heq)
  

theorem scanLen_plain (lit : Str) (h : ∀ c ∈ lit, plainChar c) :
    scanLen false lit = lit.length := by
  induction lit with
  | nil => rfl
  | cons c r ih =>
    rw [scanLen_cons_plain c r (h c (List.mem_cons_self _ _)),
      ih (fun d hd => h d (List.mem_cons_of_mem _ hd)), List.length_cons]
    omega

theorem scanChunk_star_plain (lit : Str) (h : ∀ c ∈ lit, plainChar c) :
    scanChunk ('*' :: lit) = (true, lit, []) := by
  have hd : List.dropWhile (fun c => decide (c = '*')) ('*' :: lit) = lit := by
    rw [List.dropWhile_cons_of_pos (by simp)]
    cases lit with
    | nil => rfl
    | cons c r =>
      have := (h c (List.mem_cons_self _ _)).1
      rw [List.dropWhile_cons_of_neg (by simpa using this)]
  unfold scanChunk
  simp only [hd, scanLen_plain lit h, List.take_length, List.drop_length, List.head?_cons,
    decide_True]

theorem matchChunkLoop_failed (chunk s : Str) (fuel : Nat) (h : ∀ c ∈ chunk, plainChar c)
    (hf : chunk.length < fuel) : matchChunkLoop fuel chunk s true = Except.ok none := by
  induction chunk generalizing fuel s with
  | nil =>
    cases fuel with
    | zero => rfl
    | succ n => rfl
  | cons c ch ih =>
    cases fuel with
    | zero => simp at hf
    | succ n =>
      obtain ⟨h1, h2, h3, h4⟩ := h c (List.mem_cons_self _ _)
      unfold matchChunkLoop
      simp only [Bool.true_or, h3, h2, h4, if_false, if_true]
      exact ih s n (fun d hd => h d (List.mem_cons_of_mem _ hd))
        (by simp only [List.length_cons] at hf; omega)

theorem matchChunkLoop_plain (chunk s : Str) (fuel : Nat) (h : ∀ c ∈ chunk, plainChar c)
    (hf : chunk.length < fuel) :
    matchChunkLoop fuel chunk s false =
      if chunk.isPrefixOf s then Except.ok (some (s.drop chunk.length)) else Except.ok none := by
  induction chunk generalizing fuel s with
  | nil =>
    cases fuel with
    | zero => simp at hf
    | succ n => simp [matchChunkLoop]
  | cons c ch ih =>
    cases fuel with
    | zero => simp at hf
    | succ n =>
      obtain ⟨h1, h2, h3, h4⟩ := h c (List.mem_cons_self _ _)
      have hch : ∀ d ∈ ch, plainChar d := fun d hd => h d (List.mem_cons_of_mem _ hd)
      have hn : ch.length < n := by simp only [List.length_cons] at hf; omega
      unfold matchChunkLoop
      cases s with
      | nil =>
        simp only [Bool.false_or, List.isEmpty_nil, h3, h2, h4, if_false, if_true,
          List.isPrefixOf_cons_nil, Bool.false_eq_true]
        exact matchChunkLoop_failed ch [] n hch hn
      | cons d s' =>
        simp only [Bool.false_or, List.isEmpty_cons, h3, h2, h4, if_false, Bool.false_eq_true,
          List.tail_cons, List.head?_cons, List.length_cons, List.drop_succ_cons]
        by_cases hdc : d = c
        · subst hdc
          simp only [ne_eq, not_true_eq_false, decide_False, List.isPrefixOf_cons₂_self]
          exact ih s' n hch hn
        · have hne : decide (some d ≠ some c) = true := by simpa using hdc
          have hpre : (c :: ch).isPrefixOf (d :: s') = false := by
            simp [List.isPrefixOf, Ne.symm hdc]
          rw [hne, hpre]
          simp only [Bool.false_eq_true, if_false]
          exact matchChunkLoop_failed ch s' n hch hn

theorem matchChunk_plain (chunk s : Str) (h : ∀ c ∈ chunk, plainChar c) :
    matchChunk chunk s =
      if chunk.isPrefixOf s then Except.ok (some (s.drop chunk.length)) else Except.ok none :=
  matchChunkLoop_plain chunk s _ h (Nat.lt_succ_self _)

theorem isPrefixOf_drop_nil (lit s : Str) :
    (lit.isPrefixOf s = true ∧ s.drop lit.length = []) ↔ s = lit := by
  constructor
  · rintro ⟨h1, h2⟩
    obtain ⟨t, rfl⟩ := List.isPrefixOf_iff_prefix.mp h1
    simp only [List.drop_left'] at h2
    rw [h2, List.append_nil]
  · rintro rfl
    exact ⟨List.isPrefixOf_iff_prefix.mpr (List.prefix_refl _), List.drop_length _⟩

theorem starSearch_plain (lit name : Str) (h : ∀ c ∈ lit, plainChar c) (hne : lit ≠ [])
    (hs : '/' ∉ name) :
    starSearch lit true name =
      if lit <:+ name.tail then Except.ok (some []) else Except.ok none := by
  induction name with
  | nil =>
    have : ¬ lit <:+ [] := by
      intro hsuf
      exact hne (List.suffix_nil.mp hsuf)
    simp [starSearch, this]
  | cons c rest ih =>
    have hc : c ≠ '/' := fun hc => hs (by rw [hc]; exact List.mem_cons_self _ _)
    have hrest : '/' ∉ rest := fun hr => hs (List.mem_cons_of_mem _ hr)
    have ih' := ih hrest
    unfold starSearch
    rw [if_neg hc, matchChunk_plain lit rest h, List.tail_cons]
    by_cases heq : rest = lit
    · have := (isPrefixOf_drop_nil lit rest).mpr heq
      rw [if_pos this.1]
      simp only [this.2, ne_eq, not_true_eq_false, and_false, if_false]
      rw [if_pos (heq ▸ List.suffix_refl lit)]
    · have hiff : lit <:+ rest ↔ lit <:+ rest.tail := by
        cases rest with
        | nil => simp
        | cons a l =>
          rw [List.suffix_cons_iff, List.tail_cons]
          constructor
          · rintro (h1 | h1)
            · exact absurd h1.symm heq
            · exact h1
          · exact Or.inr
      by_cases hp : lit.isPrefixOf rest = true
      · have ht : rest.drop lit.length ≠ [] := fun ht =>
          heq ((isPrefixOf_drop_nil lit rest).mp ⟨hp, ht⟩)
        rw [if_pos hp]
        simp only [ht, ne_eq, not_false_eq_true, and_self, if_true]
        rw [ih']
        by_cases hsuf : lit <:+ rest
        · rw [if_pos hsuf, if_pos (hiff.mp hsuf)]
        · rw [if_neg hsuf, if_neg (fun h2 => hsuf (hiff.mpr h2))]
      · rw [if_neg hp]
        simp only
        rw [ih']
        by_cases hsuf : lit <:+ rest
        · rw [if_pos hsuf, if_pos (hiff.mp hsuf)]
        · rw [if_neg hsuf, if_neg (fun h2 => hsuf (hiff.mpr h2))]

theorem suffix_tail_iff (lit name : Str) (hne : name ≠ lit) :
    lit <:+ name ↔ lit <:+ name.tail := by
  cases name with
  | nil => simp
  | cons a l =>
    rw [List.suffix_cons_iff, List.tail_cons]
    constructor
    · rintro (h1 | h1)
      · exact absurd h1.symm hne
      · exact h1
    · exact Or.inr

/-- A pattern made of a star and a wildcard-free text matches exactly the
names, free of separators, that end in the text. -/
theorem Match_star_plain (lit name : Str) (h : ∀ c ∈ lit, plainChar c) (hne : lit ≠ [])
    (hs : '/' ∉ name) :
    Match ('*' :: lit) name = Except.ok (decide (lit <:+ name)) := by
  have hend : matchLoop (lit.length + 1) [] [] = Except.ok true := rfl
  have hcheck : checkRest (([] : Str).length + 1) [] = Except.ok false := rfl
  unfold Match
  rw [List.length_cons]
  unfold matchLoop
  simp only [scanChunk_star_plain lit h, hne, and_false, if_false, matchChunk_plain lit name h,
    if_true, decide_True, ne_eq, not_true_eq_false, or_false]
  by_cases heq : name = lit
  · have hp := (isPrefixOf_drop_nil lit name).mpr heq
    rw [if_pos hp.1]
    simp only [hp.2, if_true]
    rw [hend]
    have : lit <:+ name := heq ▸ List.suffix_refl lit
    simp only [this, decide_True]
  · have hiff := suffix_tail_iff lit name heq
    have hstar := starSearch_plain lit name h hne hs
    by_cases hp : lit.isPrefixOf name = true
    · have ht : name.drop lit.length ≠ [] := fun ht =>
        heq ((isPrefixOf_drop_nil lit name).mp ⟨hp, ht⟩)
      rw [if_pos hp]
      simp only [ht, if_false]
      rw [hstar]
      by_cases hsuf : lit <:+ name
      · rw [if_pos (hiff.mp hsuf)]
        simp only [hsuf, decide_True]
        exact hend
      · rw [if_neg (fun h2 => hsuf (hiff.mpr h2))]
        simp only [hsuf, decide_False]
        exact hcheck
    · rw [if_neg hp]
      simp only
      rw [hstar]
      by_cases hsuf : lit <:+ name
      · rw [if_pos (hiff.mp hsuf)]
        simp only [hsuf, decide_True]
        exact hend
      · rw [if_neg (fun h2 => hsuf (hiff.mpr h2))]
        simp only [hsuf, decide_False]
        exact hcheck

theorem endsSep_tail (c : Char) (r : Str) (h : EndsSep (c :: r)) (hc : c ≠ '/') :
    r ≠ [] ∧ EndsSep r := by
  rcases h with h | ⟨r0, h⟩
  · cases h
  · cases r0 with
    | nil =>
      simp only [List.nil_append, List.cons.injEq] at h
      exact absurd h.1 hc
    | cons a r1 =>
      simp only [List.cons_append, List.cons.injEq] at h
      refine ⟨?_, Or.inr ⟨r1, h.2⟩⟩
      rw [h.2]
      simp

theorem endsSep_tail_sep (r : Str) (h : EndsSep ('/' :: r)) : EndsSep r := by
  rcases h with h | ⟨r0, h⟩
  · cases h
  · cases r0 with
    | nil =>
      simp only [List.nil_append, List.cons.injEq] at h
      exact Or.inl h.2
    | cons a r1 =>
      simp only [List.cons_append, List.cons.injEq] at h
      exact Or.inr ⟨r1, h.2⟩

theorem endsSep_drop (r : Str) (n : Nat) (h : EndsSep r) : EndsSep (r.drop n) := by
  induction n generalizing r with
  | zero => exact h
  | succ k ih =>
    cases r with
    | nil => exact Or.inl rfl
    | cons c r1 =>
      rw [List.drop_succ_cons]
      apply ih
      by_cases hc : c = '/'
      · subst hc
        exact endsSep_tail_sep r1 h
      · exact (endsSep_tail c r1 h hc).2

theorem elemLen_plain (pat : Str) (hs : '/' ∉ pat) : elemLen pat = pat.length := by
  unfold elemLen
  rw [List.takeWhile_eq_self_iff.mpr]
  intro c hc
  simp only [isPathSeparator, Bool.not_eq_true', decide_eq_false_iff_not]
  intro h
  exact hs (h ▸ hc)

theorem elemLen_sep (r pat : Str) (h : EndsSep r) (hne : r ≠ []) :
    elemLen (r ++ pat) < r.length := by
  rcases h with h | ⟨r0, h⟩
  · exact absurd h hne
  · subst h
    unfold elemLen
    rw [List.append_assoc]
    have h1 : ((r0 ++ (['/'] ++ pat)).takeWhile (fun c => !isPathSeparator c)).length ≤
        r0.length := by
      clear hne
      induction r0 with
      | nil => simp [isPathSeparator]
      | cons a l ih =>
        rw [List.cons_append, List.takeWhile_cons]
        split
        · simp only [List.length_cons]
          omega
        · simp
    simp only [List.length_append, List.length_singleton]
    omega

theorem cleanLoop_nil (rooted : Bool) (fuel : Nat) (out : Str) (dotdot : Nat) :
    cleanLoop rooted fuel out dotdot [] = out := by
  cases fuel <;> rfl

theorem head_append_of_head (out x : Str) (h : out.head? = some '/') :
    (out ++ x).head? = some '/' := by
  cases out with
  | nil => cases h
  | cons a l => exact h

theorem head_take_of_head (out : Str) (n : Nat) (h : out.head? = some '/') (hn : 1 ≤ n) :
    (out.take n).head? = some '/' := by
  cases out with
  | nil => cases h
  | cons a l =>
    cases n with
    | zero => omega
    | succ k => exact h

theorem elemLen_pos (c : Char) (r : Str) (hc : isPathSeparator c = false) :
    1 ≤ elemLen (c :: r) := by
  unfold elemLen
  rw [List.takeWhile_cons, hc]
  simp

/-- The last step of `Clean` on a final element that is a plain name. -/
theorem cleanLoop_last (rooted : Bool) (pat : Str) (hs : '/' ∉ pat) (hne : pat ≠ [])
    (hd : pat ≠ ['.']) (hdd : pat ≠ ['.', '.']) (fuel : Nat) (out : Str) (dotdot : Nat)
    (hr : rooted = true → out.head? = some '/') :
    ∃ o, cleanLoop rooted (fuel + 1) out dotdot pat = o ++ pat ∧ EndsSep o := by
  cases pat with
  | nil => exact absurd rfl hne
  | cons c p =>
    have hc : isPathSeparator c = false := by
      simp only [isPathSeparator, decide_eq_false_iff_not]
      intro h
      exact hs (h ▸ List.mem_cons_self _ _)
    have hp : '/' ∉ p := fun h => hs (List.mem_cons_of_mem _ h)
    have hphead : ¬ (p.head?.map isPathSeparator = some true) := by
      cases p with
      | nil => simp
      | cons a l =>
        simp only [List.head?_cons, Option.map_some', Option.some.injEq, isPathSeparator,
          decide_eq_true_eq]
        intro h
        exact hp (h ▸ List.mem_cons_self _ _)
    have h1 : ¬ (c = '.' ∧ (p = [] ∨ p.head?.map isPathSeparator = some true)) := by
      rintro ⟨e1, e2 | e2⟩
      · exact hd (by rw [e1, e2])
      · exact hphead e2
    have h2 : ¬ (c = '.' ∧ p.head? = some '.' ∧
        (p.tail = [] ∨ p.tail.head?.map isPathSeparator = some true)) := by
      rintro ⟨e1, e2, h3⟩
      cases p with
      | nil => cases e2
      | cons a l =>
        simp only [List.head?_cons, Option.some.injEq] at e2
        rcases h3 with h3 | h3
        · simp only [List.tail_cons] at h3
          exact hdd (by rw [e1, e2, h3])
        · cases l with
          | nil => simp at h3
          | cons b l2 =>
            simp only [List.tail_cons, List.head?_cons, Option.map_some', Option.some.injEq,
              isPathSeparator, decide_eq_true_eq] at h3
            exact hp (h3 ▸ List.mem_cons_of_mem _ (List.mem_cons_self _ _))
    rw [cleanLoop]
    simp only [hc, Bool.false_eq_true, if_false, h1, h2, elemLen_plain (c :: p) hs,
      List.take_length, List.drop_length, cleanLoop_nil]
    split
    · exact ⟨out ++ ['/'], rfl, Or.inr ⟨out, rfl⟩⟩
    · rename_i hcond
      refine ⟨out, rfl, ?_⟩
      cases rooted with
      | true =>
        simp only [true_and, Bool.not_true, Bool.false_eq_true, false_and, or_false, ne_eq,
          not_not] at hcond
        have hh := hr rfl
        cases out with
        | nil => cases hh
        | cons a l =>
          simp only [List.head?_cons, Option.some.injEq] at hh
          simp only [List.length_cons, add_left_eq_self, List.length_eq_zero] at hcond
          exact Or.inr ⟨[], by rw [hh, hcond]; rfl⟩
      | false =>
        simp only [Bool.false_eq_true, false_and, Bool.not_false, true_and, false_or, ne_eq,
          not_not, List.length_eq_zero] at hcond
        exact Or.inl hcond

/-- The loop of `Clean` keeps a final element that is a plain name, and ends
what it writes before it in a separator. -/
theorem cleanLoop_keeps (rooted : Bool) (pat : Str) (hs : '/' ∉ pat) (hne : pat ≠ [])
    (hd : pat ≠ ['.']) (hdd : pat ≠ ['.', '.']) :
    ∀ (fuel : Nat) (out : Str) (dotdot : Nat) (r : Str), (r ++ pat).length < fuel → EndsSep r →
      (rooted = true → out.head? = some '/' ∧ 1 ≤ dotdot) →
      ∃ o, cleanLoop rooted fuel out dotdot (r ++ pat) = o ++ pat ∧ EndsSep o := by
  intro fuel
  induction fuel with
  | zero =>
    intro out dotdot r hlen
    omega
  | succ fuel ih =>
    intro out dotdot r hlen hends hroot
    cases r with
    | nil =>
      rw [List.nil_append]
      exact cleanLoop_last rooted pat hs hne hd hdd fuel out dotdot (fun h => (hroot h).1)
    | cons c r1 =>
      have hlen1 : (r1 ++ pat).length < fuel := by
        simp only [List.cons_append, List.length_cons] at hlen
        omega
      rw [List.cons_append, cleanLoop]
      by_cases hsep : isPathSeparator c = true
      · rw [if_pos hsep]
        have hc : c = '/' := by simpa [isPathSeparator] using hsep
        subst hc
        exact ih out dotdot r1 hlen1 (endsSep_tail_sep r1 hends) hroot
      · rw [if_neg hsep]
        have hc : c ≠ '/' := by simpa [isPathSeparator] using hsep
        obtain ⟨hr1ne, hr1ends⟩ := endsSep_tail c r1 hends hc
        split
        · exact ih out dotdot r1 hlen1 hr1ends hroot
        · split
          · rename_i hcond
            cases r1 with
            | nil => exact absurd rfl hr1ne
            | cons a r2 =>
              have ha : a = '.' := by
                have := hcond.2.1
                simp only [List.cons_append, List.head?_cons, Option.some.injEq] at this
                exact this
              have hr2 := (endsSep_tail a r2 hr1ends (by rw [ha]; decide)).2
              have hlen2 : (r2 ++ pat).length < fuel := by
                simp only [List.cons_append, List.length_cons] at hlen1
                omega
              simp only [List.cons_append, List.tail_cons]
              split
              · refine ih _ dotdot r2 hlen2 hr2 (fun h => ⟨?_, (hroot h).2⟩)
                unfold backtrack
                exact head_take_of_head out _ (hroot h).1
                  (le_trans (hroot h).2 (le_max_left _ _))
              · split
                · rename_i hnr
                  refine ih _ _ r2 hlen2 hr2 (fun h => ?_)
                  rw [h] at hnr
                  exact absurd hnr (by decide)
                · exact ih out dotdot r2 hlen2 hr2 hroot
          · have hpos := elemLen_pos c (r1 ++ pat) (by simpa using hsep)
            have hlt := elemLen_sep (c :: r1) pat hends (List.cons_ne_nil _ _)
            rw [List.cons_append] at hlt
            have hdrop : (c :: (r1 ++ pat)).drop (elemLen (c :: (r1 ++ pat))) =
                (c :: r1).drop (elemLen (c :: (r1 ++ pat))) ++ pat := by
              rw [← List.cons_append]
              exact List.drop_append_of_le_length (Nat.le_of_lt hlt)
            simp only
            rw [hdrop]
            refine ih _ dotdot _ ?_ (endsSep_drop _ _ hends) (fun h => ⟨?_, (hroot h).2⟩)
            · simp only [List.length_append, List.length_drop, List.length_cons] at hlen1 ⊢
              simp only [List.length_cons] at hlt
              omega
            · apply head_append_of_head
              split
              · exact head_append_of_head _ _ (hroot h).1
              · exact (hroot h).1

theorem Clean_keeps (d pat : Str) (hdne : d ≠ []) (hs : '/' ∉ pat) (hne : pat ≠ [])
    (hd : pat ≠ ['.']) (hdd : pat ≠ ['.', '.']) :
    ∃ o, Clean (d ++ ['/'] ++ pat) = o ++ pat ∧ EndsSep o := by
  cases d with
  | nil => exact absurd rfl hdne
  | cons c d1 =>
    have hout : ∀ o : Str, (if o ++ pat = [] then ['.'] else o ++ pat) = o ++ pat := by
      intro o
      rw [if_neg]
      intro h
      exact hne (List.append_eq_nil.mp h).2
    by_cases hc : isPathSeparator c = true
    · obtain ⟨o, ho, hends⟩ := cleanLoop_keeps true pat hs hne hd hdd
        ((c :: d1 ++ ['/'] ++ pat).length + 1) ['/'] 1 (d1 ++ ['/'])
        (by simp only [List.length_append, List.length_cons]; omega) (Or.inr ⟨d1, rfl⟩)
        (fun _ => ⟨rfl, Nat.le_refl 1⟩)
      refine ⟨o, ?_, hends⟩
      simp only [Clean, List.cons_append, hc, if_true, List.tail_cons]
      simp only [List.cons_append] at ho
      rw [ho]
      exact hout o
    · obtain ⟨o, ho, hends⟩ := cleanLoop_keeps false pat hs hne hd hdd
        ((c :: d1 ++ ['/'] ++ pat).length + 1) [] 0 (c :: d1 ++ ['/'])
        (by simp only [List.length_append, List.length_cons]; omega) (Or.inr ⟨c :: d1, rfl⟩)
        (fun h => by cases h)
      refine ⟨o, ?_, hends⟩
      simp only [Clean, List.cons_append, hc, Bool.false_eq_true, if_false]
      simp only [List.cons_append] at ho
      rw [ho]
      exact hout o

theorem Split_snd_append (o pat : Str) (hs : '/' ∉ pat) (ho : EndsSep o) :
    (Split (o ++ pat)).2 = pat := by
  have hall : ∀ c ∈ pat.reverse, (!isPathSeparator c) = true := by
    intro c hc
    simp only [isPathSeparator, Bool.not_eq_true', decide_eq_false_iff_not]
    intro h
    exact hs (h ▸ List.mem_reverse.mp hc)
  unfold Split
  simp only [List.reverse_append]
  rw [List.takeWhile_append_of_pos hall]
  rcases ho with ho | ⟨o1, ho⟩
  · subst ho
    simp
  · subst ho
    simp [isPathSeparator]

theorem Clean_ne_nil (p : Str) : Clean p ≠ [] := by
  unfold Clean
  cases p with
  | nil => simp
  | cons c r =>
    simp only
    generalize (if isPathSeparator c = true then
      cleanLoop (isPathSeparator c) ((c :: r).length + 1) ['/'] 1 (c :: r).tail
      else cleanLoop (isPathSeparator c) ((c :: r).length + 1) [] 0 (c :: r)) = x
    split
    · simp
    · rename_i h
      exact h

/-- The file part of the pattern that `CleanOldLogs` hands to `Glob`. -/
theorem cleanPattern_file (path : Str) :
    (Split (cleanPattern path)).2 = '*' :: (Ext path ++ ".BAK".toList) := by
  have hs : '/' ∉ '*' :: (Ext path ++ ".BAK".toList) := by
    intro h
    rcases List.mem_cons.mp h with h | h
    · cases h
    · rcases List.mem_append.mp h with h | h
      · rcases Ext_shape path with he | ⟨a, e, _, _, h3, h4⟩
        · rw [he] at h
          cases h
        · rw [h4] at h
          rcases List.mem_cons.mp h with h | h
          · cases h
          · exact h3 h
      · revert h
        decide
  obtain ⟨o, ho, hends⟩ := Clean_keeps (Dir path) ('*' :: (Ext path ++ ".BAK".toList))
    (Clean_ne_nil _) hs (List.cons_ne_nil _ _) (by intro h; cases h) (by intro h; cases h)
  unfold cleanPattern Join
  have hdir : Dir path ≠ [] := Clean_ne_nil _
  rw [if_pos hdir]
  have : Dir path ++ ['/'] ++ (['*'] ++ Ext path ++ ".BAK".toList) =
      Dir path ++ ['/'] ++ '*' :: (Ext path ++ ".BAK".toList) := by
    simp only [List.append_assoc, List.singleton_append, List.cons_append, List.nil_append]
  rw [this, ho]
  exact Split_snd_append o _ hs hends

theorem Split_snd_no_sep (a : Str) : '/' ∉ (Split a).2 := by
  unfold Split
  simp only [List.mem_reverse]
  intro h
  have := List.mem_takeWhile_imp h
  simp [isPathSeparator] at this

theorem Split_append_plain (a tl : Str) (hs : '/' ∉ tl) :
    (Split (a ++ tl)).2 = (Split a).2 ++ tl := by
  have hall : ∀ c ∈ tl.reverse, (!isPathSeparator c) = true := by
    intro c hc
    simp only [isPathSeparator, Bool.not_eq_true', decide_eq_false_iff_not]
    intro h
    exact hs (h ▸ List.mem_reverse.mp hc)
  unfold Split
  simp only [List.reverse_append]
  rw [List.takeWhile_append_of_pos hall, List.reverse_append, List.reverse_reverse]

theorem suffix_append_cancel (x y k : Str) : x ++ k <:+ y ++ k ↔ x <:+ y := by
  rw [← List.reverse_prefix, List.reverse_append, List.reverse_append,
    List.prefix_append_right_inj, List.reverse_prefix]

theorem last_dot_unique (x y e s : Str) (he : '.' ∉ e) (hs : '.' ∉ s)
    (h : x ++ '.' :: e = y ++ '.' :: s) : e = s := by
  rcases List.append_eq_append_iff.mp h with ⟨a, _, h2⟩ | ⟨a, _, h2⟩
  · cases a with
    | nil =>
      simp only [List.nil_append, List.cons.injEq, true_and] at h2
      exact h2
    | cons b a1 =>
      simp only [List.cons_append, List.cons.injEq] at h2
      exact absurd (by rw [h2.2]; simp) he
  · cases a with
    | nil =>
      simp only [List.nil_append, List.cons.injEq, true_and] at h2
      exact h2.symm
    | cons b a1 =>
      simp only [List.cons_append, List.cons.injEq] at h2
      exact absurd (by rw [h2.2]; simp) hs

theorem ext_suffix_iff (ext b stamp : Str)
    (hext : ext = [] ∨ ∃ e, ext = '.' :: e ∧ '.' ∉ e) (hs : '.' ∉ stamp) :
    ext <:+ b ++ '.' :: stamp ↔ (ext = [] ∨ ext = '.' :: stamp) := by
  rcases hext with h | ⟨e, h, he⟩
  · subst h
    simp
  · subst h
    constructor
    · rintro ⟨pre, hpre⟩
      exact Or.inr (by rw [last_dot_unique pre b e stamp he hs hpre])
    · rintro (h | h)
      · cases h
      · rw [h]
        exact List.suffix_append _ _

theorem stamp_no_dot (t : Time) : '.' ∉ t.Format backupLayout := by
  intro h
  have := stamp_isDigit t '.' h
  revert this
  decide

theorem stamp_no_sep (t : Time) : '/' ∉ t.Format backupLayout := by
  intro h
  have := stamp_isDigit t '/' h
  revert this
  decide

/-- The final element of the backup name. -/
theorem backupName_file (path : Str) (t : Time) :
    (Split (backupName path t)).2 =
      (Split (TrimSuffix path (Ext path))).2 ++ '.' :: t.Format backupLayout ++ ".BAK".toList ∧
    '/' ∉ (Split (backupName path t)).2 := by
  have htl : '/' ∉ '.' :: t.Format backupLayout ++ ".BAK".toList := by
    intro h
    rcases List.mem_append.mp h with h | h
    · rcases List.mem_cons.mp h with h | h
      · cases h
      · exact stamp_no_sep t h
    · revert h
      decide
  have hname : backupName path t =
      TrimSuffix path (Ext path) ++ ('.' :: t.Format backupLayout ++ ".BAK".toList) := by
    unfold backupName
    simp only [List.append_assoc, List.singleton_append, List.cons_append, List.nil_append]
  have h1 := Split_append_plain (TrimSuffix path (Ext path)) _ htl
  rw [← hname] at h1
  refine ⟨by rw [h1, List.append_assoc], ?_⟩
  rw [h1]
  intro h
  rcases List.mem_append.mp h with h | h
  · exact Split_snd_no_sep _ h
  · exact htl h

/-- Whether the file part of the cleanup pattern matches the backup name. -/
theorem Match_backup (path : Str) (t : Time) (hmeta : hasMeta (Ext path) = false) :
    Match (Split (cleanPattern path)).2 (Split (backupName path t)).2 =
      Except.ok (decide (Ext path = [] ∨ Ext path = '.' :: t.Format backupLayout)) := by
  obtain ⟨hfile, hsep⟩ := backupName_file path t
  have hbak : ∀ c ∈ ['.', 'B', 'A', 'K'], c ≠ '*' ∧ c ≠ '?' ∧ c ≠ '[' ∧ c ≠ '\\' := by
    decide
  have hplain : ∀ c ∈ Ext path ++ ".BAK".toList, plainChar c := by
    intro c hc
    rcases List.mem_append.mp hc with h | h
    · exact hasMeta_false _ hmeta c h
    · exact hbak c h
  rw [cleanPattern_file, Match_star_plain _ _ hplain (by simp) hsep]
  refine congrArg Except.ok (decide_eq_decide.mpr ?_)
  rw [hfile, suffix_append_cancel]
  have hext : Ext path = [] ∨ ∃ e, Ext path = '.' :: e ∧ '.' ∉ e := by
    rcases Ext_shape path with h | ⟨a, e, _, h2, _, h4⟩
    · exact Or.inl h
    · exact Or.inr ⟨e, h4, h2⟩
  have := ext_suffix_iff (Ext path) (Split (TrimSuffix path (Ext path))).2
    (t.Format backupLayout) hext (stamp_no_dot t)
  exact this

theorem isMatch_backup (path : Str) (t : Time) (hmeta : hasMeta (Ext path) = false) :
    isMatch (Split (cleanPattern path)).2 (Split (backupName path t)).2 =
      decide (Ext path = [] ∨ Ext path = '.' :: t.Format backupLayout) := by
  unfold isMatch
  rw [Match_backup path t hmeta]
  by_cases h : Ext path = [] ∨ Ext path = '.' :: t.Format backupLayout
  · simp only [h, decide_True]
  · simp only [h, decide_False]

/-- C10: for a log path whose extension holds no wildcard character, the file
part of the pattern that `CleanOldLogs` hands to `Glob` is `*`, the extension
and `.BAK`; it matches the final element of the backup name that `rotate`
builds at time `t` exactly when the extension is empty (the pattern is then
`*.BAK`) or is a dot followed by the stamp of `t`. In every other case `Glob`
never returns the backup name, and `CleanOldLogs` leaves the backup in place
whatever its age. -/
theorem C10_backup_outside_cleanup (path : Str) (t : Time)
    (hmeta : hasMeta (Ext path) = false) :
    (Split (cleanPattern path)).2 = '*' :: (Ext path ++ ".BAK".toList) ∧
    (isMatch (Split (cleanPattern path)).2 (Split (backupName path t)).2 = true ↔
      (Ext path = [] ∨ Ext path = '.' :: t.Format backupLayout)) ∧
    (Ext path ≠ [] → Ext path ≠ '.' :: t.Format backupLayout →
      ∀ (env : Env) (l : Logger) (w : World), l.logPath = path →
        (∀ files, Glob w (cleanPattern path) = Except.ok files → backupName path t ∉ files) ∧
        (CleanOldLogs env l w).2.lookup (backupName path t) = w.lookup (backupName path t)) := by
  refine ⟨cleanPattern_file path, ?_, ?_⟩
  · rw [isMatch_backup path t hmeta, decide_eq_true_iff]
  · intro h1 h2 env l w hl
    have hno : ∀ files, Glob w (cleanPattern path) = Except.ok files →
        backupName path t ∉ files := by
      intro files hg hin
      have hm := (Glob_mem w _ files hg _ hin).2
      rw [Match_backup path t hmeta] at hm
      have hd : decide (Ext path = [] ∨ Ext path = '.' :: t.Format backupLayout) = true :=
        Except.ok.inj hm
      rcases of_decide_eq_true hd with h | h
      · exact h1 h
      · exact h2 h
    refine ⟨hno, ?_⟩
    apply CleanOldLogs_keeps
    rw [hl]
    exact hno

/-- C10 on `app.log`: the pattern `*.log.BAK` does not match the backup
`app.0307202409050000.BAK`, and `CleanOldLogs` leaves that backup, which is
older than 30 days, in the directory. -/
theorem C10_backup_outside_cleanup_witness :
    hasMeta (Ext "app.log".toList) = false ∧
    backupName "app.log".toList (envOk.clock 0) = "app.0307202409050000.BAK".toList ∧
    (Split (cleanPattern "app.log".toList)).2 = "*.log.BAK".toList ∧
    ¬ (isMatch (Split (cleanPattern "app.log".toList)).2
      (Split (backupName "app.log".toList (envOk.clock 0))).2 = true) ∧
    (CleanOldLogs envOk appLogger collisionWorld).2.lookup
        (backupName "app.log".toList (envOk.clock 0)) =
      collisionWorld.lookup (backupName "app.log".toList (envOk.clock 0)) ∧
    collisionWorld.lookup (backupName "app.log".toList (envOk.clock 0)) = some 1 ∧
    collisionWorld.modTime 1 < (envOk.clock collisionWorld.ticks).unixNano - thirtyDays :=
  ⟨by decide, rfl,
    (C10_backup_outside_cleanup "app.log".toList (envOk.clock 0) (by decide)).1,
    fun h => by
      have := (C10_backup_outside_cleanup "app.log".toList (envOk.clock 0)
        (by decide)).2.1.mp h
      revert this
      decide,
    ((C10_backup_outside_cleanup "app.log".toList (envOk.clock 0) (by decide)).2.2
      (by decide) (by decide) envOk appLogger collisionWorld rfl).2,
    rfl, by decide⟩

/-! ### `Clean`: the form of its results -/

theorem built_le (rooted : Bool) (out : Str) (dd : Nat) (h : Built rooted out dd) :
    dd ≤ out.length := by
  induction h with
  | start => cases rooted <;> simp
  | dots out _ _ _ => exact Nat.le_refl _
  | elem out dd e _ _ ih =>
    rw [List.length_append]
    unfold withSep
    split
    · rw [List.length_append]
      omega
    · omega

theorem built_rooted (out : Str) (dd : Nat) (h : Built true out dd) :
    out.head? = some '/' ∧ dd = 1 := by
  induction h with
  | start => exact ⟨rfl, rfl⟩
  | dots out hf _ _ => cases hf
  | elem out dd e _ _ ih =>
    obtain ⟨h1, h2⟩ := ih
    exact ⟨head_append_of_head _ _ (by
      unfold withSep
      split
      · exact head_append_of_head _ _ h1
      · exact h1), h2⟩

theorem withSep_cases (rooted : Bool) (out : Str) (dd : Nat) (h : Built rooted out dd) :
    withSep rooted out = out ++ ['/'] ∨
      (withSep rooted out = out ∧
        out = (if rooted then ['/'] else []) ∧ dd = (if rooted then 1 else 0)) := by
  unfold withSep
  split
  · exact Or.inl rfl
  · rename_i hc
    refine Or.inr ⟨rfl, ?_⟩
    cases rooted with
    | true =>
      simp only [true_and, Bool.not_true, Bool.false_eq_true, false_and, or_false, ne_eq,
        not_not] at hc
      obtain ⟨hh, hd⟩ := built_rooted out dd h
      cases out with
      | nil => cases hh
      | cons a r =>
        simp only [List.head?_cons, Option.some.injEq] at hh
        simp only [List.length_cons, add_left_eq_self, List.length_eq_zero] at hc
        exact ⟨by rw [hh, hc]; rfl, hd⟩
    | false =>
      simp only [Bool.false_eq_true, false_and, Bool.not_false, true_and, false_or, ne_eq,
        not_not, List.length_eq_zero] at hc
      have := built_le false out dd h
      rw [hc] at this
      exact ⟨hc, by simpa using this⟩

theorem nonsep_reverse (e : Str) (he : '/' ∉ e) :
    ∀ c ∈ e.reverse, (!isPathSeparator c) = true := by
  intro c hc
  simp only [isPathSeparator, Bool.not_eq_true', decide_eq_false_iff_not]
  intro h
  exact he (h ▸ List.mem_reverse.mp hc)

theorem backtrack_sep (out e : Str) (dd : Nat) (he : '/' ∉ e) (hd : dd ≤ out.length) :
    backtrack (out ++ ['/'] ++ e) dd = out := by
  unfold backtrack
  have h1 : ((out ++ ['/'] ++ e).reverse.dropWhile (fun c => !isPathSeparator c)).length =
      out.length + 1 := by
    rw [List.reverse_append, List.dropWhile_append_of_pos (nonsep_reverse e he)]
    simp [isPathSeparator]
  rw [h1, Nat.add_sub_cancel, max_eq_right hd, List.append_assoc]
  exact List.take_left _ _

theorem backtrack_built (rooted : Bool) (out : Str) (dd : Nat) (h : Built rooted out dd)
    (hlt : dd < out.length) : Built rooted (backtrack out dd) dd := by
  cases h with
  | start =>
    cases rooted <;> simp at hlt
  | dots out0 _ _ => exact absurd hlt (Nat.lt_irrefl _)
  | elem out0 dd e hb he =>
    rcases withSep_cases rooted out0 dd hb with hw | ⟨hw, ho, hdd⟩
    · rw [hw, backtrack_sep out0 e dd he.2.1 (built_le rooted out0 dd hb)]
      exact hb
    · have hX : backtrack (withSep rooted out0 ++ e) dd = out0 := by
        rw [hw]
        unfold backtrack
        cases rooted with
        | true =>
          simp only [if_true] at ho hdd
          subst ho
          subst hdd
          have h1 : ((['/'] ++ e).reverse.dropWhile (fun c => !isPathSeparator c)).length =
              1 := by
            rw [List.reverse_append, List.dropWhile_append_of_pos (nonsep_reverse e he.2.1)]
            simp [isPathSeparator]
          rw [h1]
          rfl
        | false =>
          simp only [Bool.false_eq_true, if_false] at ho hdd
          subst ho
          subst hdd
          have h1 : (([] ++ e).reverse.dropWhile (fun c => !isPathSeparator c)).length = 0 := by
            rw [List.nil_append, List.length_eq_zero, List.dropWhile_eq_nil_iff]
            exact nonsep_reverse e he.2.1
          rw [h1]
          rfl
      rw [hX]
      exact hb

theorem take_elemLen (s : Str) :
    s.take (elemLen s) = s.takeWhile (fun c => !isPathSeparator c) := by
  unfold elemLen
  induction s with
  | nil => rfl
  | cons a r ih =>
    rw [List.takeWhile_cons]
    split
    · rw [List.length_cons, List.take_succ_cons, ih]
    · rfl

theorem takeWhile_nil_head (r : Str) (h : r.takeWhile (fun c => !isPathSeparator c) = []) :
    r = [] ∨ r.head?.map isPathSeparator = some true := by
  cases r with
  | nil => exact Or.inl rfl
  | cons a l =>
    right
    rw [List.takeWhile_cons] at h
    split at h
    · cases h
    · rename_i hc
      simp only [Bool.not_eq_true, Bool.not_eq_false'] at hc
      simp [hc]

/-- The element that the loop of `Clean` copies is a name other than `.` and
`..`. -/
theorem first_isElem (c : Char) (r : Str) (hc : ¬ isPathSeparator c = true)
    (h1 : ¬ (c = '.' ∧ (r = [] ∨ r.head?.map isPathSeparator = some true)))
    (h2 : ¬ (c = '.' ∧ r.head? = some '.' ∧
      (r.tail = [] ∨ r.tail.head?.map isPathSeparator = some true))) :
    IsElem ((c :: r).take (elemLen (c :: r))) := by
  have hcn : (!isPathSeparator c) = true := by simpa using hc
  rw [take_elemLen, List.takeWhile_cons, if_pos hcn]
  refine ⟨List.cons_ne_nil _ _, ?_, ?_, ?_⟩
  · intro hm
    rcases List.mem_cons.mp hm with h | h
    · apply hc
      rw [← h]
      rfl
    · have := List.mem_takeWhile_imp h
      simp [isPathSeparator] at this
  · intro h
    simp only [List.cons.injEq] at h
    exact h1 ⟨h.1, takeWhile_nil_head r h.2⟩
  · intro h
    simp only [List.cons.injEq] at h
    obtain ⟨hc1, hr⟩ := h
    cases r with
    | nil => simp at hr
    | cons a l =>
      rw [List.takeWhile_cons] at hr
      split at hr
      · simp only [List.cons.injEq] at hr
        exact h2 ⟨hc1, by rw [hr.1]; rfl, takeWhile_nil_head l hr.2⟩
      · cases hr

/-- The loop of `Clean` keeps its buffer in the form `Built`. -/
theorem cleanLoop_built (rooted : Bool) :
    ∀ (fuel : Nat) (out : Str) (dd : Nat) (rest : Str), Built rooted out dd →
      ∃ dd1, Built rooted (cleanLoop rooted fuel out dd rest) dd1 := by
  intro fuel
  induction fuel with
  | zero =>
    intro out dd rest h
    exact ⟨dd, h⟩
  | succ fuel ih =>
    intro out dd rest h
    cases rest with
    | nil => exact ⟨dd, h⟩
    | cons c r =>
      rw [cleanLoop]
      split
      · exact ih out dd r h
      · rename_i hsep
        split
        · exact ih out dd r h
        · rename_i hc1
          split
          · split
            · rename_i hlt
              exact ih _ dd r.tail (backtrack_built rooted out dd h hlt)
            · rename_i hge
              split
              · rename_i hnr
                have hr : rooted = false := by simpa using hnr
                have hdd : dd = out.length :=
                  Nat.le_antisymm (built_le rooted out dd h) (Nat.le_of_not_lt hge)
                rw [hdd] at h
                exact ih _ _ r.tail (Built.dots out hr h)
              · exact ih out dd r.tail h
          · rename_i hc2
            exact ih _ dd _ (Built.elem out dd _ h (first_isElem c r hsep hc1 hc2))

/-- With fuel beyond the length of the input, the loop of `Clean` does not
depend on the fuel. -/
theorem cleanLoop_fuel (rooted : Bool) :
    ∀ (f1 f2 : Nat) (out : Str) (dd : Nat) (rest : Str), rest.length < f1 → rest.length < f2 →
      cleanLoop rooted f1 out dd rest = cleanLoop rooted f2 out dd rest := by
  intro f1
  induction f1 with
  | zero =>
    intro f2 out dd rest h1
    omega
  | succ f1 ih =>
    intro f2 out dd rest h1 h2
    cases f2 with
    | zero => omega
    | succ f2 =>
      cases rest with
      | nil => rfl
      | cons c r =>
        simp only [List.length_cons] at h1 h2
        have ht : r.tail.length ≤ r.length := by
          rw [List.length_tail]
          omega
        rw [cleanLoop, cleanLoop]
        by_cases hsep : isPathSeparator c = true
        · rw [if_pos hsep, if_pos hsep]
          exact ih f2 out dd r (by omega) (by omega)
        · rw [if_neg hsep, if_neg hsep]
          split
          · exact ih f2 out dd r (by omega) (by omega)
          · split
            · split
              · exact ih f2 _ dd r.tail (by omega) (by omega)
              · split
                · exact ih f2 _ _ r.tail (by omega) (by omega)
                · exact ih f2 out dd r.tail (by omega) (by omega)
            · have hpos := elemLen_pos c r (by simpa using hsep)
              have hl : ((c :: r).drop (elemLen (c :: r))).length ≤ r.length := by
                rw [List.length_drop, List.length_cons]
                omega
              exact ih f2 _ dd _ (by omega) (by omega)

theorem cleanLoop_skip (rooted : Bool) (f : Nat) (out : Str) (dd : Nat) (rest : Str) :
    cleanLoop rooted (f + 1) out dd ('/' :: rest) = cleanLoop rooted f out dd rest := by
  rw [cleanLoop, if_pos (by rfl)]

theorem startsSep_takeWhile (r : Str) (h : StartsSep r) :
    r.takeWhile (fun c => !isPathSeparator c) = [] := by
  rcases h with h | h
  · rw [h]
    rfl
  · cases r with
    | nil => rfl
    | cons a l =>
      simp only [List.head?_cons, Option.some.injEq] at h
      rw [h]
      rfl

theorem startsSep_head (r : Str) (a : Char) (h : StartsSep r) (ha : r.head? = some a) :
    a = '/' := by
  rcases h with h | h
  · rw [h] at ha
    cases ha
  · rw [h] at ha
    exact (Option.some.inj ha).symm

/-- The loop of `Clean` copies an element that is a name other than `.` and
`..` to its buffer, after a separator unless the buffer is at its start. -/
theorem cleanLoop_elem (rooted : Bool) (f : Nat) (out : Str) (dd : Nat) (e rest : Str)
    (he : IsElem e) (hr : StartsSep rest) :
    cleanLoop rooted (f + 1) out dd (e ++ rest) =
      cleanLoop rooted f (withSep rooted out ++ e) dd rest := by
  obtain ⟨hne, hs, hd, hdd⟩ := he
  cases e with
  | nil => exact absurd rfl hne
  | cons c p =>
    have hc : ¬ isPathSeparator c = true := by
      simp only [isPathSeparator, decide_eq_true_eq]
      intro h
      exact hs (h ▸ List.mem_cons_self _ _)
    have hp : ∀ a ∈ p, ¬ isPathSeparator a = true := by
      intro a ha
      simp only [isPathSeparator, decide_eq_true_eq]
      intro h
      exact hs (h ▸ List.mem_cons_of_mem _ ha)
    have h1 : ¬ (c = '.' ∧ (p ++ rest = [] ∨
        (p ++ rest).head?.map isPathSeparator = some true)) := by
      rintro ⟨e1, e2⟩
      cases p with
      | nil => exact hd (by rw [e1])
      | cons a p1 =>
        rcases e2 with e2 | e2
        · cases e2
        · simp only [List.cons_append, List.head?_cons, Option.map_some',
            Option.some.injEq] at e2
          exact hp a (List.mem_cons_self _ _) e2
    have h2 : ¬ (c = '.' ∧ (p ++ rest).head? = some '.' ∧
        ((p ++ rest).tail = [] ∨ (p ++ rest).tail.head?.map isPathSeparator = some true)) := by
      rintro ⟨e1, e2, e3⟩
      cases p with
      | nil =>
        rw [List.nil_append] at e2
        have := startsSep_head rest '.' hr e2
        revert this
        decide
      | cons a p1 =>
        simp only [List.cons_append, List.head?_cons, Option.some.injEq] at e2
        cases p1 with
        | nil => exact hdd (by rw [e1, e2])
        | cons b p2 =>
          rcases e3 with e3 | e3
          · cases e3
          · simp only [List.cons_append, List.tail_cons, List.head?_cons, Option.map_some',
              Option.some.injEq] at e3
            exact hp b (List.mem_cons_of_mem _ (List.mem_cons_self _ _)) e3
    have hlen : elemLen (c :: (p ++ rest)) = (c :: p).length := by
      unfold elemLen
      rw [← List.cons_append, List.takeWhile_append_of_pos, startsSep_takeWhile rest hr,
        List.append_nil]
      intro a ha
      rcases List.mem_cons.mp ha with h | h
      · rw [h]
        simpa using hc
      · simpa using hp a h
    rw [List.cons_append, cleanLoop, if_neg hc, if_neg h1, if_neg h2]
    simp only [hlen]
    rw [← List.cons_append, List.take_left, List.drop_left]
    rfl

theorem cleanLoop_dots (f : Nat) (out : Str) (rest : Str) (hr : StartsSep rest) :
    cleanLoop false (f + 1) out out.length ('.' :: '.' :: rest) =
      cleanLoop false f ((if 0 < out.length then out ++ ['/'] else out) ++ ['.', '.'])
        ((if 0 < out.length then out ++ ['/'] else out) ++ ['.', '.']).length rest := by
  have h1 : ¬ (('.' : Char) = '.' ∧ ('.' :: rest = [] ∨
      ('.' :: rest).head?.map isPathSeparator = some true)) := by
    rintro ⟨_, e2 | e2⟩
    · cases e2
    · simp only [List.head?_cons, Option.map_some', Option.some.injEq] at e2
      revert e2
      decide
  have h2 : (('.' : Char) = '.' ∧ ('.' :: rest).head? = some '.' ∧
      (('.' :: rest).tail = [] ∨ ('.' :: rest).tail.head?.map isPathSeparator = some true)) := by
    refine ⟨rfl, rfl, ?_⟩
    rcases hr with h | h
    · exact Or.inl h
    · right
      rw [List.tail_cons, h]
      rfl
  rw [cleanLoop, if_neg (by decide), if_neg h1, if_pos h2, if_neg (Nat.lt_irrefl _)]
  rfl

/-- The loop of `Clean` reads a text it has built, in a path that is not
rooted, back into the same buffer. -/
theorem cleanLoop_replay_rel (d : Str) (dd : Nat) (h : Built false d dd) :
    ∀ (rest : Str) (f : Nat), (d = [] ∨ StartsSep rest) → (d ++ rest).length < f →
      cleanLoop false f [] 0 (d ++ rest) = cleanLoop false f d dd rest := by
  induction h with
  | start =>
    intro rest f _ _
    rfl
  | dots out _ hb ih =>
    intro rest f hst hlen
    have hrest : StartsSep rest := by
      rcases hst with h | h
      · exact absurd h (by simp)
      · exact h
    by_cases hpos : 0 < out.length
    · simp only [hpos, if_true] at hlen ⊢
      have e1 : out ++ ['/'] ++ ['.', '.'] ++ rest = out ++ '/' :: '.' :: '.' :: rest := by
        simp only [List.append_assoc, List.cons_append, List.nil_append]
      rw [e1] at hlen ⊢
      rw [ih ('/' :: '.' :: '.' :: rest) f (Or.inr (Or.inr rfl)) hlen]
      simp only [List.length_append, List.length_cons] at hlen
      obtain ⟨f1, rfl⟩ : ∃ f1, f = f1 + 2 := ⟨f - 2, by omega⟩
      rw [cleanLoop_skip, cleanLoop_dots f1 out rest hrest]
      simp only [hpos, if_true]
      exact cleanLoop_fuel false _ _ _ _ _ (by omega) (by omega)
    · have hnil : out = [] := by
        cases out with
        | nil => rfl
        | cons a r => exact absurd (Nat.succ_pos _) hpos
      subst hnil
      simp only [List.length_nil, Nat.lt_irrefl, if_false, List.nil_append, List.cons_append,
        List.length_cons] at hlen ⊢
      obtain ⟨f1, rfl⟩ : ∃ f1, f = f1 + 1 := ⟨f - 1, by omega⟩
      have := cleanLoop_dots f1 [] rest hrest
      simp only [List.length_nil, Nat.lt_irrefl, if_false, List.nil_append,
        List.length_cons] at this
      rw [this]
      exact cleanLoop_fuel false _ _ _ _ _ (by omega) (by omega)
  | elem out dd e hb he ih =>
    intro rest f hst hlen
    have hrest : StartsSep rest := by
      rcases hst with h | h
      · exact absurd (List.append_eq_nil.mp h).2 he.1
      · exact h
    rcases withSep_cases false out dd hb with hw | ⟨hw, ho, hdd⟩
    · rw [hw] at hlen ⊢
      have e1 : out ++ ['/'] ++ e ++ rest = out ++ '/' :: (e ++ rest) := by
        simp only [List.append_assoc, List.cons_append, List.nil_append]
      rw [e1] at hlen
      rw [e1, ih ('/' :: (e ++ rest)) f (Or.inr (Or.inr rfl)) hlen]
      simp only [List.length_append, List.length_cons] at hlen
      have hpos : 0 < e.length := List.length_pos.mpr he.1
      obtain ⟨f1, rfl⟩ : ∃ f1, f = f1 + 2 := ⟨f - 2, by omega⟩
      rw [cleanLoop_skip, cleanLoop_elem false f1 out dd e rest he hrest, hw]
      exact cleanLoop_fuel false _ _ _ _ _ (by omega) (by omega)
    · simp only [Bool.false_eq_true, if_false] at ho hdd
      subst ho
      subst hdd
      rw [hw] at hlen ⊢
      simp only [List.nil_append, List.length_append] at hlen ⊢
      have hpos : 0 < e.length := List.length_pos.mpr he.1
      obtain ⟨f1, rfl⟩ : ∃ f1, f = f1 + 1 := ⟨f - 1, by omega⟩
      rw [cleanLoop_elem false f1 [] 0 e rest he hrest, hw, List.nil_append]
      exact cleanLoop_fuel false _ _ _ _ _ (by omega) (by omega)

/-- The loop of `Clean` reads a text it has built, in a rooted path, back into
the same buffer. -/
theorem cleanLoop_replay_rooted (d : Str) (dd : Nat) (h : Built true d dd) :
    ∀ (rest : Str) (f : Nat), (d.tail = [] ∨ StartsSep rest) → (d.tail ++ rest).length < f →
      cleanLoop true f ['/'] 1 (d.tail ++ rest) = cleanLoop true f d dd rest := by
  induction h with
  | start =>
    intro rest f _ _
    rfl
  | dots out hr _ _ => cases hr
  | elem out dd e hb he ih =>
    intro rest f hst hlen
    have hpos : 0 < e.length := List.length_pos.mpr he.1
    obtain ⟨hhead, _⟩ := built_rooted out dd hb
    obtain ⟨o1, ho1⟩ : ∃ o1, out = '/' :: o1 := by
      cases out with
      | nil => cases hhead
      | cons a r =>
        simp only [List.head?_cons, Option.some.injEq] at hhead
        exact ⟨r, by rw [hhead]⟩
    rcases withSep_cases true out dd hb with hw | ⟨hw, ho, hdd⟩
    · have e1 : (withSep true out ++ e).tail ++ rest = out.tail ++ '/' :: (e ++ rest) := by
        rw [hw, ho1]
        simp only [List.append_assoc, List.cons_append, List.nil_append, List.tail_cons]
      have hrest : StartsSep rest := by
        rcases hst with h | h
        · rw [hw, ho1] at h
          simp at h
        · exact h
      rw [e1] at hlen
      rw [e1, ih ('/' :: (e ++ rest)) f (Or.inr (Or.inr rfl)) hlen]
      simp only [List.length_append, List.length_cons] at hlen
      obtain ⟨f1, rfl⟩ : ∃ f1, f = f1 + 2 := ⟨f - 2, by omega⟩
      rw [cleanLoop_skip, cleanLoop_elem true f1 out dd e rest he hrest]
      exact cleanLoop_fuel true _ _ _ _ _ (by omega) (by omega)
    · simp only [if_true] at ho hdd
      subst ho
      subst hdd
      have e1 : (withSep true ['/'] ++ e).tail ++ rest = e ++ rest := by
        rw [hw]
        rfl
      have hrest : StartsSep rest := by
        rcases hst with h | h
        · rw [hw] at h
          exact absurd h he.1
        · exact h
      rw [e1] at hlen
      rw [e1]
      simp only [List.length_append] at hlen
      obtain ⟨f1, rfl⟩ : ∃ f1, f = f1 + 1 := ⟨f - 1, by omega⟩
      rw [cleanLoop_elem true f1 ['/'] 1 e rest he hrest]
      exact cleanLoop_fuel true _ _ _ _ _ (by omega) (by omega)

/-- Every result of `Clean` has the form `CleanForm`. -/
theorem Clean_form (x : Str) : CleanForm (Clean x) := by
  cases x with
  | nil => exact Or.inl rfl
  | cons c r =>
    by_cases hc : isPathSeparator c = true
    · obtain ⟨dd, hb⟩ := cleanLoop_built true ((c :: r).length + 1) ['/'] 1 (c :: r).tail
        Built.start
      have hne : cleanLoop true ((c :: r).length + 1) ['/'] 1 (c :: r).tail ≠ [] := by
        intro h
        have := (built_rooted _ dd hb).1
        rw [h] at this
        cases this
      have : Clean (c :: r) = cleanLoop true ((c :: r).length + 1) ['/'] 1 (c :: r).tail := by
        simp only [Clean, hc, if_true, hne, if_false]
      rw [this]
      exact Or.inr (Or.inl ⟨dd, hb⟩)
    · have hcf : isPathSeparator c = false := by simpa using hc
      obtain ⟨dd, hb⟩ := cleanLoop_built false ((c :: r).length + 1) [] 0 (c :: r) Built.start
      by_cases hne : cleanLoop false ((c :: r).length + 1) [] 0 (c :: r) = []
      · have : Clean (c :: r) = ['.'] := by
          simp only [Clean, hcf, Bool.false_eq_true, if_false, hne, if_true]
        rw [this]
        exact Or.inl rfl
      · have : Clean (c :: r) = cleanLoop false ((c :: r).length + 1) [] 0 (c :: r) := by
          simp only [Clean, hcf, Bool.false_eq_true, if_false, hne]
        rw [this]
        exact Or.inr (Or.inr ⟨dd, hb, hne⟩)

theorem built_rel_head (d : Str) (dd : Nat) (h : Built false d dd) : d.head? ≠ some '/' := by
  induction h with
  | start => simp
  | dots out _ _ ih =>
    cases out with
    | nil => simp
    | cons a r =>
      simp only [List.length_cons, Nat.succ_pos, if_true, List.cons_append, List.head?_cons]
      exact ih
  | elem out dd e _ he ih =>
    unfold withSep
    cases out with
    | nil =>
      simp only [Bool.false_eq_true, false_and, Bool.not_false, List.length_nil, ne_eq,
        not_true_eq_false, and_false, or_self, if_false, List.nil_append]
      obtain ⟨hne, hs, _, _⟩ := he
      cases e with
      | nil => exact absurd rfl hne
      | cons c p =>
        simp only [List.head?_cons, ne_eq, Option.some.injEq]
        intro h
        exact hs (h ▸ List.mem_cons_self _ _)
    | cons a r =>
      have : ((if (false = true ∧ (a :: r).length ≠ 1) ∨ ((!false) = true ∧ (a :: r).length ≠ 0)
          then a :: r ++ ['/'] else a :: r) ++ e).head? = some a := by
        split <;> rfl
      rw [this]
      exact ih

theorem Split_append_sep (o pat : Str) (hs : '/' ∉ pat) (ho : EndsSep o) :
    Split (o ++ pat) = (o, pat) := by
  have h2 := Split_snd_append o pat hs ho
  have h1 : (Split (o ++ pat)).1 = o := by
    have : (Split (o ++ pat)).1 =
        (o ++ pat).take ((o ++ pat).length - (Split (o ++ pat)).2.length) := rfl
    rw [this, h2, List.length_append, Nat.add_sub_cancel]
    exact List.take_left _ _
  exact Prod.ext h1 h2

theorem cleanLoop_last_exact (rooted : Bool) (f : Nat) (out : Str) (dd : Nat) (pat : Str)
    (hp : IsElem pat) :
    cleanLoop rooted (f + 1) out dd pat = withSep rooted out ++ pat := by
  have := cleanLoop_elem rooted f out dd pat [] hp (Or.inl rfl)
  rw [List.append_nil, cleanLoop_nil] at this
  exact this

theorem Clean_rooted (r : Str) :
    Clean ('/' :: r) =
      if cleanLoop true (r.length + 2) ['/'] 1 r = [] then ['.']
      else cleanLoop true (r.length + 2) ['/'] 1 r := rfl

theorem Clean_rel (c : Char) (r : Str) (hc : isPathSeparator c = false) :
    Clean (c :: r) =
      if cleanLoop false (r.length + 2) [] 0 (c :: r) = [] then ['.']
      else cleanLoop false (r.length + 2) [] 0 (c :: r) := by
  simp only [Clean, hc, Bool.false_eq_true, if_false, List.length_cons]

theorem ite_nil_append (o pat : Str) (hp : pat ≠ []) :
    (if o ++ pat = [] then ['.'] else o ++ pat) = o ++ pat := by
  rw [if_neg]
  intro h
  exact hp (List.append_eq_nil.mp h).2

theorem cleanLoop_join_rooted (d : Str) (dd : Nat) (hb : Built true d dd) (pat : Str)
    (hp : IsElem pat) (f : Nat) (hf : (d.tail ++ '/' :: pat).length < f) :
    cleanLoop true f ['/'] 1 (d.tail ++ '/' :: pat) = withSep true d ++ pat := by
  rw [cleanLoop_replay_rooted d dd hb ('/' :: pat) f (Or.inr (Or.inr rfl)) hf]
  have hpos : 0 < pat.length := List.length_pos.mpr hp.1
  simp only [List.length_append, List.length_cons] at hf
  obtain ⟨f1, rfl⟩ : ∃ f1, f = f1 + 2 := ⟨f - 2, by omega⟩
  rw [cleanLoop_skip, cleanLoop_last_exact true _ d dd pat hp]

theorem cleanLoop_join_rel (d : Str) (dd : Nat) (hb : Built false d dd) (pat : Str)
    (hp : IsElem pat) (f : Nat) (hf : (d ++ '/' :: pat).length < f) :
    cleanLoop false f [] 0 (d ++ '/' :: pat) = withSep false d ++ pat := by
  rw [cleanLoop_replay_rel d dd hb ('/' :: pat) f (Or.inr (Or.inr rfl)) hf]
  have hpos : 0 < pat.length := List.length_pos.mpr hp.1
  simp only [List.length_append, List.length_cons] at hf
  obtain ⟨f1, rfl⟩ : ∃ f1, f = f1 + 2 := ⟨f - 2, by omega⟩
  rw [cleanLoop_skip, cleanLoop_last_exact false _ d dd pat hp]

theorem cleanLoop_join_dot (pat : Str) (hp : IsElem pat) (f : Nat) :
    cleanLoop false (f + 3) [] 0 ('.' :: '/' :: pat) = pat := by
  rw [cleanLoop, if_neg (by decide), if_pos ⟨rfl, Or.inr rfl⟩, cleanLoop_skip,
    cleanLoop_last_exact false _ [] 0 pat hp]
  rfl

/-- A cleaned directory joined with a name: the directory stays as it is. -/
theorem join_clean (d pat : Str) (hd : CleanForm d) (hp : IsElem pat) :
    ∃ o, Clean (d ++ ['/'] ++ pat) = o ++ pat ∧ EndsSep o ∧ cleanGlobPath o = d := by
  have hpne : pat ≠ [] := hp.1
  have hpos : 0 < pat.length := List.length_pos.mpr hp.1
  rcases hd with hd | ⟨dd, hb⟩ | ⟨dd, hb, hne⟩
  · subst hd
    refine ⟨[], ?_, Or.inl rfl, rfl⟩
    have e1 : ['.'] ++ ['/'] ++ pat = '.' :: '/' :: pat := rfl
    rw [e1, Clean_rel '.' _ (by decide)]
    obtain ⟨f, hf⟩ : ∃ f, ('/' :: pat).length + 2 = f + 3 := ⟨pat.length, rfl⟩
    rw [hf, cleanLoop_join_dot pat hp f, if_neg hpne]
    rfl
  · obtain ⟨hhead, _⟩ := built_rooted d dd hb
    obtain ⟨o1, ho1⟩ : ∃ o1, d = '/' :: o1 := by
      cases d with
      | nil => cases hhead
      | cons a r =>
        simp only [List.head?_cons, Option.some.injEq] at hhead
        exact ⟨r, by rw [hhead]⟩
    have e1 : d ++ ['/'] ++ pat = '/' :: (d.tail ++ '/' :: pat) := by
      rw [ho1]
      simp only [List.append_assoc, List.cons_append, List.nil_append, List.tail_cons]
    refine ⟨withSep true d, ?_, ?_, ?_⟩
    · rw [e1, Clean_rooted, cleanLoop_join_rooted d dd hb pat hp _ (by omega),
        ite_nil_append _ _ hpne]
    · rcases withSep_cases true d dd hb with hw | ⟨hw, ho, _⟩
      · exact Or.inr ⟨d, hw⟩
      · rw [hw]
        simp only [if_true] at ho
        rw [ho]
        exact Or.inr ⟨[], rfl⟩
    · rcases withSep_cases true d dd hb with hw | ⟨hw, ho, _⟩
      · rw [hw, ho1]
        unfold cleanGlobPath
        rw [if_neg (by simp), if_neg (by simp), List.dropLast_concat]
      · rw [hw]
        simp only [if_true] at ho
        rw [ho]
        rfl
  · obtain ⟨c, d1, hcd⟩ : ∃ c d1, d = c :: d1 := by
      cases d with
      | nil => exact absurd rfl hne
      | cons a r => exact ⟨a, r, rfl⟩
    have hc : isPathSeparator c = false := by
      have := built_rel_head d dd hb
      rw [hcd] at this
      simp only [List.head?_cons, ne_eq, Option.some.injEq] at this
      simpa [isPathSeparator] using this
    have hw : withSep false d = d ++ ['/'] := by
      unfold withSep
      rw [if_pos]
      right
      exact ⟨rfl, by rw [hcd]; simp⟩
    have e1 : d ++ ['/'] ++ pat = c :: (d1 ++ '/' :: pat) := by
      rw [hcd]
      simp only [List.append_assoc, List.cons_append, List.nil_append]
    have e2 : c :: (d1 ++ '/' :: pat) = d ++ '/' :: pat := by
      rw [hcd]
      rfl
    refine ⟨d ++ ['/'], ?_, Or.inr ⟨d, rfl⟩, ?_⟩
    · rw [e1, Clean_rel c _ hc, e2, cleanLoop_join_rel d dd hb pat hp _
        (by rw [← e2]; simp only [List.length_cons]; omega), hw, ite_nil_append _ _ hpne]
      simp only [List.append_assoc, List.cons_append, List.nil_append]
    · unfold cleanGlobPath
      rw [if_neg (by simp), if_neg (by rw [hcd]; simp), List.dropLast_concat]

/-- `Clean` leaves its own results as they are. -/
theorem Clean_idem (d : Str) (hd : CleanForm d) : Clean d = d := by
  rcases hd with hd | ⟨dd, hb⟩ | ⟨dd, hb, hne⟩
  · rw [hd]
    rfl
  · obtain ⟨hhead, _⟩ := built_rooted d dd hb
    obtain ⟨o1, ho1⟩ : ∃ o1, d = '/' :: o1 := by
      cases d with
      | nil => cases hhead
      | cons a r =>
        simp only [List.head?_cons, Option.some.injEq] at hhead
        exact ⟨r, by rw [hhead]⟩
    have h := cleanLoop_replay_rooted d dd hb [] (o1.length + 2) (Or.inr (Or.inl rfl))
      (by rw [ho1]; simp only [List.tail_cons, List.append_nil]; omega)
    rw [cleanLoop_nil, List.append_nil] at h
    conv_lhs => rw [ho1, Clean_rooted]
    rw [ho1] at h
    simp only [List.tail_cons] at h
    rw [h, if_neg (List.cons_ne_nil _ _)]
    exact ho1.symm
  · obtain ⟨c, d1, hcd⟩ : ∃ c d1, d = c :: d1 := by
      cases d with
      | nil => exact absurd rfl hne
      | cons a r => exact ⟨a, r, rfl⟩
    have hc : isPathSeparator c = false := by
      have := built_rel_head d dd hb
      rw [hcd] at this
      simp only [List.head?_cons, ne_eq, Option.some.injEq] at this
      simpa [isPathSeparator] using this
    have h := cleanLoop_replay_rel d dd hb [] (d1.length + 2) (Or.inr (Or.inl rfl))
      (by rw [hcd]; simp only [List.append_nil, List.length_cons]; omega)
    rw [cleanLoop_nil, List.append_nil] at h
    conv_lhs => rw [hcd, Clean_rel c d1 hc]
    rw [hcd] at h
    rw [h, if_neg (List.cons_ne_nil _ _)]
    exact hcd.symm

theorem Dir_form (path : Str) : CleanForm (Dir path) := Clean_form _

theorem Clean_Dir (path : Str) : Clean (Dir path) = Dir path := Clean_idem _ (Dir_form path)

theorem pattern_isElem (ext : Str) (h : '/' ∉ ext) : IsElem ('*' :: (ext ++ ".BAK".toList)) := by
  refine ⟨List.cons_ne_nil _ _, ?_, ?_, ?_⟩
  · intro hm
    rcases List.mem_cons.mp hm with h1 | h1
    · cases h1
    · rcases List.mem_append.mp h1 with h2 | h2
      · exact h h2
      · revert h2
        decide
  · intro h1
    cases h1
  · intro h1
    cases h1

theorem Ext_no_sep (path : Str) : '/' ∉ Ext path := by
  intro h
  rcases Ext_shape path with he | ⟨a, e, _, _, h3, h4⟩
  · rw [he] at h
    cases h
  · rw [h4] at h
    rcases List.mem_cons.mp h with h | h
    · cases h
    · exact h3 h

/-- The pattern that `CleanOldLogs` hands to `Glob`: its directory part is the
directory of the log path, its file part is `*`, the extension and `.BAK`. -/
theorem cleanPattern_split (path : Str) :
    cleanGlobPath (Split (cleanPattern path)).1 = Dir path ∧
      (Split (cleanPattern path)).2 = '*' :: (Ext path ++ ".BAK".toList) := by
  have hel := pattern_isElem (Ext path) (Ext_no_sep path)
  obtain ⟨o, ho, hends, hdir⟩ := join_clean (Dir path) _ (Dir_form path) hel
  have hne : Dir path ≠ [] := Clean_ne_nil _
  have hpat : cleanPattern path = o ++ '*' :: (Ext path ++ ".BAK".toList) := by
    unfold cleanPattern Join
    rw [if_pos hne, ← ho]
    simp only [List.append_assoc, List.singleton_append, List.cons_append, List.nil_append]
  rw [hpat, Split_append_sep o _ hel.2.1 hends]
  exact ⟨hdir, rfl⟩

/-! ### `AddDate` where the offset from UTC does not change -/

theorem norm_id (hi lo base : Int) (h0 : 0 ≤ lo) (h1 : lo < base) : norm hi lo base = (hi, lo) := by
  unfold norm
  simp only [not_lt.mpr h0, if_false, ge_iff_le, not_le.mpr h1]

theorem daysSinceEpoch_bounds (year : Int) (h0 : 0 ≤ year) (h1 : year < 10000) :
    106751990353566 ≤ daysSinceEpoch year ∧ daysSinceEpoch year ≤ 106751994005626 := by
  unfold daysSinceEpoch
  simp only
  omega

theorem toInt64_id (x : Int) (h0 : -9223372036854775808 ≤ x) (h1 : x < 9223372036854775808) :
    toInt64 x = x := by
  unfold toInt64
  omega

theorem daysBefore_bounds (m : Int) : 0 ≤ daysBefore m ∧ daysBefore m ≤ 365 := by
  unfold daysBefore
  generalize (m - 1).toNat = k
  have : k < 13 ∨ 13 ≤ k := by omega
  rcases this with h | h
  · interval_cases k <;> simp
  · rw [List.getD_eq_default _ _ (by simpa using h)]
    omega

/-- In a location whose offset from UTC never changes, `Date` for a day
shifted by `n` is the instant `n` times 24 hours later. -/
theorem Date_add_days (off lo hi : Int) (y m d h mi s ns n : Int)
    (hy : 0 ≤ y ∧ y < 10000) (hm : 1 ≤ m ∧ m ≤ 12) (hd : -1000000 ≤ d ∧ d ≤ 1000000)
    (hn : -1000000 ≤ d + n ∧ d + n ≤ 1000000) (hh : 0 ≤ h ∧ h < 24) (hmi : 0 ≤ mi ∧ mi < 60)
    (hs : 0 ≤ s ∧ s < 60) (hns : 0 ≤ ns ∧ ns < 1000000000) :
    Date (fun _ => (off, lo, hi)) y m (d + n) h mi s ns =
      Date (fun _ => (off, lo, hi)) y m d h mi s ns + n * 86400000000000 := by
  obtain ⟨b1, b2⟩ := daysSinceEpoch_bounds y hy.1 hy.2
  obtain ⟨c1, c2⟩ := daysBefore_bounds (m - 1 + 1)
  unfold Date
  simp only [norm_id y (m - 1) 12 (by omega) (by omega), norm_id s ns 1000000000 hns.1 hns.2,
    norm_id mi s 60 hs.1 hs.2, norm_id h mi 60 hmi.1 hmi.2, norm_id (d + n) h 24 hh.1 hh.2,
    norm_id d h 24 hh.1 hh.2]
  generalize daysSinceEpoch y = D at b1 b2 ⊢
  generalize daysBefore (m - 1 + 1) = B at c1 c2 ⊢
  have hL : ∃ L : Int, (if isLeap y = true ∧ m - 1 + 1 ≥ 3 then (1 : Int) else 0) = L ∧
      0 ≤ L ∧ L ≤ 1 := by
    split
    · exact ⟨1, rfl, by omega, by omega⟩
    · exact ⟨0, rfl, by omega, by omega⟩
  obtain ⟨L, hLe, l1, l2⟩ := hL
  rw [hLe]
  rw [toInt64_id _ (by omega) (by omega), toInt64_id _ (by omega) (by omega)]
  split_ifs <;> ring

/-- Where the offset from UTC never changes, the threshold of `CleanOldLogs`
is 30 times 24 hours before the instant that the civil fields of the clock
reading denote. -/
theorem cleanThreshold_fixed_zone (env : Env) (w : World) (off lo hi : Int)
    (hz : env.zone = fun _ => (off, lo, hi)) (ht : (env.clock w.ticks).Valid) :
    cleanThreshold env w = AddDate env.zone (env.clock w.ticks) 0 0 0 - thirtyDays := by
  obtain ⟨h1, h2, h3, h4, h5, h6, h7, h8, h9⟩ := ht
  unfold cleanThreshold AddDate thirtyDays
  rw [hz]
  simp only [add_zero]
  have := Date_add_days off lo hi (env.clock w.ticks).year (env.clock w.ticks).month
    (env.clock w.ticks).day (env.clock w.ticks).hour (env.clock w.ticks).minute
    (env.clock w.ticks).second (env.clock w.ticks).nano (-30)
    (by omega) (by omega) (by omega) (by omega) (by omega) (by omega) (by omega) (by omega)
  rw [this]
  ring

/-! ### C7: the files `CleanOldLogs` removes -/

/-- What `CleanOldLogs` leaves as it is: the logger, the table of open files,
and the content and modification time of every file but the one the logger
writes to. -/
theorem CleanOldLogs_frame (env : Env) (l : Logger) (w : World) :
    (CleanOldLogs env l w).1 = l ∧
      (CleanOldLogs env l w).2.files = w.files ∧
      ∀ i, i ≠ (w.files l.log.out).ino →
        (CleanOldLogs env l w).2.mtime env i = w.mtime env i ∧
        (CleanOldLogs env l w).2.content i = w.content i := by
  cases hg : Glob w (cleanPattern l.logPath) with
  | error e =>
    rw [CleanOldLogs_error env l w e hg]
    obtain ⟨_, hm, hf, hc, ht, _, _⟩ := logLine_fields l.log env w "ERROR".toList
      ("Failed to list backup log files: ".toList ++ e)
    refine ⟨rfl, hf, fun i hi => ⟨mtime_congr env w _ i hm ?_, hc i hi⟩⟩
    rcases ht with ht | ht
    · rw [ht]
    · rw [ht, Function.update_noteq hi]
  | ok files =>
    rw [CleanOldLogs_ok env l w files hg]
    obtain ⟨hm, hf, hc, _, ht, _, _⟩ :=
      cleanLoop_frame env l (cleanThreshold env w) files w.tick
    refine ⟨rfl, hf, fun i hi => ⟨mtime_congr env w _ i hm ?_, hc i hi⟩⟩
    rcases ht i with ht | ⟨h1, _⟩
    · exact ht
    · exact absurd h1 hi

/-- The files `Glob` returns for the pattern of `CleanOldLogs` when the
directory of the log path has no wildcard: the files in that directory whose
name matches `*`, the extension and `.BAK`. -/
theorem Glob_cleanPattern (w : World) (path : Str) (files : List Str)
    (hdir : hasMeta (Dir path) = false)
    (hg : Glob w (cleanPattern path) = Except.ok files) (k : Str) :
    k ∈ files ↔
      k ∈ w.paths ∧ (Split k).2 ≠ [] ∧ Clean (Split k).1 = Dir path ∧
        Match ('*' :: (Ext path ++ ".BAK".toList)) (Split k).2 = Except.ok true := by
  rw [Glob_mem_iff w _ files hg k, (cleanPattern_split path).1, (cleanPattern_split path).2,
    dirMatches_plain _ _ _ hdir, Clean_Dir, decide_eq_true_iff]

theorem CleanOldLogs_trace (env : Env) (l : Logger) (w : World) (files : List Str)
    (hg : Glob w (cleanPattern l.logPath) = Except.ok files) :
    (newEvents w (CleanOldLogs env l w).2).filterMap Event.statPath = files := by
  rw [CleanOldLogs_ok env l w files hg]
  obtain ⟨_, _, _, _, _, _, evs, htr, hev⟩ :=
    cleanLoop_frame env l (cleanThreshold env w) files w.tick
  rw [newEvents_append w _ evs htr, hev]

theorem CleanOldLogs_removes (env : Env) (l : Logger) (w : World) (files : List Str)
    (hg : Glob w (cleanPattern l.logPath) = Except.ok files) (f : Str) (i : Nat)
    (hf : f ∈ files) (hl : w.lookup f = some i) (hi : i ≠ (w.files l.log.out).ino)
    (hold : w.mtime env i < cleanThreshold env w) (hs : env.statErr f = none)
    (hr : env.removeErr f = none) :
    f ∉ (CleanOldLogs env l w).2.paths := by
  rw [CleanOldLogs_ok env l w files hg]
  exact cleanLoop_removes env l (cleanThreshold env w) f i hs hr files w.tick hf hi
    (Or.inr ⟨hl, hold⟩)

theorem metaWorld_glob :
    Glob metaWorld (cleanPattern metaLogger.logPath) = Except.ok ["logs1/x.log.BAK".toList] :=
  rfl

/-- C7, as stated, fails: the directory of the log path `logs[1]/app.log` is
`logs[1]`, yet `CleanOldLogs` removes the old file `logs1/x.log.BAK`, which is
in the directory `logs1`, and keeps the old backup `logs[1]/old.log.BAK`, which
is in the directory of the log and is named like `*.log.BAK`. -/
theorem C7_counterexample :
    Dir metaLogger.logPath = "logs[1]".toList ∧
    Clean (Split "logs1/x.log.BAK".toList).1 = "logs1".toList ∧
    metaWorld.lookup "logs1/x.log.BAK".toList = some 2 ∧
    "logs1/x.log.BAK".toList ∉ (CleanOldLogs envOk metaLogger metaWorld).2.paths ∧
    Clean (Split "logs[1]/old.log.BAK".toList).1 = Dir metaLogger.logPath ∧
    metaWorld.mtime envOk 1 < cleanThreshold envOk metaWorld ∧
    (CleanOldLogs envOk metaLogger metaWorld).2.lookup "logs[1]/old.log.BAK".toList = some 1 := by
  refine ⟨rfl, rfl, rfl, ?_, rfl, by decide, ?_⟩
  · exact CleanOldLogs_removes envOk metaLogger metaWorld _ metaWorld_glob
      "logs1/x.log.BAK".toList 2 (List.mem_singleton.mpr rfl) rfl (by decide) (by decide) rfl rfl
  · rw [CleanOldLogs_keeps envOk metaLogger metaWorld "logs[1]/old.log.BAK".toList]
    · rfl
    · intro files hf
      rw [metaWorld_glob] at hf
      cases hf
      decide

/-- C7, amended: for a log path whose directory has no wildcard character,
`Glob` returns the files in the directory of the log whose name matches `*`,
the extension and `.BAK`, and `CleanOldLogs` removes a file only if it is one
of them and a stat of the call can find its modification time before the
threshold (for the file the logger writes to, that time may be a later clock
reading of the call); the threshold is the clock reading moved back by 30
days of the calendar in the local zone, which is 30 times 24 hours where the
offset from UTC never changes; a file that is in another directory, or does not match, or is not that
old keeps its name and, unless it is the file of the logger, its content and
modification time; every file of the result gets its stat, in order, whatever
fails for the others; and each old file of the result, other than the file of
the logger, whose own stat and remove succeed is removed. -/
theorem C7_clean_old_logs (env : Env) (l : Logger) (w : World)
    (hdir : hasMeta (Dir l.logPath) = false) :
    (CleanOldLogs env l w).1 = l ∧
    (∀ files, Glob w (cleanPattern l.logPath) = Except.ok files → ∀ k,
      (k ∈ files ↔
        k ∈ w.paths ∧ (Split k).2 ≠ [] ∧ Clean (Split k).1 = Dir l.logPath ∧
          Match ('*' :: (Ext l.logPath ++ ".BAK".toList)) (Split k).2 = Except.ok true)) ∧
    (∀ p, p ∈ w.paths → p ∉ (CleanOldLogs env l w).2.paths →
      Clean (Split p).1 = Dir l.logPath ∧
      Match ('*' :: (Ext l.logPath ++ ".BAK".toList)) (Split p).2 = Except.ok true ∧
      ∃ i, w.lookup p = some i ∧
        (w.mtime env i < cleanThreshold env w ∨
          (i = (w.files l.log.out).ino ∧
            ∃ n, w.ticks < n ∧ (env.clock n).unixNano < cleanThreshold env w))) ∧
    (∀ p i, w.lookup p = some i →
      (Clean (Split p).1 ≠ Dir l.logPath ∨
        Match ('*' :: (Ext l.logPath ++ ".BAK".toList)) (Split p).2 ≠ Except.ok true ∨
        (¬ w.mtime env i < cleanThreshold env w ∧
          (i = (w.files l.log.out).ino →
            ∀ n, w.ticks < n → ¬ (env.clock n).unixNano < cleanThreshold env w))) →
      (CleanOldLogs env l w).2.lookup p = some i) ∧
    (∀ i, i ≠ (w.files l.log.out).ino →
      (CleanOldLogs env l w).2.mtime env i = w.mtime env i ∧
      (CleanOldLogs env l w).2.content i = w.content i) ∧
    (∀ files, Glob w (cleanPattern l.logPath) = Except.ok files →
      (newEvents w (CleanOldLogs env l w).2).filterMap Event.statPath = files ∧
      ∀ f ∈ files, ∀ i, w.lookup f = some i → i ≠ (w.files l.log.out).ino →
        w.mtime env i < cleanThreshold env w → env.statErr f = none →
        env.removeErr f = none → f ∉ (CleanOldLogs env l w).2.paths) ∧
    (cleanThreshold env w = AddDate env.zone (env.clock w.ticks) 0 0 (-30) ∧
      ∀ off lo hi, (env.zone = fun _ => (off, lo, hi)) → (env.clock w.ticks).Valid →
        cleanThreshold env w = AddDate env.zone (env.clock w.ticks) 0 0 0 - thirtyDays) := by
  obtain ⟨hl, _, hframe⟩ := CleanOldLogs_frame env l w
  obtain ⟨q, hlook, hpaths, hq⟩ := CleanOldLogs_lookup env l w
  refine ⟨hl, ?_, ?_, ?_, hframe, ?_,
    ⟨rfl, fun off lo hi hz ht => cleanThreshold_fixed_zone env w off lo hi hz ht⟩⟩
  · intro files hg k
    exact Glob_cleanPattern w l.logPath files hdir hg k
  · intro p hp hnp
    have hqp : q p = false := by
      by_contra hc
      exact hnp ((hpaths p).mpr ⟨hp, by simpa using hc⟩)
    obtain ⟨⟨files, hg, hmem⟩, hold⟩ := hq p hqp
    have := (Glob_cleanPattern w l.logPath files hdir hg p).mp hmem
    exact ⟨this.2.2.1, this.2.2.2, hold⟩
  · intro p i hlp hcase
    have hqp : q p = true := by
      by_contra hc
      have hqf : q p = false := by simpa using hc
      obtain ⟨⟨files, hg, hmem⟩, j, hj, hold⟩ := hq p hqf
      have hm := (Glob_cleanPattern w l.logPath files hdir hg p).mp hmem
      have hji : j = i := by
        rw [hlp] at hj
        exact (Option.some.inj hj).symm
      rw [hji] at hold
      rcases hcase with h | h | ⟨h1, h2⟩
      · exact h hm.2.2.1
      · exact h hm.2.2.2
      · rcases hold with ho | ⟨hi, n, hn, hlt⟩
        · exact h1 ho
        · exact h2 hi n hn hlt
    rw [hlook p, if_pos hqp]
    exact hlp
  · intro files hg
    refine ⟨CleanOldLogs_trace env l w files hg, ?_⟩
    intro f hf i hlf hi hold hs hr
    exact CleanOldLogs_removes env l w files hg f i hf hlf hi hold hs hr

theorem cleanupWorld_glob :
    Glob cleanupWorld (cleanPattern dirLogger.logPath) =
      Except.ok ["logs/a.log.BAK".toList, "logs/b.log.BAK".toList, "logs/c.log.BAK".toList,
        "./logs/d.log.BAK".toList] := rfl

theorem springWorld_glob :
    Glob springWorld (cleanPattern dirLogger.logPath) = Except.ok ["logs/a.log.BAK".toList] :=
  rfl

/-- C7 on `logs/app.log` (directory `logs`): of the four files that `Glob`
returns, `logs/a.log.BAK` and `./logs/d.log.BAK` are old and are removed,
although the remove of `logs/c.log.BAK` before the second is refused;
`logs/b.log.BAK` is recent and stays, as do `logs/notes.txt` and the old
`other/z.log.BAK`; the four files are stat'ed in the order of their names.
And in central Europe at noon of 15 April 2024 the threshold is 719 hours
before the clock reading, so that a backup written 29 days, 23 hours and
30 minutes before is removed. -/
theorem C7_clean_old_logs_witness :
    hasMeta (Dir dirLogger.logPath) = false ∧
    Dir dirLogger.logPath = "logs".toList ∧
    "logs/a.log.BAK".toList ∉ (CleanOldLogs envRemoveFails dirLogger cleanupWorld).2.paths ∧
    "./logs/d.log.BAK".toList ∉ (CleanOldLogs envRemoveFails dirLogger cleanupWorld).2.paths ∧
    (CleanOldLogs envRemoveFails dirLogger cleanupWorld).2.lookup "logs/b.log.BAK".toList =
      some 2 ∧
    (CleanOldLogs envRemoveFails dirLogger cleanupWorld).2.lookup "logs/notes.txt".toList =
      some 4 ∧
    (CleanOldLogs envRemoveFails dirLogger cleanupWorld).2.lookup "other/z.log.BAK".toList =
      some 5 ∧
    (newEvents cleanupWorld (CleanOldLogs envRemoveFails dirLogger cleanupWorld).2).filterMap
        Event.statPath =
      ["logs/a.log.BAK".toList, "logs/b.log.BAK".toList, "logs/c.log.BAK".toList,
        "./logs/d.log.BAK".toList] ∧
    cleanThreshold envSpring springWorld = (envSpring.clock 0).unixNano - 719 * 3600000000000 ∧
    springWorld.mtime envSpring 1 =
      (envSpring.clock 0).unixNano - (29 * 86400 + 23 * 3600 + 30 * 60) * 1000000000 ∧
    "logs/a.log.BAK".toList ∉ (CleanOldLogs envSpring dirLogger springWorld).2.paths :=
  ⟨by decide, rfl,
    ((C7_clean_old_logs envRemoveFails dirLogger cleanupWorld (by decide)).2.2.2.2.2.1 _
      cleanupWorld_glob).2 "logs/a.log.BAK".toList (by decide) 1 rfl (by decide) (by decide)
      rfl rfl,
    ((C7_clean_old_logs envRemoveFails dirLogger cleanupWorld (by decide)).2.2.2.2.2.1 _
      cleanupWorld_glob).2 "./logs/d.log.BAK".toList (by decide) 6 rfl (by decide) (by decide)
      rfl rfl,
    (C7_clean_old_logs envRemoveFails dirLogger cleanupWorld (by decide)).2.2.2.1
      "logs/b.log.BAK".toList 2 rfl
      (Or.inr (Or.inr ⟨by decide, fun h => absurd h (by decide)⟩)),
    (C7_clean_old_logs envRemoveFails dirLogger cleanupWorld (by decide)).2.2.2.1
      "logs/notes.txt".toList 4 rfl
      (Or.inr (Or.inl (fun h => by
        have h2 : Match ('*' :: (Ext dirLogger.logPath ++ ".BAK".toList))
            (Split "logs/notes.txt".toList).2 = Except.ok false := rfl
        rw [h2] at h
        cases h))),
    (C7_clean_old_logs envRemoveFails dirLogger cleanupWorld (by decide)).2.2.2.1
      "other/z.log.BAK".toList 5 rfl (Or.inl (by decide)),
    ((C7_clean_old_logs envRemoveFails dirLogger cleanupWorld (by decide)).2.2.2.2.2.1 _
      cleanupWorld_glob).1,
    rfl, rfl,
    ((C7_clean_old_logs envSpring dirLogger springWorld (by decide)).2.2.2.2.2.1 _
      springWorld_glob).2 "logs/a.log.BAK".toList (by decide) 1 rfl (by decide) (by decide)
      rfl rfl⟩

/-- The log file that the pattern of its own cleanup matches: `CleanOldLogs`
removes the old `0.BAK.BAK`, writes a line about it to the log file
`a.BAK.BAK`, and therefore finds the log file, old at the start, recent. -/
theorem cleanOldLogs_own_file :
    Glob bakWorld (cleanPattern bakLogger.logPath) =
        Except.ok ["0.BAK.BAK".toList, "a.BAK.BAK".toList] ∧
      bakWorld.mtime envOk 0 < cleanThreshold envOk bakWorld ∧
      (CleanOldLogs envOk bakLogger bakWorld).2.paths = ["a.BAK.BAK".toList] :=
  ⟨rfl, by decide, rfl⟩

end LogHandler
